import Mathlib

/-!
# pdax-monitor: order-book replica, byte cursors, trade and order decoding, captcha solver,
supervisor and websocket bootstrap

Shallow embedding of `internal/order/order.go`, `internal/websocket/binary/binary.go`,
`internal/trade/trade.go`, `internal/service/monitor.go`, `internal/auth/captcha.go`,
`internal/websocket/websocket.go`, `requestPage` of `tools/history/main.go` and the record
types of `monitor.go`.

Conventions of the embedding

* a Go run-time panic (index or slice bound out of range) is the result `none`;
* Go `int` indices are `Int`; `uint8`, `uint16`, `uint32`, `uint64` and `uint` values are
  naturals, reduced modulo the width where the Go operation can wrap;
* a `float64` stored in a record or moved over the wire is carried as its IEEE-754
  binary64 bit pattern (a natural below `2 ^ 64`); Go's `==` on such values is `f64Eq`, the
  number a pattern denotes is `f64Val`;
* in the arithmetic of `DecodeTime` a finite `float64` is the rational number it denotes and
  every operator rounds its exact result to the nearest `float64` value (`f64Round`);
* the mutex of `PDAXOrderBook` only serialises callers and is not part of the state;
* what lies outside the program (the solver service, the login, the websocket connection, the
  clock, the cancellation of the context) enters as an argument that tells what each call
  returns; what the program does to it (frames written, trades stored, minutes slept) is
  returned as a value.
-/

namespace PdaxMonitor

/-! ## float64 bit patterns and Go's `==` -/

/-- The pattern is a NaN: exponent field all ones and a non-zero fraction. -/
def f64IsNaN (x : Nat) : Bool :=
  x / 2 ^ 52 % 2 ^ 11 == 2047 && x % 2 ^ 52 != 0

/-- The pattern is `+0` or `-0`: every bit below the sign bit is clear. -/
def f64IsZero (x : Nat) : Bool :=
  x % 2 ^ 63 == 0

/-- Go's `a == b` on two float64 values given by their bit patterns: a NaN equals nothing,
`+0 == -0`, and otherwise the patterns must agree. -/
def f64Eq (a b : Nat) : Bool :=
  !f64IsNaN a && !f64IsNaN b && (a == b || (f64IsZero a && f64IsZero b))

/-! ## Records of `monitor.go` -/

/-- The Go struct `monitor.Order`; the three float64 fields hold bit patterns. -/
structure Order where
  Price : Nat
  PriceDec : Nat
  Quantity : Nat
  QuantityDec : Nat
  Timestamp : Nat
  Side : Nat
  deriving DecidableEq, Repr

/-- The Go struct `monitor.OrderUpdate`. -/
structure OrderUpdate where
  Quantity : Nat
  Timestamp : Nat
  deriving DecidableEq, Repr

/-- The Go struct `monitor.OrderBookUpdate`. -/
structure OrderBookUpdate where
  Insert : Order
  Update : OrderUpdate
  Remove : Bool
  OldIndex : Int
  NewIndex : Int
  deriving DecidableEq, Repr

/-- The zero value `monitor.Order{}`. -/
def Order.zero : Order := ⟨0, 0, 0, 0, 0, 0⟩

/-- The zero value `monitor.OrderUpdate{}`. -/
def OrderUpdate.zero : OrderUpdate := ⟨0, 0⟩

/-- Go's struct comparison `a == b` on `monitor.Order`: field by field, floats by `f64Eq`. -/
def Order.eq (a b : Order) : Bool :=
  f64Eq a.Price b.Price && a.PriceDec == b.PriceDec && f64Eq a.Quantity b.Quantity
    && a.QuantityDec == b.QuantityDec && f64Eq a.Timestamp b.Timestamp && a.Side == b.Side

/-- Go's struct comparison `a == b` on `monitor.OrderUpdate`. -/
def OrderUpdate.eq (a b : OrderUpdate) : Bool :=
  f64Eq a.Quantity b.Quantity && f64Eq a.Timestamp b.Timestamp

/-! ## Go slices of orders -/

/-- A Go slice `[]monitor.Order`: `elems` are the `len` visible elements, `spare` is the rest of
the backing array up to the capacity. -/
structure OrderSlice where
  elems : List Order
  spare : List Order
  deriving DecidableEq, Repr

namespace OrderSlice

/-- Go `len(s)`. -/
def len (s : OrderSlice) : Nat := s.elems.length

/-- Go `cap(s)`. -/
def cap (s : OrderSlice) : Nat := s.elems.length + s.spare.length

/-- Go `s[:high]`: panics unless `0 <= high <= cap(s)`. -/
def sliceTo (s : OrderSlice) (high : Int) : Option OrderSlice :=
  if 0 ≤ high ∧ high ≤ (s.cap : Int) then
    some ⟨(s.elems ++ s.spare).take high.toNat, (s.elems ++ s.spare).drop high.toNat⟩
  else none

/-- Go `s[low:]`: panics unless `0 <= low <= len(s)`. -/
def sliceFrom (s : OrderSlice) (low : Int) : Option OrderSlice :=
  if 0 ≤ low ∧ low ≤ (s.len : Int) then
    some ⟨s.elems.drop low.toNat, s.spare⟩
  else none

/-- Go `s[i]` as a value: panics unless `0 <= i < len(s)`. -/
def index (s : OrderSlice) (i : Int) : Option Order :=
  if 0 ≤ i ∧ i < (s.len : Int) then s.elems.get? i.toNat else none

/-- Go `s[i] = v`: panics unless `0 <= i < len(s)`. -/
def assign (s : OrderSlice) (i : Int) (v : Order) : Option OrderSlice :=
  if 0 ≤ i ∧ i < (s.len : Int) then some ⟨s.elems.set i.toNat v, s.spare⟩ else none

/-- Go `append(s, vs...)`. When the capacity suffices the values are stored into the backing
array after the visible elements; otherwise a new array is allocated, whose spare room
`grow (cap s) (len s + len vs)` is chosen by the run time. The values `vs` are those of the
source operand before the copy (the copy is a `memmove`). -/
def append (grow : Nat → Nat → Nat) (s : OrderSlice) (vs : List Order) : OrderSlice :=
  if vs.length ≤ s.spare.length then
    ⟨s.elems ++ vs, s.spare.drop vs.length⟩
  else
    ⟨s.elems ++ vs, List.replicate (grow s.cap (s.len + vs.length)) Order.zero⟩

end OrderSlice

/-! ## `internal/order/order.go` -/

/-- The constant `orderBookCapacity`. -/
def orderBookCapacity : Nat := 800

/-- The Go struct `PDAXOrderBook` (without its lock). -/
structure PDAXOrderBook where
  orders : OrderSlice
  deriving DecidableEq, Repr

/-- `NewOrderBook`: `make([]monitor.Order, 0, orderBookCapacity)`. -/
def NewOrderBook : PDAXOrderBook :=
  ⟨⟨[], List.replicate orderBookCapacity Order.zero⟩⟩

namespace PDAXOrderBook

/-- `Orders`: the visible elements of the slice. -/
def Orders (ob : PDAXOrderBook) : List Order := ob.orders.elems

/-- The method `insert(index, order)`. -/
def insert (grow : Nat → Nat → Nat) (ob : PDAXOrderBook) (index : Int) (order : Order) :
    Option PDAXOrderBook :=
  if (ob.orders.len : Int) = index then
    some ⟨ob.orders.append grow [order]⟩
  else do
    let a ← ob.orders.sliceTo (index + 1)
    let b ← ob.orders.sliceFrom index
    let s ← (a.append grow b.elems).assign index order
    pure ⟨s⟩

/-- The method `remove(index)`. -/
def remove (grow : Nat → Nat → Nat) (ob : PDAXOrderBook) (index : Int) : Option PDAXOrderBook := do
  let a ← ob.orders.sliceTo index
  let b ← ob.orders.sliceFrom (index + 1)
  pure ⟨a.append grow b.elems⟩

/-- The method `update(oldIndex, newIndex, update)`. -/
def update (grow : Nat → Nat → Nat) (ob : PDAXOrderBook) (oldIndex newIndex : Int)
    (update : OrderUpdate) : Option PDAXOrderBook := do
  let oldOrder ← ob.orders.index oldIndex
  let oldOrder := { oldOrder with Quantity := update.Quantity }
  let oldOrder := { oldOrder with Timestamp := update.Timestamp }
  if oldIndex ≠ newIndex then
    let ob ← ob.remove grow oldIndex
    ob.insert grow newIndex oldOrder
  else
    let s ← ob.orders.assign oldIndex oldOrder
    pure ⟨s⟩

/-- The method `Apply(update)`: remove, else insert, else update, else nothing. -/
def Apply (grow : Nat → Nat → Nat) (ob : PDAXOrderBook) (update : OrderBookUpdate) :
    Option PDAXOrderBook :=
  if update.Remove then
    ob.remove grow update.OldIndex
  else if !(update.Insert.eq Order.zero) then
    ob.insert grow update.NewIndex update.Insert
  else if !(update.Update.eq OrderUpdate.zero) then
    ob.update grow update.OldIndex update.NewIndex update.Update
  else
    some ob

end PDAXOrderBook

/-! ## The three variants of an update and sequences of updates -/

/-- The literal `monitor.OrderBookUpdate{Insert: order, NewIndex: newIndex}`. -/
def OrderBookUpdate.mkInsert (order : Order) (newIndex : Int) : OrderBookUpdate :=
  ⟨order, OrderUpdate.zero, false, 0, newIndex⟩

/-- The literal `monitor.OrderBookUpdate{Update: update, OldIndex: oldIndex, NewIndex: newIndex}`. -/
def OrderBookUpdate.mkUpdate (update : OrderUpdate) (oldIndex newIndex : Int) : OrderBookUpdate :=
  ⟨Order.zero, update, false, oldIndex, newIndex⟩

/-- The literal `monitor.OrderBookUpdate{Remove: true, OldIndex: oldIndex}`. -/
def OrderBookUpdate.mkRemove (oldIndex : Int) : OrderBookUpdate :=
  ⟨Order.zero, OrderUpdate.zero, true, oldIndex, 0⟩

/-- Only the Remove variant is populated. -/
def OrderBookUpdate.isRemove (u : OrderBookUpdate) : Bool :=
  u.Remove && u.Insert.eq Order.zero && u.Update.eq OrderUpdate.zero

/-- Only the Insert variant is populated. -/
def OrderBookUpdate.isInsert (u : OrderBookUpdate) : Bool :=
  !u.Remove && !u.Insert.eq Order.zero && u.Update.eq OrderUpdate.zero

/-- Only the Update variant is populated. -/
def OrderBookUpdate.isUpdate (u : OrderBookUpdate) : Bool :=
  !u.Remove && u.Insert.eq Order.zero && !u.Update.eq OrderUpdate.zero

/-- An update is well formed for a book of `n` orders: exactly one variant is populated and the
indices that variant uses are in range (`0 <= OldIndex < n` for a removal, `0 <= NewIndex <= n`
for an insertion, both indices in `[0, n)` for an update). -/
def OrderBookUpdate.wellFormed (n : Nat) (u : OrderBookUpdate) : Bool :=
  (u.isRemove && decide (0 ≤ u.OldIndex) && decide (u.OldIndex < (n : Int)))
  || (u.isInsert && decide (0 ≤ u.NewIndex) && decide (u.NewIndex ≤ (n : Int)))
  || (u.isUpdate && decide (0 ≤ u.OldIndex) && decide (u.OldIndex < (n : Int))
        && decide (0 ≤ u.NewIndex) && decide (u.NewIndex < (n : Int)))

/-- The updates of a sequence applied in order with `Apply`, stopping at the first fault. -/
def applyAll (grow : Nat → Nat → Nat) : PDAXOrderBook → List OrderBookUpdate → Option PDAXOrderBook
  | ob, [] => some ob
  | ob, u :: us => (ob.Apply grow u).bind (fun ob1 => applyAll grow ob1 us)

/-- Every update of the sequence is well formed for the book state immediately before it. -/
def wellFormedSeq (grow : Nat → Nat → Nat) : PDAXOrderBook → List OrderBookUpdate → Bool
  | _, [] => true
  | ob, u :: us =>
    u.wellFormed ob.Orders.length &&
      (match ob.Apply grow u with
       | some ob1 => wellFormedSeq grow ob1 us
       | none => true)

/-- The order at `oldIndex` with the quantity and timestamp of an update. -/
def Order.modified (o : Order) (d : OrderUpdate) : Order :=
  { o with Quantity := d.Quantity, Timestamp := d.Timestamp }

/-! ## `internal/websocket/binary/binary.go`

Byte buffers are lists of naturals (each a byte, below 256). The functions of Go's
`encoding/binary` that the cursors call are given with their bounds check and their arithmetic. -/

/-- Go `b[pos:]` on a byte slice with a `uint` position: panics unless `pos <= len(b)`. -/
def bytesFrom (b : List Nat) (pos : Nat) : Option (List Nat) :=
  if pos ≤ b.length then some (b.drop pos) else none

/-- Go `binary.BigEndian.Uint16(b)`: the bounds check `_ = b[1]`, then
`uint16(b[1]) | uint16(b[0])<<8`. -/
def BigEndian.Uint16 (b : List Nat) : Option Nat :=
  if 1 < b.length then
    some (b.getD 1 0 ||| (b.getD 0 0 <<< 8) % 2 ^ 16)
  else none

/-- Go `binary.BigEndian.Uint32(b)`: the bounds check `_ = b[3]`, then
`uint32(b[3]) | uint32(b[2])<<8 | uint32(b[1])<<16 | uint32(b[0])<<24`. -/
def BigEndian.Uint32 (b : List Nat) : Option Nat :=
  if 3 < b.length then
    some (b.getD 3 0 ||| (b.getD 2 0 <<< 8) % 2 ^ 32 ||| (b.getD 1 0 <<< 16) % 2 ^ 32
      ||| (b.getD 0 0 <<< 24) % 2 ^ 32)
  else none

/-- Go `binary.BigEndian.Uint64(b)`: the bounds check `_ = b[7]`, then the eight bytes or-ed
together, `b[7]` lowest and `b[0]` shifted by 56. -/
def BigEndian.Uint64 (b : List Nat) : Option Nat :=
  if 7 < b.length then
    some (b.getD 7 0 ||| (b.getD 6 0 <<< 8) % 2 ^ 64 ||| (b.getD 5 0 <<< 16) % 2 ^ 64
      ||| (b.getD 4 0 <<< 24) % 2 ^ 64 ||| (b.getD 3 0 <<< 32) % 2 ^ 64
      ||| (b.getD 2 0 <<< 40) % 2 ^ 64 ||| (b.getD 1 0 <<< 48) % 2 ^ 64
      ||| (b.getD 0 0 <<< 56) % 2 ^ 64)
  else none

/-- Go `binary.BigEndian.PutUint16(b, v)`: the bounds check `_ = b[1]`, then
`b[0] = byte(v >> 8); b[1] = byte(v)`. -/
def BigEndian.PutUint16 (b : List Nat) (v : Nat) : Option (List Nat) :=
  if 1 < b.length then
    some ((b.set 0 ((v >>> 8) % 256)).set 1 (v % 256))
  else none

/-- Go `binary.BigEndian.PutUint64(b, v)`: the bounds check `_ = b[7]`, then
`b[0] = byte(v >> 56)`, ..., `b[7] = byte(v)`. -/
def BigEndian.PutUint64 (b : List Nat) (v : Nat) : Option (List Nat) :=
  if 7 < b.length then
    some ((((((((b.set 0 ((v >>> 56) % 256)).set 1 ((v >>> 48) % 256)).set 2
      ((v >>> 40) % 256)).set 3 ((v >>> 32) % 256)).set 4 ((v >>> 24) % 256)).set 5
      ((v >>> 16) % 256)).set 6 ((v >>> 8) % 256)).set 7 (v % 256))
  else none

/-- The Go struct `ReadCursor`: `CurPos` is a `uint`, `Data` the byte buffer. -/
structure ReadCursor where
  CurPos : Nat
  Data : List Nat
  deriving DecidableEq, Repr

/-- The Go struct `WriteCursor`. -/
structure WriteCursor where
  CurPos : Nat
  Data : List Nat
  deriving DecidableEq, Repr

namespace ReadCursor

/-- `ReadUint8`: the value is `rc.Data[rc.CurPos]`; the deferred function then adds 1 to
`CurPos`. -/
def ReadUint8 (rc : ReadCursor) : Option (Nat × ReadCursor) := do
  let v ← rc.Data.get? rc.CurPos
  pure (v, { rc with CurPos := (rc.CurPos + 1) % 2 ^ 64 })

/-- `ReadUint32`: `binary.BigEndian.Uint32(rc.Data[rc.CurPos:])`, then `CurPos += 4`. -/
def ReadUint32 (rc : ReadCursor) : Option (Nat × ReadCursor) := do
  let b ← bytesFrom rc.Data rc.CurPos
  let v ← BigEndian.Uint32 b
  pure (v, { rc with CurPos := (rc.CurPos + 4) % 2 ^ 64 })

/-- `ReadUint16`: `binary.BigEndian.Uint16(rc.Data[rc.CurPos:])`, then `CurPos += 2`. -/
def ReadUint16 (rc : ReadCursor) : Option (Nat × ReadCursor) := do
  let b ← bytesFrom rc.Data rc.CurPos
  let v ← BigEndian.Uint16 b
  pure (v, { rc with CurPos := (rc.CurPos + 2) % 2 ^ 64 })

/-- `ReadUint16Float`: the float64 whose bit pattern is the 16-bit value widened to 64 bits;
then `CurPos += 2`. -/
def ReadUint16Float (rc : ReadCursor) : Option (Nat × ReadCursor) := do
  let b ← bytesFrom rc.Data rc.CurPos
  let v ← BigEndian.Uint16 b
  pure (v, { rc with CurPos := (rc.CurPos + 2) % 2 ^ 64 })

/-- `ReadFloat64`: the float64 whose bit pattern is
`binary.BigEndian.Uint64(rc.Data[rc.CurPos:])`, then `CurPos += 8`. -/
def ReadFloat64 (rc : ReadCursor) : Option (Nat × ReadCursor) := do
  let b ← bytesFrom rc.Data rc.CurPos
  let v ← BigEndian.Uint64 b
  pure (v, { rc with CurPos := (rc.CurPos + 8) % 2 ^ 64 })

/-- `Advance`: `CurPos += shift`, no read and no bounds check. -/
def Advance (rc : ReadCursor) (shift : Nat) : ReadCursor :=
  { rc with CurPos := (rc.CurPos + shift) % 2 ^ 64 }

end ReadCursor

namespace WriteCursor

/-- `WriteFloat64`: `binary.BigEndian.PutUint64(wc.Data[wc.CurPos:], math.Float64bits(f))`, the
bytes landing in `Data` from `CurPos` on; then `CurPos += 8`. The argument is the bit pattern. -/
def WriteFloat64 (wc : WriteCursor) (f : Nat) : Option WriteCursor := do
  let b ← bytesFrom wc.Data wc.CurPos
  let b1 ← BigEndian.PutUint64 b f
  pure { CurPos := (wc.CurPos + 8) % 2 ^ 64, Data := wc.Data.take wc.CurPos ++ b1 }

/-- `WriteUint8`: `wc.Data[wc.CurPos] = v`, then `CurPos++`. -/
def WriteUint8 (wc : WriteCursor) (v : Nat) : Option WriteCursor :=
  if wc.CurPos < wc.Data.length then
    some { CurPos := (wc.CurPos + 1) % 2 ^ 64, Data := wc.Data.set wc.CurPos v }
  else none

/-- `WriteUint16`: `binary.BigEndian.PutUint16(wc.Data[wc.CurPos:], v)`, then `CurPos += 2`. -/
def WriteUint16 (wc : WriteCursor) (v : Nat) : Option WriteCursor := do
  let b ← bytesFrom wc.Data wc.CurPos
  let b1 ← BigEndian.PutUint16 b v
  pure { CurPos := (wc.CurPos + 2) % 2 ^ 64, Data := wc.Data.take wc.CurPos ++ b1 }

end WriteCursor

/-! ## float64 arithmetic

A finite float64 value is carried in the arithmetic of `DecodeTime` as the rational number it
denotes. Each Go operator `+`, `-`, `*`, `/` on float64 values returns the exact result rounded
to the nearest float64 value, ties to even (`f64Round`). NaN, the infinities and the sign of zero
are not represented: `DecodeTime` divides by non-zero constants only, its intermediate values
stay far below `2 ^ 1024`, and none of its operations tells `-0` from `+0`. Where Go fuses
`x * y + z` into one rounding the result is the same whenever the product and the sum are whole
numbers below `2 ^ 53`, which is the case in the theorems below. -/

/-- Rounding of a rational to the nearest integer, a tie going to the even one. -/
def roundHalfEven (q : ℚ) : Int :=
  if q - ⌊q⌋ < 1 / 2 then ⌊q⌋
  else if 1 / 2 < q - ⌊q⌋ then ⌊q⌋ + 1
  else if ⌊q⌋ % 2 = 0 then ⌊q⌋ else ⌊q⌋ + 1

/-- The binary exponent at which a float64 holds `x`: `floor (log2 |x|)`, and `-1022` for the
subnormal magnitudes below `2 ^ (-1022)`. -/
def f64Exponent (x : ℚ) : Int :=
  max (Int.log 2 |x|) (-1022)

/-- IEEE-754 binary64 rounding to nearest, ties to even: the float64 value nearest to the
rational `x`, as the rational it denotes (53 significant bits at the exponent of `x`).
Overflow to an infinity, which needs a magnitude of `2 ^ 1024`, is not represented. -/
def f64Round (x : ℚ) : ℚ :=
  (roundHalfEven (x / 2 ^ (f64Exponent x - 52)) : ℚ) * 2 ^ (f64Exponent x - 52)

/-- Go `x + y` on float64 values. -/
def fadd (x y : ℚ) : ℚ := f64Round (x + y)

/-- Go `x - y` on float64 values. -/
def fsub (x y : ℚ) : ℚ := f64Round (x - y)

/-- Go `x * y` on float64 values. -/
def fmul (x y : ℚ) : ℚ := f64Round (x * y)

/-- Go `x / y` on float64 values, `y` not zero. -/
def fdiv (x y : ℚ) : ℚ := f64Round (x / y)

/-! ## `internal/trade/trade.go`: `DecodeTime`

`math.Floor` and `math.Ceil` are the integer floor and ceiling (their results are float64
values), `math.Mod` is the exact truncated remainder (the remainder of two float64 values is a
float64 value). -/

/-- Go `int(x)` for a float64 `x` in range: the fraction is discarded (truncation toward zero). -/
def truncToInt (x : ℚ) : Int :=
  if x < 0 then ⌈x⌉ else ⌊x⌋

/-- Go `math.Mod(x, y)` for finite `x` and finite non-zero `y`: `x - y * trunc(x / y)`, of the
sign of `x` and of magnitude below that of `y`; the result is exact. -/
def mathMod (x y : ℚ) : ℚ :=
  x - y * (truncToInt (x / y) : ℚ)

/-- The function `withO`. -/
def withO (o : ℚ) : ℚ :=
  if o ≤ 2 then 1 else 0

/-- The function `signedFloor`: `math.Ceil` below zero, `math.Floor` otherwise. -/
def signedFloor (s : ℚ) : ℚ :=
  if s < 0 then ((⌈s⌉ : Int) : ℚ) else ((⌊s⌋ : Int) : ℚ)

/-- The function `withS`. -/
def withS (s : ℚ) : ℚ :=
  if s < 10 then 3 else -9

/-- The function `withT`. -/
def withT (t : ℚ) : ℚ :=
  if t ≥ 0 then t else fsub t 146096

/-- The six calendar arguments of the call
`time.Date(year, time.Month(month), day, hour, minute, second, 0, time.UTC)` that ends
`DecodeTime`. When they lie in their usual ranges `time.Date` returns the instant with these
very fields; outside them it normalises, which this record does not do. -/
structure DateFields where
  year : Int
  month : Int
  day : Int
  hour : Int
  minute : Int
  second : Int
  deriving DecidableEq, Repr

/-- The function `DecodeTime`, up to the call of `time.Date`. -/
def DecodeTime (f : ℚ) : DateFields :=
  let t := fadd ((⌊fdiv f 86400⌋ : Int) : ℚ) 730425
  let n := signedFloor (fdiv (withT t) 146097)
  let r := fsub t (fmul 146097 n)
  let i := signedFloor (fdiv (fsub (fadd (fsub r (signedFloor (fdiv r 1460)))
    (signedFloor (fdiv r 36524))) (signedFloor (fdiv r 146096))) 365)
  let a := fsub r (fsub (fadd (fmul 365 i) (signedFloor (fdiv i 4))) (signedFloor (fdiv i 100)))
  let s := signedFloor (fdiv (fadd (fmul 5 a) 2) 153)
  let o := fadd s (withS s)
  { year := truncToInt (fadd (fadd i (fmul 400 n)) (withO o))
    month := truncToInt o
    day := truncToInt (fadd (fsub a (signedFloor (fdiv (fadd (fmul 153 s) 2) 5))) 1)
    hour := truncToInt (mathMod (signedFloor (fdiv f 3600)) 24)
    minute := truncToInt (mathMod (signedFloor (fdiv f 60)) 60)
    second := truncToInt (signedFloor (mathMod f 60)) }

/-! ## The proleptic Gregorian calendar, day by day -/

/-- A year is a leap year when it is divisible by 4 and not by 100, or divisible by 400. -/
def isLeapYear (y : Int) : Bool :=
  y % 4 == 0 && (y % 100 != 0 || y % 400 == 0)

/-- The number of days of month `m` (1 to 12) of year `y`. -/
def daysInMonth (y m : Int) : Int :=
  if m = 2 then (if isLeapYear y then 29 else 28)
  else if m = 4 ∨ m = 6 ∨ m = 9 ∨ m = 11 then 30
  else 31

/-- A calendar date. -/
structure CivilDate where
  year : Int
  month : Int
  day : Int
  deriving DecidableEq, Repr

/-- The day after a date: the next day of the month, else the first of the next month, else
the first of January of the next year. -/
def CivilDate.next (d : CivilDate) : CivilDate :=
  if d.day < daysInMonth d.year d.month then ⟨d.year, d.month, d.day + 1⟩
  else if d.month < 12 then ⟨d.year, d.month + 1, 1⟩
  else ⟨d.year + 1, 1, 1⟩

/-- The date `n` days after 2000-01-01. -/
def dateAfterEpoch : Nat → CivilDate
  | 0 => ⟨2000, 1, 1⟩
  | n + 1 => (dateAfterEpoch n).next

/-- The calendar instant (date and time of day, UTC) `f` seconds after 2000-01-01 00:00:00. -/
def instantAfterEpoch (f : Nat) : DateFields :=
  { year := (dateAfterEpoch (f / 86400)).year
    month := (dateAfterEpoch (f / 86400)).month
    day := (dateAfterEpoch (f / 86400)).day
    hour := ((f / 3600 % 24 : Nat) : Int)
    minute := ((f / 60 % 60 : Nat) : Int)
    second := ((f % 60 : Nat) : Int) }

/-! ## Integer form of the day arithmetic of `DecodeTime` -/

/-- Year of the 400-year era of the day `r` of the era, years starting on 1 March. -/
def yearOfEra (r : Int) : Int :=
  (r - r / 1460 + r / 36524 - r / 146096) / 365

/-- Day of the era on which the year `i` of the era starts (on 1 March). -/
def yearStart (i : Int) : Int :=
  365 * i + i / 4 - i / 100

/-- Number of days of the year `i` of the era, which runs from 1 March of year `i` to the end
of February of year `i + 1`. -/
def yearLength (i : Int) : Int :=
  if isLeapYear (i + 1) then 366 else 365

/-- Month of the day `a` of a year starting on 1 March. -/
def monthOfYearDay (a : Int) : Int :=
  let s := (5 * a + 2) / 153
  s + (if s < 10 then 3 else -9)

/-- Day of the month of the day `a` of a year starting on 1 March. -/
def dayOfYearDay (a : Int) : Int :=
  a - (153 * ((5 * a + 2) / 153) + 2) / 5 + 1

/-- One when the day `a` of a year starting on 1 March falls in January or February. -/
def yearCarry (a : Int) : Int :=
  if monthOfYearDay a ≤ 2 then 1 else 0

/-- The day after month `m`, day `d`, as (years to add, month, day); `leap` tells whether the
year is a leap year. -/
def nextFields (leap : Bool) (m d : Int) : Int × Int × Int :=
  if d < (if m = 2 then (if leap then 29 else 28)
          else if m = 4 ∨ m = 6 ∨ m = 9 ∨ m = 11 then 30 else 31) then (0, m, d + 1)
  else if m < 12 then (0, m + 1, 1)
  else (1, 1, 1)

/-- The entry for day `a` of the table of successive days of a year starting on 1 March:
`leapCur` is the leap status of the calendar year of day `a`, `leapNext` that of the calendar
year in which the year starting on 1 March ends. -/
def NextFieldsOK (a : Nat) (leapCur leapNext : Bool) : Prop :=
  (yearCarry a = 1 → leapCur = leapNext) →
    ((a : Int) + 1 < (if leapNext then 366 else 365) →
      nextFields leapCur (monthOfYearDay a) (dayOfYearDay a)
        = (yearCarry ((a : Int) + 1) - yearCarry a, monthOfYearDay ((a : Int) + 1),
            dayOfYearDay ((a : Int) + 1))) ∧
    ((a : Int) + 1 = (if leapNext then 366 else 365) →
      nextFields leapCur (monthOfYearDay a) (dayOfYearDay a) = (0, 3, 1) ∧ yearCarry a = 1)

/-- An entry of the table can be checked by evaluation. -/
instance (a : Nat) (leapCur leapNext : Bool) : Decidable (NextFieldsOK a leapCur leapNext) := by
  unfold NextFieldsOK
  infer_instance

/-- The fields are in the ranges in which `time.Date` does not normalise. -/
def DateFields.inRange (d : DateFields) : Prop :=
  1 ≤ d.month ∧ d.month ≤ 12 ∧ 1 ≤ d.day ∧ d.day ≤ daysInMonth d.year d.month ∧
    0 ≤ d.hour ∧ d.hour < 24 ∧ 0 ≤ d.minute ∧ d.minute < 60 ∧ 0 ≤ d.second ∧ d.second < 60

/-- Whether the fields are in range can be checked by evaluation. -/
instance (d : DateFields) : Decidable d.inRange := by
  unfold DateFields.inRange
  infer_instance

/-- The date computed by `DecodeTime` for the whole day number `t` counted from 0000-03-01,
in integer arithmetic with floor division. -/
def civilFromDays (t : Int) : CivilDate :=
  let n := t / 146097
  let r := t - 146097 * n
  let i := yearOfEra r
  let a := r - yearStart i
  let s := (5 * a + 2) / 153
  let o := s + (if s < 10 then 3 else -9)
  ⟨i + 400 * n + (if o ≤ 2 then 1 else 0), o, a - (153 * s + 2) / 5 + 1⟩

/-- The function `DecodeTime` on a whole number of seconds, in integer arithmetic: the date by
`civilFromDays` on the floor quotient by 86400, the time of day by truncated division
(`signedFloor` of a quotient) and truncated remainder (`math.Mod`). -/
def decodeTimeInt (f : Int) : DateFields :=
  { year := (civilFromDays (f / 86400 + 730425)).year
    month := (civilFromDays (f / 86400 + 730425)).month
    day := (civilFromDays (f / 86400 + 730425)).day
    hour := (f.tdiv 3600).tmod 24
    minute := (f.tdiv 60).tmod 60
    second := f.tmod 60 }

/-! ## float64 values and the conversion to `int64`

`f64Val` reads a bit pattern as the rational number it denotes. The conversions `int64(x)` and
`int(x)` (64 bits wide) of `ReadTrade` discard the fraction; when the value is a NaN, an
infinity or lies outside the range of `int64` Go leaves the result to the implementation, and
the value taken here is the one of amd64, the lowest `int64`. -/

/-- The finite value of the float64 with bit pattern `bits` (sign bit, 11 exponent bits, 52
fraction bits), `none` for a NaN or an infinity; both zeros have the value 0. -/
def f64Val (bits : Nat) : Option ℚ :=
  let sign : ℚ := if bits / 2 ^ 63 % 2 = 1 then -1 else 1
  let e : Nat := bits / 2 ^ 52 % 2 ^ 11
  let m : Nat := bits % 2 ^ 52
  if e = 2047 then none
  else if e = 0 then some (sign * (m : ℚ) * 2 ^ (-1074 : Int))
  else some (sign * (((2 ^ 52 + m : Nat) : ℚ)) * 2 ^ ((e : Int) - 1075))

/-- Go `int64(x)` (and `int(x)` on a 64-bit platform) for the float64 `x` with bit pattern
`bits`. -/
def f64ToInt64 (bits : Nat) : Int :=
  match f64Val bits with
  | none => -2 ^ 63
  | some x =>
    if -2 ^ 63 ≤ truncToInt x ∧ truncToInt x < 2 ^ 63 then truncToInt x else -2 ^ 63

/-! ## `internal/trade/trade.go`: `ReadTrade` and `ReadNullableTrade` -/

/-- The value `apd.New(coeff, exponent)` of `github.com/cockroachdb/apd`: the decimal
`Coeff * 10 ^ Exponent`, the sign carried by the coefficient. -/
structure Decimal where
  Coeff : Int
  Exponent : Int
  deriving DecidableEq, Repr

/-- The function `apd.New`. -/
def apd.New (coeff exponent : Int) : Decimal := ⟨coeff, exponent⟩

/-- The number a decimal denotes. -/
def Decimal.value (d : Decimal) : ℚ := (d.Coeff : ℚ) * 10 ^ d.Exponent

/-- The Go struct `monitor.Trade`. `Timestamp` holds the arguments that `DecodeTime` hands to
`time.Date`; it is `none` when the raw timestamp is a NaN or an infinity, on which the float64
arithmetic of `DecodeTime` is not carried here. -/
structure Trade where
  CurrencyPair : String
  Price : Decimal
  Quantity : Decimal
  Timestamp : Option DateFields
  deriving DecidableEq, Repr

/-- The Go struct `trade.Reader`: the map `CurrencyCodes` gives a symbol for some of the
integer codes. -/
structure Reader where
  CurrencyCodes : Int → Option String

/-- Go `m[k]` on a `map[int]string`: the symbol, or the empty string when `k` has no entry. -/
def Reader.lookup (tr : Reader) (k : Int) : String :=
  match tr.CurrencyCodes k with
  | some s => s
  | none => ""

/-- The method `ReadTrade`: seventeen reads in the order of the source, then the record built
from the timestamp, currency, price, quantity and the two decimal-place counts. -/
def Reader.ReadTrade (tr : Reader) (rc : ReadCursor) : Option (Trade × ReadCursor) :=
  match rc.ReadFloat64 with
  | none => none
  | some (_, rc) =>
  match rc.ReadFloat64 with
  | none => none
  | some (_, rc) =>
  match rc.ReadFloat64 with
  | none => none
  | some (ts1, rc) =>
  match rc.ReadUint32 with
  | none => none
  | some (_, rc) =>
  match rc.ReadUint8 with
  | none => none
  | some (_, rc) =>
  match rc.ReadFloat64 with
  | none => none
  | some (currency, rc) =>
  match rc.ReadFloat64 with
  | none => none
  | some (price, rc) =>
  match rc.ReadFloat64 with
  | none => none
  | some (quantity, rc) =>
  match rc.ReadFloat64 with
  | none => none
  | some (_, rc) =>
  match rc.ReadFloat64 with
  | none => none
  | some (_, rc) =>
  match rc.ReadUint8 with
  | none => none
  | some (_, rc) =>
  match rc.ReadFloat64 with
  | none => none
  | some (_, rc) =>
  match rc.ReadUint8 with
  | none => none
  | some (priceDec, rc) =>
  match rc.ReadUint8 with
  | none => none
  | some (quantityDec, rc) =>
  match rc.ReadUint8 with
  | none => none
  | some (_, rc) =>
  match rc.ReadUint8 with
  | none => none
  | some (_, rc) =>
  match rc.ReadUint32 with
  | none => none
  | some (_, rc) =>
  some ({ CurrencyPair := tr.lookup (f64ToInt64 currency) ++ "-PHP"
          Price := apd.New (f64ToInt64 price) (-(priceDec : Int))
          Quantity := apd.New (f64ToInt64 quantity) (-(quantityDec : Int))
          Timestamp := (f64Val ts1).map DecodeTime }, rc)

/-- The method `ReadNullableTrade`: `ReadTrade`, then fourteen more reads whose values are
dropped. -/
def Reader.ReadNullableTrade (tr : Reader) (rc : ReadCursor) : Option (Trade × ReadCursor) :=
  match tr.ReadTrade rc with
  | none => none
  | some (trade, rc) =>
  match rc.ReadUint8 with
  | none => none
  | some (_, rc) =>
  match rc.ReadUint8 with
  | none => none
  | some (_, rc) =>
  match rc.ReadUint8 with
  | none => none
  | some (_, rc) =>
  match rc.ReadUint8 with
  | none => none
  | some (_, rc) =>
  match rc.ReadFloat64 with
  | none => none
  | some (_, rc) =>
  match rc.ReadUint8 with
  | none => none
  | some (_, rc) =>
  match rc.ReadUint8 with
  | none => none
  | some (_, rc) =>
  match rc.ReadUint8 with
  | none => none
  | some (_, rc) =>
  match rc.ReadUint8 with
  | none => none
  | some (_, rc) =>
  match rc.ReadFloat64 with
  | none => none
  | some (_, rc) =>
  match rc.ReadUint8 with
  | none => none
  | some (_, rc) =>
  match rc.ReadFloat64 with
  | none => none
  | some (_, rc) =>
  match rc.ReadUint8 with
  | none => none
  | some (_, rc) =>
  match rc.ReadUint8 with
  | none => none
  | some (_, rc) =>
  some (trade, rc)

/-! ## `internal/service/monitor.go`: frames

The trade repository is the list of the trades handed to `TradeRepository.Insert`, oldest
first; an error of `Insert` is only logged, so the list is all the handlers can change. -/

/-- The constant `wsPageUpdate`. -/
def wsPageUpdate : Nat := 35

/-- The constant `wsPageReset`. -/
def wsPageReset : Nat := 36

/-- The constant `wsTradeViewID`, the float64 4.0, as its bit pattern. -/
def wsTradeViewID : Nat := 0x4010000000000000

/-- The loop of `handleTrade`, `for t := uint16(0); t < tradeCount; t += 2`, from the counter
value `t` on, for at most `fuel` rounds: it returns the repository and the cursor when the
counter reaches `tradeCount`, `none` when a read faults (or the rounds run out). -/
def handleTradeLoop (tr : Reader) (tradeCount : Nat) :
    Nat → Nat → ReadCursor → List Trade → Option (List Trade × ReadCursor)
  | 0, _, _, _ => none
  | fuel + 1, t, rc, repo =>
    if t < tradeCount then do
      let insert ← rc.ReadUint8
      let number ← insert.2.ReadUint16
      if number.1 = 128 then do
        let length ← number.2.ReadUint16
        let readTrade ← tr.ReadNullableTrade length.2
        handleTradeLoop tr tradeCount fuel ((t + 2) % 2 ^ 16) readTrade.2 (repo ++ [readTrade.1])
      else
        handleTradeLoop tr tradeCount fuel ((t + 2) % 2 ^ 16) number.2 repo
    else some (repo, rc)

/-- The method `handleTrade`. Every round of its loop reads at least three bytes or faults, so
`len(rc.Data) + 1` rounds are enough (`handleTrade_fuel`). -/
def handleTrade (tr : Reader) (rc : ReadCursor) (repo : List Trade) :
    Option (List Trade × ReadCursor) := do
  let pageID ← rc.ReadFloat64
  let nullable ← pageID.2.ReadUint8
  let tradeCount ← nullable.2.ReadUint16
  handleTradeLoop tr tradeCount.1 (rc.Data.length + 1) 0 tradeCount.2 repo

/-- The method `handleBinMessage` on the frame `data`: the repository after the frame, `none`
when decoding faults. -/
def handleBinMessage (tr : Reader) (data : List Nat) (repo : List Trade) :
    Option (List Trade) := do
  let rc : ReadCursor := { CurPos := 0, Data := data }
  let mtype ← rc.ReadUint8
  if mtype.1 = wsPageUpdate ∨ mtype.1 = wsPageReset then do
    let messageID ← mtype.2.ReadUint32
    let seqNumber ← messageID.2.ReadUint16
    let viewID ← seqNumber.2.ReadFloat64
    if f64Eq viewID.1 wsTradeViewID then do
      let handled ← handleTrade tr viewID.2 repo
      pure handled.1
    else pure repo
  else pure repo

/-! ## Fields of a buffer by offset

The big-endian values that the reads of a cursor return, as functions of the buffer and the
offset of the first byte. -/

/-- The 16-bit big-endian value of the two bytes of `d` from offset `p`. -/
def be16At (d : List Nat) (p : Nat) : Nat :=
  d.getD (p + 1) 0 ||| (d.getD p 0 <<< 8) % 2 ^ 16

/-- The 32-bit big-endian value of the four bytes of `d` from offset `p`. -/
def be32At (d : List Nat) (p : Nat) : Nat :=
  d.getD (p + 3) 0 ||| (d.getD (p + 2) 0 <<< 8) % 2 ^ 32 ||| (d.getD (p + 1) 0 <<< 16) % 2 ^ 32
    ||| (d.getD p 0 <<< 24) % 2 ^ 32

/-- The 64-bit big-endian value of the eight bytes of `d` from offset `p`. -/
def be64At (d : List Nat) (p : Nat) : Nat :=
  d.getD (p + 7) 0 ||| (d.getD (p + 6) 0 <<< 8) % 2 ^ 64 ||| (d.getD (p + 5) 0 <<< 16) % 2 ^ 64
    ||| (d.getD (p + 4) 0 <<< 24) % 2 ^ 64 ||| (d.getD (p + 3) 0 <<< 32) % 2 ^ 64
    ||| (d.getD (p + 2) 0 <<< 40) % 2 ^ 64 ||| (d.getD (p + 1) 0 <<< 48) % 2 ^ 64
    ||| (d.getD p 0 <<< 56) % 2 ^ 64

/-- The trade that `ReadTrade` builds from the 86 bytes of `d` from offset `p`: timestamp at
offset 16, currency at 29, price at 37, quantity at 45, the decimal-place counts at 78 and
79. -/
def tradeAt (tr : Reader) (d : List Nat) (p : Nat) : Trade :=
  { CurrencyPair := tr.lookup (f64ToInt64 (be64At d (p + 29))) ++ "-PHP"
    Price := apd.New (f64ToInt64 (be64At d (p + 37))) (-((d.getD (p + 78) 0 : Nat) : Int))
    Quantity := apd.New (f64ToInt64 (be64At d (p + 45))) (-((d.getD (p + 79) 0 : Nat) : Int))
    Timestamp := (f64Val (be64At d (p + 16))).map DecodeTime }

/-! ## Go `time.Date`

The call `time.Date(year, month, day, hour, min, sec, 0, time.UTC)` that ends `DecodeTime`
returns an instant. Go normalises the month into 1 to 12 carrying into the year, and lets day,
hour, minute and second lie outside their usual ranges, each unit overflowing into the next
("October 32 converts to November 1"): the instant is the start of the first day of the month
plus `day - 1` days, `hour` hours, `min` minutes and `sec` seconds. An instant is given here as
its number of seconds from 2000-01-01 00:00:00 UTC. -/

/-- The number of days from 2000-01-01 to day `d` of month `m` (1 to 12) of year `y` of the
proleptic Gregorian calendar; days outside the month run on into the neighbouring months. -/
def dayNumber (y m d : Int) : Int :=
  let y1 := if m ≤ 2 then y - 1 else y
  let m1 := if m ≤ 2 then m + 9 else m - 3
  365 * y1 + y1 / 4 - y1 / 100 + y1 / 400 + (153 * m1 + 2) / 5 + (d - 1) - 730425

/-- The instant that `time.Date` returns for the six arguments, in seconds from
2000-01-01 00:00:00 UTC. -/
def timeDate (d : DateFields) : Int :=
  dayNumber (d.year + (d.month - 1) / 12) ((d.month - 1) % 12 + 1) d.day * 86400
    + d.hour * 3600 + d.minute * 60 + d.second

/-- The entry for day `a` of the table of the days of a year starting on 1 March, `leapNext`
telling whether the calendar year in which it ends is a leap year: month and day of the month
are a date of the calendar, and the day is the `a`-th after 1 March. -/
def DayOfYearOK (a : Nat) (leapNext : Bool) : Prop :=
  (a : Int) < (if leapNext then 366 else 365) →
    1 ≤ monthOfYearDay a ∧ monthOfYearDay a ≤ 12 ∧ 1 ≤ dayOfYearDay a ∧
    dayOfYearDay a ≤ (if monthOfYearDay a = 2 then (if leapNext then 29 else 28)
      else if monthOfYearDay a = 4 ∨ monthOfYearDay a = 6 ∨ monthOfYearDay a = 9
        ∨ monthOfYearDay a = 11 then 30 else 31) ∧
    (153 * (if monthOfYearDay a ≤ 2 then monthOfYearDay a + 9 else monthOfYearDay a - 3) + 2) / 5
      + (dayOfYearDay a - 1) = a

/-- An entry of the table can be checked by evaluation. -/
instance (a : Nat) (leapNext : Bool) : Decidable (DayOfYearOK a leapNext) := by
  unfold DayOfYearOK
  infer_instance

/-! ## `internal/service/monitor.go`: the maintenance window

An instant is given by its number of nanoseconds from a midnight UTC (such as that of
2000-01-01); the UTC time of day does not depend on which. `time.Now().UTC().Format("15:04")`
keeps the hour and the minute of the time of day, and `time.Parse("15:04", s)` returns the
instant of that hour and minute on the first day of year 0, given here by its second of that
day. `After` and `Before` are the strict order of instants. -/

/-- Go `t.UTC().Format("15:04")` for the instant `now`: hour and minute of the time of day. -/
def clockFormat (now : Int) : Int × Int :=
  (now / 1000000000 % 86400 / 3600, now / 1000000000 % 3600 / 60)

/-- Go `time.Parse("15:04", s)` for the text of hour `h` and minute `m`. -/
def clockParse (h m : Int) : Int :=
  h * 3600 + m * 60

/-- The constant `pdaxMaintenanceDurationMin`. -/
def pdaxMaintenanceDurationMin : Nat := 35

/-- The function `isPDAXMaintenanceWindow`, the current instant `now` being what `time.Now()`
returns. -/
def isPDAXMaintenanceWindow (now : Int) : Bool :=
  let start := clockParse 22 55
  let finish := clockParse 23 35
  let clockNow := clockParse (clockFormat now).1 (clockFormat now).2
  decide (start < clockNow) && decide (clockNow < finish)

/-! ## `internal/auth/captcha.go`

A Go string is taken to hold valid UTF-8 and is a Lean string. The solver service is what
answers the requests: the outcome of the task request and, for each `i`, the outcome of the
`i`-th result request (counted from 0). -/

/-- Go `strings.HasPrefix`. -/
def strings.HasPrefix (s pre : String) : Bool :=
  pre.data.isPrefixOf s.data

/-- Go `strings.TrimPrefix`: `s` without the leading `pre`, or `s` itself when it does not start
with `pre`. -/
def strings.TrimPrefix (s pre : String) : String :=
  if strings.HasPrefix s pre then ⟨s.data.drop pre.data.length⟩ else s

/-- The constant `okPrefix`. -/
def okPrefix : String := "OK|"

/-- The constant `zeroBalance`. -/
def zeroBalance : String := "ERROR_ZERO_BALANCE"

/-- The constant `notReadyStatus`. -/
def notReadyStatus : String := "CAPCHA_NOT_READY"

/-- The constant `solutionCheckPeriodSec`. -/
def solutionCheckPeriodSec : Nat := 5

/-- The constant `solutionCheckAttemptCount`. -/
def solutionCheckAttemptCount : Nat := 30

/-- The outcome of `http.Get` followed by `ioutil.ReadAll` of the body. -/
inductive HttpResult where
  | getFailed
  | readFailed
  | body (s : String)
  deriving DecidableEq, Repr

/-- The errors that `Solve` returns. -/
inductive SolveError where
  | postTaskFailed
  | readFailed
  | zeroBalance
  | getResultFailed
  | timeout
  deriving DecidableEq, Repr

/-- What a call of `Solve` does: the token and the error it returns, and the number of result
requests it has sent (before each it sleeps `solutionCheckPeriodSec` seconds). -/
structure SolveResult where
  token : String
  err : Option SolveError
  polls : Nat
  deriving DecidableEq, Repr

/-- The loop `for i := 0; i < solutionCheckAttemptCount; i++` of `Solve` from the counter
value `i` on, with `left` rounds to go. -/
def solveLoop (poll : Nat → HttpResult) : Nat → Nat → SolveResult
  | 0, i => ⟨"", some SolveError.timeout, i⟩
  | left + 1, i =>
    match poll i with
    | HttpResult.getFailed => ⟨"", some SolveError.getResultFailed, i + 1⟩
    | HttpResult.readFailed => ⟨"", some SolveError.readFailed, i + 1⟩
    | HttpResult.body bodyString =>
      if bodyString = notReadyStatus then solveLoop poll left (i + 1)
      else if strings.HasPrefix bodyString okPrefix then
        ⟨strings.TrimPrefix bodyString okPrefix, none, i + 1⟩
      else solveLoop poll left (i + 1)

/-- The method `Solve`: `task` is the outcome of the task request, `poll i` that of the `i`-th
result request. -/
def Solve (task : HttpResult) (poll : Nat → HttpResult) : SolveResult :=
  match task with
  | HttpResult.getFailed => ⟨"", some SolveError.postTaskFailed, 0⟩
  | HttpResult.readFailed => ⟨"", some SolveError.readFailed, 0⟩
  | HttpResult.body task =>
    if task = zeroBalance then ⟨"", some SolveError.zeroBalance, 0⟩
    else if strings.HasPrefix task okPrefix then solveLoop poll solutionCheckAttemptCount 0
    else ⟨"", none, 0⟩

/-! ## `internal/service/monitor.go`: the session and its supervisor

The collaborators of a session attempt are given by what they return: `Login` a token or an
error, `Connect` and `Bootstrap` success or an error, and each round of the read loop either
finds the context cancelled or reads a frame (the closed flag and the data) or gets an error.
The rounds are a list; when it runs out the next read never returns. -/

/-- One round of the read loop of `MonitorTrades`, as the surroundings decide it. -/
inductive ReadEvent where
  | cancelled
  | failed
  | frame (closed : Bool) (data : List Nat)
  deriving DecidableEq, Repr

/-- What the collaborators return during one session attempt. -/
structure Attempt where
  login : Option String
  connect : Bool
  bootstrap : Bool
  reads : List ReadEvent
  deriving DecidableEq, Repr

/-- The value of a character of the standard base64 alphabet. -/
def base64Value (c : Char) : Option Nat :=
  if 'A' ≤ c ∧ c ≤ 'Z' then some (c.toNat - 65)
  else if 'a' ≤ c ∧ c ≤ 'z' then some (c.toNat - 71)
  else if '0' ≤ c ∧ c ≤ '9' then some (c.toNat + 4)
  else if c = '+' then some 62
  else if c = '/' then some 63
  else none

/-- Go `base64.StdEncoding.DecodeString` on a text whose length is a multiple of four, the last
four characters ending in no, one or two `=`: every four characters give three bytes, a last
group with one `=` two bytes and with two `=` one byte. Other texts are not handled (`none`). -/
def base64Decode : List Char → Option (List Nat)
  | [] => some []
  | [a, b, c, d] =>
    if d = '=' then
      if c = '=' then do
        let va ← base64Value a
        let vb ← base64Value b
        pure [(va * 4 + vb / 16) % 256]
      else do
        let va ← base64Value a
        let vb ← base64Value b
        let vc ← base64Value c
        pure [(va * 4 + vb / 16) % 256, (vb * 16 + vc / 4) % 256]
    else do
      let va ← base64Value a
      let vb ← base64Value b
      let vc ← base64Value c
      let vd ← base64Value d
      pure [(va * 4 + vb / 16) % 256, (vb * 16 + vc / 4) % 256, (vc * 64 + vd) % 256]
  | a :: b :: c :: d :: rest => do
    let va ← base64Value a
    let vb ← base64Value b
    let vc ← base64Value c
    let vd ← base64Value d
    let tail ← base64Decode rest
    pure ((va * 4 + vb / 16) % 256 :: (vb * 16 + vc / 4) % 256 :: (vc * 64 + vd) % 256 :: tail)
  | _ => none

/-- Go `[]byte(s)`: the UTF-8 bytes of the string. -/
def utf8Bytes (s : String) : List Nat :=
  s.toUTF8.data.toList.map UInt8.toNat

/-- An operation asked of the connection. -/
inductive ConnOp where
  | read
  | write (frame : List Nat)
  deriving DecidableEq, Repr

/-- The connection `ws.conn`: `fails n` tells whether its `n`-th operation (from 0) returns an
error, `log` holds the operations so far, oldest first. -/
structure Conn where
  fails : Nat → Bool
  log : List ConnOp

/-- `ws.conn.WriteMessage(websocket.BinaryMessage, frame)`: the connection after the call and
whether it returned an error. -/
def Conn.WriteMessage (c : Conn) (frame : List Nat) : Conn × Bool :=
  ({ c with log := c.log ++ [ConnOp.write frame] }, c.fails c.log.length)

/-- `ws.conn.ReadMessage()`: the connection after the call and whether it returned an error. -/
def Conn.ReadMessage (c : Conn) : Conn × Bool :=
  ({ c with log := c.log ++ [ConnOp.read] }, c.fails c.log.length)

/-- The method `sendAuthMessage`: the connection after the call and whether it returned an
error. The error of the decoding of the constant is dropped, as in the source. -/
def sendAuthMessage (c : Conn) (authToken : String) : Conn × Bool :=
  let pre := (base64Decode "BgAAAAEAAAG7".data).getD []
  let payload := utf8Bytes authToken
  let w := c.WriteMessage (pre ++ payload)
  if w.2 then (w.1, true)
  else w.1.ReadMessage

/-! ## `internal/websocket/websocket.go`: `Bootstrap`

The texts of the bootstrap book are decoded by `base64.StdEncoding.DecodeString`, whose error
`Bootstrap` drops; `decode` stands for that function with the error dropped. -/

/-- The Go struct `InitBook`. -/
structure InitBook where
  MessageCallBackInfo : String
  M0 : String
  M1 : String
  Messages : List String
  deriving DecidableEq, Repr

/-- What a call of `Bootstrap` leaves: the connection, whether an error is returned and whether
the heartbeat goroutine has been started. -/
structure BootstrapEnd where
  conn : Conn
  err : Bool
  heartbeat : Bool

/-- The loop `for _, m := range wsInitBook.Messages` of `Bootstrap`. -/
def replayMessages (decode : String → List Nat) : Conn → List String → Conn × Bool
  | c, [] => (c, false)
  | c, m :: rest =>
    let w := c.WriteMessage (decode m)
    if w.2 then (w.1, true) else replayMessages decode w.1 rest

/-- The method `Bootstrap`. -/
def Bootstrap (decode : String → List Nat) (c : Conn) (authToken : String)
    (wsInitBook : InitBook) : BootstrapEnd :=
  let r := c.ReadMessage
  if r.2 then ⟨r.1, true, false⟩ else
  let a := sendAuthMessage r.1 authToken
  if a.2 then ⟨a.1, true, false⟩ else
  let w := a.1.WriteMessage (decode wsInitBook.MessageCallBackInfo)
  if w.2 then ⟨w.1, true, false⟩ else
  let w := w.1.WriteMessage (decode wsInitBook.M0)
  if w.2 then ⟨w.1, true, false⟩ else
  let r := w.1.ReadMessage
  if r.2 then ⟨r.1, true, false⟩ else
  let r := r.1.ReadMessage
  if r.2 then ⟨r.1, true, false⟩ else
  let w := r.1.WriteMessage (decode wsInitBook.M1)
  if w.2 then ⟨w.1, true, false⟩ else
  let r := w.1.ReadMessage
  if r.2 then ⟨r.1, true, false⟩ else
  let r := r.1.ReadMessage
  if r.2 then ⟨r.1, true, false⟩ else
  let m := replayMessages decode r.1 wsInitBook.Messages
  if m.2 then ⟨m.1, true, false⟩ else
  ⟨m.1, false, true⟩

/-- The operations of a bootstrap in the order of the script: read, write the authentication
frame, read, write the call-back-info frame, write M0, read twice, write M1, read twice, write
the frames of the replay list in list order. -/
def bootstrapScript (decode : String → List Nat) (authToken : String) (wsInitBook : InitBook) :
    List ConnOp :=
  [ConnOp.read, ConnOp.write ([6, 0, 0, 0, 1, 0, 0, 1, 187] ++ utf8Bytes authToken), ConnOp.read,
    ConnOp.write (decode wsInitBook.MessageCallBackInfo), ConnOp.write (decode wsInitBook.M0),
    ConnOp.read, ConnOp.read, ConnOp.write (decode wsInitBook.M1), ConnOp.read, ConnOp.read]
    ++ wsInitBook.Messages.map (fun m => ConnOp.write (decode m))

/-! ## `tools/history/main.go`: `requestPage` -/

/-- The function `requestPage`: the connection after the call, `none` if a write into the
parameter block faulted. `sinceID` is the bit pattern of the float64. The error of
`conn.WriteMessage` is only printed. -/
def requestPage (c : Conn) (pageSize sinceID : Nat) : Option Conn := do
  let parameters := List.replicate 11 0
  let wc : WriteCursor := { CurPos := 0, Data := parameters }
  let wc ← wc.WriteFloat64 sinceID
  let wc ← wc.WriteUint8 0x01
  let wc ← wc.WriteUint16 pageSize
  let fetchMessage := (base64Decode "HAAAAAYAAACAAAAAAAAAAAEACVRpbWVzdGFtcP8=".data).getD []
  pure (c.WriteMessage (fetchMessage ++ wc.Data)).1

/-- The operations of a list asked of the connection one after the other, up to and including
the first that fails: the connection reached and whether an operation failed. -/
def runScript : Conn → List ConnOp → Conn × Bool
  | c, [] => (c, false)
  | c, op :: rest =>
    if c.fails c.log.length then ({ c with log := c.log ++ [op] }, true)
    else runScript { c with log := c.log ++ [op] } rest

/-! ## `internal/order/order.go`: decoding

The bodies of the loops of `ReadOrderBook` and of `readOrderBookInsert` hold the same nineteen
statements that read one order; they are given once, as `readOrder`. A loop
`for t := uint16(0); t < length; t++` whose bound is a `uint16` runs `length` rounds, its
counter going from 0 to `length` without wrapping; it is given by recursion on the number of
rounds left. The functions return the cursor they leave behind with their result. -/

/-- The statements that read one order, from `rc.ReadFloat64() // index` to the
`monitor.Order` literal. -/
def readOrder (rc : ReadCursor) : Option (Order × ReadCursor) :=
  match rc.ReadFloat64 with
  | none => none
  | some (_, rc) =>
  match rc.ReadFloat64 with
  | none => none
  | some (_, rc) =>
  match rc.ReadFloat64 with
  | none => none
  | some (ts1, rc) =>
  match rc.ReadUint32 with
  | none => none
  | some (_, rc) =>
  match rc.ReadUint8 with
  | none => none
  | some (_, rc) =>
  match rc.ReadFloat64 with
  | none => none
  | some (_, rc) =>
  match rc.ReadUint8 with
  | none => none
  | some (side, rc) =>
  match rc.ReadFloat64 with
  | none => none
  | some (price, rc) =>
  match rc.ReadUint8 with
  | none => none
  | some (priceDec, rc) =>
  match rc.ReadFloat64 with
  | none => none
  | some (quantity, rc) =>
  match rc.ReadUint8 with
  | none => none
  | some (quantityDec, rc) =>
  match rc.ReadUint8 with
  | none => none
  | some (_, rc) =>
  match rc.ReadFloat64 with
  | none => none
  | some (_, rc) =>
  match rc.ReadFloat64 with
  | none => none
  | some (_, rc) =>
  match ((rc.Advance 2).Advance 2).ReadFloat64 with
  | none => none
  | some (_, rc) =>
  match rc.ReadFloat64 with
  | none => none
  | some (_, rc) =>
  match rc.ReadUint32 with
  | none => none
  | some (_, rc) =>
  some ({ Price := price, PriceDec := priceDec, Quantity := quantity,
          QuantityDec := quantityDec, Timestamp := ts1, Side := side }, rc)

/-- The loop of `readOrderBookInsert` with `left` rounds to go, the counter at `t`: each round
reads an order and stores it in `changes[t]`. -/
def readOrderBookInsertLoop : Nat → Nat → ReadCursor → List Order →
    Option (List Order × ReadCursor)
  | 0, _, rc, changes => some (changes, rc)
  | left + 1, t, rc, changes =>
    match readOrder rc with
    | none => none
    | some (order, rc) => readOrderBookInsertLoop left (t + 1) rc (changes.set t order)

/-- The function `readOrderBookInsert`: `nil` unless the table number is 27, else the slice
made with `length` zero orders and filled by the loop. -/
def readOrderBookInsert (rc : ReadCursor) : Option (List Order × ReadCursor) :=
  match rc.ReadUint16 with
  | none => none
  | some (number, rc) =>
    if number = 27 then
      match rc.ReadUint16 with
      | none => none
      | some (length, rc) =>
        readOrderBookInsertLoop length 0 rc (List.replicate length Order.zero)
    else some ([], rc)

/-- The loop `for i := uint16(0); i < count; i++ { rc.ReadUint8() }` of `readOrderUpdate` with
`left` rounds to go. -/
def readColumnIndices : Nat → ReadCursor → Option ReadCursor
  | 0, rc => some rc
  | left + 1, rc =>
    match rc.ReadUint8 with
    | none => none
    | some (_, rc) => readColumnIndices left rc

/-- The function `readOrderUpdate`. -/
def readOrderUpdate (rc : ReadCursor) : Option (OrderUpdate × ReadCursor) :=
  match rc.ReadUint16 with
  | none => none
  | some (_, rc) =>
  match rc.ReadUint16 with
  | none => none
  | some (_, rc) =>
  match rc.ReadUint16 with
  | none => none
  | some (count, rc) =>
  match readColumnIndices count rc with
  | none => none
  | some rc =>
  match rc.ReadFloat64 with
  | none => none
  | some (_, rc) =>
  match rc.ReadFloat64 with
  | none => none
  | some (ts1, rc) =>
  match rc.ReadUint32 with
  | none => none
  | some (_, rc) =>
  match rc.ReadFloat64 with
  | none => none
  | some (quantity, rc) =>
  match rc.ReadFloat64 with
  | none => none
  | some (_, rc) =>
  some ({ Quantity := quantity, Timestamp := ts1 }, rc)

/-- The local variables of one round of the loop of `ReadOrderBookUpdate` once its reads are
done, with the three presence bytes that decide whether a sub-part is read. -/
structure EntryFields where
  insertPresent : Nat
  orders : List Order
  updatePresent : Nat
  update : OrderUpdate
  removePresent : Nat
  removeID : Nat
  oldIndex : Nat
  newIndex : Nat
  deriving DecidableEq, Repr

/-- The statements `var x float64; if rc.ReadUint8() != 0 { x = rc.ReadFloat64() }`: the
presence byte and the value of `x`. -/
def readNullableFloat64 (rc : ReadCursor) : Option ((Nat × Nat) × ReadCursor) :=
  match rc.ReadUint8 with
  | none => none
  | some (present, rc) =>
    if present ≠ 0 then
      match rc.ReadFloat64 with
      | none => none
      | some (x, rc) => some ((present, x), rc)
    else some ((present, 0), rc)

/-- The reads of one round of the loop of `ReadOrderBookUpdate`, down to
`rc.ReadUint8() // animate`. -/
def readEntry (rc : ReadCursor) : Option (EntryFields × ReadCursor) :=
  match rc.ReadUint8 with
  | none => none
  | some (insertPresent, rc) =>
  match (if insertPresent ≠ 0 then readOrderBookInsert rc else some ([], rc)) with
  | none => none
  | some (orders, rc) =>
  match rc.ReadUint8 with
  | none => none
  | some (updatePresent, rc) =>
  match (if updatePresent ≠ 0 then readOrderUpdate rc else some (OrderUpdate.zero, rc)) with
  | none => none
  | some (update, rc) =>
  match readNullableFloat64 rc with
  | none => none
  | some (removeID, rc) =>
  match readNullableFloat64 rc with
  | none => none
  | some (oldIndex, rc) =>
  match readNullableFloat64 rc with
  | none => none
  | some (newIndex, rc) =>
  match rc.ReadUint8 with
  | none => none
  | some (_, rc) =>
  some ({ insertPresent := insertPresent, orders := orders, updatePresent := updatePresent,
          update := update, removePresent := removeID.1, removeID := removeID.2,
          oldIndex := oldIndex.2, newIndex := newIndex.2 }, rc)

/-- The three `if` statements that end a round of the loop of `ReadOrderBookUpdate`: the
updates the round appends, `int(x)` being `f64ToInt64`. -/
def entryUpdates (e : EntryFields) : List OrderBookUpdate :=
  e.orders.map (fun order => OrderBookUpdate.mkInsert order (f64ToInt64 e.newIndex))
    ++ (if !(f64Eq e.removeID 0) then [OrderBookUpdate.mkRemove (f64ToInt64 e.oldIndex)] else [])
    ++ (if !(e.update.eq OrderUpdate.zero) then
          [OrderBookUpdate.mkUpdate e.update (f64ToInt64 e.oldIndex) (f64ToInt64 e.newIndex)]
        else [])

/-- The loop of `ReadOrderBookUpdate` with `left` rounds to go. -/
def ReadOrderBookUpdateLoop : Nat → ReadCursor → List OrderBookUpdate →
    Option (List OrderBookUpdate × ReadCursor)
  | 0, rc, orderBookUpdates => some (orderBookUpdates, rc)
  | left + 1, rc, orderBookUpdates =>
    match readEntry rc with
    | none => none
    | some (e, rc) => ReadOrderBookUpdateLoop left rc (orderBookUpdates ++ entryUpdates e)

/-- The function `ReadOrderBookUpdate`. -/
def ReadOrderBookUpdate (rc : ReadCursor) : Option (List OrderBookUpdate × ReadCursor) :=
  match rc.ReadFloat64 with
  | none => none
  | some (_, rc) =>
  match rc.ReadUint8 with
  | none => none
  | some (_, rc) =>
  match rc.ReadUint16 with
  | none => none
  | some (count, rc) => ReadOrderBookUpdateLoop count rc []

/-- The loop of `ReadOrderBook` with `left` rounds to go, the counter at `t`: each round reads
an order and applies its insertion at index `t` to the book. -/
def ReadOrderBookLoop (grow : Nat → Nat → Nat) : Nat → Nat → ReadCursor → PDAXOrderBook →
    Option (PDAXOrderBook × ReadCursor)
  | 0, _, rc, orderBook => some (orderBook, rc)
  | left + 1, t, rc, orderBook =>
    match readOrder rc with
    | none => none
    | some (order, rc) =>
      match orderBook.Apply grow (OrderBookUpdate.mkInsert order (t : Int)) with
      | none => none
      | some orderBook => ReadOrderBookLoop grow left (t + 1) rc orderBook

/-- The function `ReadOrderBook`. -/
def ReadOrderBook (grow : Nat → Nat → Nat) (rc : ReadCursor) :
    Option (PDAXOrderBook × ReadCursor) :=
  match rc.ReadFloat64 with
  | none => none
  | some (_, rc) =>
  match rc.ReadFloat64 with
  | none => none
  | some (_, rc) =>
  match rc.ReadUint8 with
  | none => none
  | some (_, rc) =>
  match rc.ReadUint16 with
  | none => none
  | some (number, rc) =>
    if number = 27 then
      match rc.ReadUint16 with
      | none => none
      | some (length, rc) => ReadOrderBookLoop grow length 0 rc NewOrderBook
    else some (NewOrderBook, rc)

/-- The orders that `left` successive runs of `readOrder` read, in the order of the wire. -/
def readOrders : Nat → ReadCursor → Option (List Order × ReadCursor)
  | 0, rc => some ([], rc)
  | left + 1, rc =>
    match readOrder rc with
    | none => none
    | some (order, rc) =>
      match readOrders left rc with
      | none => none
      | some (orders, rc) => some (order :: orders, rc)

/-- The sequence of the entries that the rounds of the loop of `ReadOrderBookUpdate` read,
without the updates they append. -/
def readEntries : Nat → ReadCursor → Option (List EntryFields × ReadCursor)
  | 0, rc => some ([], rc)
  | left + 1, rc =>
    match readEntry rc with
    | none => none
    | some (e, rc) =>
      match readEntries left rc with
      | none => none
      | some (es, rc) => some (e :: es, rc)

/-- The entries of an order-book update record: the reads of `ReadOrderBookUpdate` without the
updates it appends. -/
def readUpdateEntries (rc : ReadCursor) : Option (List EntryFields × ReadCursor) :=
  match rc.ReadFloat64 with
  | none => none
  | some (_, rc) =>
  match rc.ReadUint8 with
  | none => none
  | some (_, rc) =>
  match rc.ReadUint16 with
  | none => none
  | some (count, rc) => readEntries count rc

/-! ## `internal/service/monitor.go`: the trades a payload hands to the repository

`handleTradeLoop` gives no repository when a read faults, yet the trades handed to
`TradeRepository.Insert` before the fault stay inserted. They are given here. -/

/-- The trades that the loop of `handleTrade` hands to `TradeRepository.Insert`, oldest first,
from the counter value `t` on, until the counter reaches `tradeCount`, a read faults or the
`fuel` rounds are used up. -/
def handleTradeLoopInserts (tr : Reader) (tradeCount : Nat) :
    Nat → Nat → ReadCursor → List Trade
  | 0, _, _ => []
  | fuel + 1, t, rc =>
    if t < tradeCount then
      match rc.ReadUint8 with
      | none => []
      | some (_, rc) =>
      match rc.ReadUint16 with
      | none => []
      | some (number, rc) =>
        if number = 128 then
          match rc.ReadUint16 with
          | none => []
          | some (_, rc) =>
          match tr.ReadNullableTrade rc with
          | none => []
          | some (readTrade, rc) =>
            readTrade :: handleTradeLoopInserts tr tradeCount fuel ((t + 2) % 2 ^ 16) rc
        else handleTradeLoopInserts tr tradeCount fuel ((t + 2) % 2 ^ 16) rc
    else []

/-- The trades that `handleTrade` hands to `TradeRepository.Insert`, whether it returns or
faults; the rounds allowed are those of `handleTrade`. -/
def handleTradeInserts (tr : Reader) (rc : ReadCursor) : List Trade :=
  match rc.ReadFloat64 with
  | none => []
  | some (_, rc1) =>
  match rc1.ReadUint8 with
  | none => []
  | some (_, rc2) =>
  match rc2.ReadUint16 with
  | none => []
  | some (tradeCount, rc3) => handleTradeLoopInserts tr tradeCount (rc.Data.length + 1) 0 rc3

/-! ## Sample values -/

/-- A run-time growth policy that allocates exactly the needed length again as spare room. -/
def sampleGrow : Nat → Nat → Nat := fun _ needed => needed

/-- A bid at price pattern `0x4059000000000000` (100.0) and quantity pattern of 2.0. -/
def sampleOrderA : Order := ⟨0x4059000000000000, 2, 0x4000000000000000, 4, 0x41C3F1A7E0000000, 1⟩

/-- An ask at price pattern of 101.0 and quantity pattern of 1.0. -/
def sampleOrderB : Order := ⟨0x4059400000000000, 2, 0x3FF0000000000000, 4, 0x41C3F1A7E8000000, 0⟩

/-- A third order, at price pattern of 102.0. -/
def sampleOrderC : Order := ⟨0x4059800000000000, 2, 0x4008000000000000, 4, 0x41C3F1A7F0000000, 0⟩

/-- A quantity and timestamp change (quantity pattern of 0.5). -/
def sampleDelta : OrderUpdate := ⟨0x3FE0000000000000, 0x41C3F1A7F8000000⟩

/-- A book of three orders in a backing array with one spare slot. -/
def sampleBook : PDAXOrderBook := ⟨⟨[sampleOrderA, sampleOrderB, sampleOrderC], [Order.zero]⟩⟩

/-- A currency table with the two codes 1 and 2. -/
def sampleReader : Reader :=
  ⟨fun c => if c = 1 then some "BTC" else if c = 2 then some "ETH" else none⟩

/-- A table without any code. -/
def emptyReader : Reader := ⟨fun _ => none⟩

/-- The 86 bytes of a trade: timestamp 86400.0, currency 1.0, price 12345.0, quantity 3.0,
two price decimals and four quantity decimals. -/
def sampleTradeRecord : List Nat :=
  [0, 0, 0, 0, 0, 0, 0, 0, 0, 0, 0, 0, 0, 0, 0, 0, 0x40, 0xF5, 0x18, 0, 0, 0, 0, 0,
   0, 0, 0, 0, 1, 0x3F, 0xF0, 0, 0, 0, 0, 0, 0, 0x40, 0xC8, 0x1C, 0x80, 0, 0, 0, 0,
   0x40, 0x08, 0, 0, 0, 0, 0, 0, 0, 0, 0, 0, 0, 0, 0, 0, 0, 0, 0, 0, 0, 0, 0, 0,
   0, 0, 0, 0, 0, 0, 0, 0, 0, 2, 4, 0, 0, 0, 0, 0, 0]

/-- The same trade with the price field holding the float64 `2 ^ 63` and the currency 7.0. -/
def sampleHugePriceRecord : List Nat :=
  [0, 0, 0, 0, 0, 0, 0, 0, 0, 0, 0, 0, 0, 0, 0, 0, 0x40, 0xF5, 0x18, 0, 0, 0, 0, 0,
   0, 0, 0, 0, 1, 0x40, 0x1C, 0, 0, 0, 0, 0, 0, 0x43, 0xE0, 0, 0, 0, 0, 0, 0,
   0x40, 0x08, 0, 0, 0, 0, 0, 0, 0, 0, 0, 0, 0, 0, 0, 0, 0, 0, 0, 0, 0, 0, 0, 0,
   0, 0, 0, 0, 0, 0, 0, 0, 0, 2, 4, 0, 0, 0, 0, 0, 0]

/-- The 121 bytes of a nullable trade: `sampleTradeRecord` and 35 further bytes. -/
def sampleNullableTradeRecord : List Nat :=
  sampleTradeRecord ++ [0, 0, 0, 0, 0, 0, 0, 0, 0, 0, 0, 0, 0, 0, 0, 0, 0, 0, 0, 0, 0, 0, 0, 0,
    0, 0, 0, 0, 0, 0, 0, 0, 0, 0, 0]

/-- A second nullable trade, with the fields of `sampleHugePriceRecord`. -/
def sampleNullableTradeRecordB : List Nat :=
  sampleHugePriceRecord ++ [0, 0, 0, 0, 0, 0, 0, 0, 0, 0, 0, 0, 0, 0, 0, 0, 0, 0, 0, 0, 0, 0, 0,
    0, 0, 0, 0, 0, 0, 0, 0, 0, 0, 0, 0]

/-- A session attempt that reads one frame and then finds the context cancelled. -/
def cancelledAttempt : Attempt :=
  ⟨some "token", true, true, [ReadEvent.frame false [9, 0, 0, 0, 0, 0, 0], ReadEvent.cancelled]⟩

/-- A session attempt whose login fails. -/
def failedLoginAttempt : Attempt := ⟨none, true, true, []⟩

/-- A connection none of whose operations fails, before its first operation. -/
def sampleConn : Conn := ⟨fun _ => false, []⟩

/-- The trade of `sampleTradeRecord` with the presence flag before the currency code (byte 28)
cleared. -/
def sampleNullFlagRecord : List Nat := sampleTradeRecord.set 28 0

/-- A cursor at offset 5 of a buffer that holds five bytes and then
`sampleNullableTradeRecord`. -/
def sampleOffsetCursor : ReadCursor := ⟨5, [9, 9, 9, 9, 9] ++ sampleNullableTradeRecord⟩

/-- A snapshot record: page id and first index (eight bytes each), the animate byte, table
number 27, length 1 and one order record of 97 bytes, all of them zero. -/
def sampleZeroSnapshot : List Nat :=
  List.replicate 17 0 ++ [0, 27, 0, 1] ++ List.replicate 97 0

/-- The 97 bytes of an order record that decodes to `sampleOrderA`. -/
def sampleOrderRecordA : List Nat :=
  List.replicate 16 0 ++ [0x41, 0xC3, 0xF1, 0xA7, 0xE0, 0, 0, 0] ++ [0, 0, 0, 0, 1]
    ++ List.replicate 8 0 ++ [1] ++ [0x40, 0x59, 0, 0, 0, 0, 0, 0] ++ [2]
    ++ [0x40, 0, 0, 0, 0, 0, 0, 0] ++ [4, 0] ++ List.replicate 40 0

/-- The 97 bytes of an order record that decodes to `sampleOrderB`. -/
def sampleOrderRecordB : List Nat :=
  List.replicate 16 0 ++ [0x41, 0xC3, 0xF1, 0xA7, 0xE8, 0, 0, 0] ++ [0, 0, 0, 0, 1]
    ++ List.replicate 8 0 ++ [0] ++ [0x40, 0x59, 0x40, 0, 0, 0, 0, 0] ++ [2]
    ++ [0x3F, 0xF0, 0, 0, 0, 0, 0, 0] ++ [4, 0] ++ List.replicate 40 0

/-- A snapshot record with table number 27, length 2 and the two order records
`sampleOrderRecordA` and `sampleOrderRecordB`. -/
def sampleSnapshot : List Nat :=
  List.replicate 17 0 ++ [0, 27, 0, 2] ++ sampleOrderRecordA ++ sampleOrderRecordB

/-- An update record of one entry: the insert batch is present and holds one order record, all
of whose bytes are zero; no other sub-part is present. -/
def sampleZeroInsertRecord : List Nat :=
  List.replicate 9 0 ++ [0, 1] ++ [1, 0, 27, 0, 1] ++ List.replicate 97 0 ++ [0, 0, 0, 0, 0]

/-- An update record of one entry: no insert batch; an update sub-part is present (byte 1) with
42 zero bytes; a removal id is present (byte 1) and is 0.0; no indices. -/
def sampleZeroPayloadRecord : List Nat :=
  List.replicate 9 0 ++ [0, 1] ++ [0, 1] ++ List.replicate 42 0 ++ [1] ++ List.replicate 8 0
    ++ [0, 0, 0]

/-- The 42 bytes of an update sub-part without column indices that decodes to
`sampleDelta`. -/
def sampleDeltaRecord : List Nat :=
  [0, 0, 0, 0, 0, 0] ++ List.replicate 8 0 ++ [0x41, 0xC3, 0xF1, 0xA7, 0xF8, 0, 0, 0]
    ++ [0, 0, 0, 0] ++ [0x3F, 0xE0, 0, 0, 0, 0, 0, 0] ++ List.replicate 8 0

/-- An update record of two entries. The first holds an insert batch of one order,
`sampleOrderRecordA`, and the new index 2.0. The second holds the update `sampleDeltaRecord`,
the removal id 5.0, the old index 1.0 and the new index 1.0. -/
def sampleUpdateRecord : List Nat :=
  List.replicate 9 0 ++ [0, 2]
    ++ ([1, 0, 27, 0, 1] ++ sampleOrderRecordA ++ [0, 0, 0]
        ++ [1, 0x40, 0, 0, 0, 0, 0, 0, 0] ++ [0])
    ++ ([0, 1] ++ sampleDeltaRecord ++ [1, 0x40, 0x14, 0, 0, 0, 0, 0, 0]
        ++ [1, 0x3F, 0xF0, 0, 0, 0, 0, 0, 0] ++ [1, 0x3F, 0xF0, 0, 0, 0, 0, 0, 0] ++ [0])

/-- The bytes of `k` copies of a record, one after the other. -/
def repeatRecord (record : List Nat) : Nat → List Nat
  | 0 => []
  | k + 1 => record ++ repeatRecord record k

/-- A trade sub-record of 126 bytes: the insert byte, the number 128, a length and
`sampleNullableTradeRecord`. -/
def sampleSubRecord : List Nat := [1, 0, 128, 0, 121] ++ sampleNullableTradeRecord

/-- A trade-view payload whose count field is 65535, followed by 32769 copies of
`sampleSubRecord`. -/
def sampleWrapPayload : List Nat :=
  List.replicate 9 0 ++ [0xFF, 0xFF] ++ repeatRecord sampleSubRecord 32769

/-- A bootstrap book of short frames, in base64. -/
def sampleInitBook : InitBook := ⟨"AAAA", "AQID", "BAUG", ["BwgJ", "CgsM"]⟩

/-- The decoding of a frame of the bootstrap book, its error dropped. -/
def sampleDecode (s : String) : List Nat := (base64Decode s.data).getD []

/-- A connection whose fourth operation fails. -/
def sampleFailingConn : Conn := ⟨fun n => n == 3, []⟩

/-! ## Theorems: the order-book replica -/

theorem OrderSlice.append_elems (grow : Nat → Nat → Nat) (s : OrderSlice) (vs : List Order) :
    (s.append grow vs).elems = s.elems ++ vs := by
  unfold OrderSlice.append
  split <;> rfl

theorem OrderSlice.sliceTo_eq_some (s : OrderSlice) (k : Nat) (h : k ≤ s.elems.length) :
    ∃ a, s.sliceTo (k : Int) = some a ∧ a.elems = s.elems.take k := by
  refine ⟨⟨(s.elems ++ s.spare).take k, (s.elems ++ s.spare).drop k⟩, ?_, ?_⟩
  · have hc : ((k : Int)) ≤ (s.cap : Int) := by
      unfold OrderSlice.cap; omega
    simp [OrderSlice.sliceTo, hc]
  · simp [List.take_append_of_le_length h]

theorem OrderSlice.sliceFrom_eq_some (s : OrderSlice) (k : Nat) (h : k ≤ s.elems.length) :
    ∃ b, s.sliceFrom (k : Int) = some b ∧ b.elems = s.elems.drop k := by
  refine ⟨⟨s.elems.drop k, s.spare⟩, ?_, rfl⟩
  have hc : ((k : Int)) ≤ (s.len : Int) := by
    unfold OrderSlice.len; omega
  simp [OrderSlice.sliceFrom, hc]

theorem OrderSlice.sliceTo_neg (s : OrderSlice) (i : Int) (h : i < 0) : s.sliceTo i = none := by
  have : ¬ (0 ≤ i ∧ i ≤ (s.cap : Int)) := by omega
  simp [OrderSlice.sliceTo, this]

theorem OrderSlice.sliceFrom_out (s : OrderSlice) (i : Int)
    (h : i < 0 ∨ (s.elems.length : Int) < i) : s.sliceFrom i = none := by
  have : ¬ (0 ≤ i ∧ i ≤ (s.len : Int)) := by
    unfold OrderSlice.len; omega
  simp [OrderSlice.sliceFrom, this]

theorem OrderSlice.index_out (s : OrderSlice) (i : Int)
    (h : i < 0 ∨ (s.elems.length : Int) ≤ i) : s.index i = none := by
  have : ¬ (0 ≤ i ∧ i < (s.len : Int)) := by
    unfold OrderSlice.len; omega
  simp [OrderSlice.index, this]

theorem List.set_take_succ_append_drop {α : Type} (l : List α) (i : Nat) (x : α)
    (h : i < l.length) : (l.take (i + 1) ++ l.drop i).set i x = l.take i ++ x :: l.drop i := by
  have h1 : l.take (i + 1) = l.take i ++ [l[i]] := by
    rw [List.take_succ, List.getElem?_eq_getElem h]; rfl
  have h2 : (l.take i).length = i := by
    rw [List.length_take]; omega
  rw [h1, List.append_assoc, List.set_append_right _ _ (by omega), h2]
  simp

theorem PDAXOrderBook.insert_eq_some (grow : Nat → Nat → Nat) (ob : PDAXOrderBook) (i : Nat)
    (o : Order) (h : i ≤ ob.Orders.length) :
    ∃ ob1, ob.insert grow (i : Int) o = some ob1 ∧
      ob1.Orders = ob.Orders.take i ++ o :: ob.Orders.drop i := by
  unfold PDAXOrderBook.Orders at *
  unfold PDAXOrderBook.insert
  by_cases hi : ob.orders.elems.length = i
  · refine ⟨⟨ob.orders.append grow [o]⟩, ?_, ?_⟩
    · simp [OrderSlice.len, hi]
    · subst hi
      simp [OrderSlice.append_elems]
  · have hlt : i < ob.orders.elems.length := by omega
    obtain ⟨a, ha, hae⟩ := ob.orders.sliceTo_eq_some (i + 1) (by omega)
    obtain ⟨b, hb, hbe⟩ := ob.orders.sliceFrom_eq_some i (by omega)
    have hne : ¬ ((ob.orders.len : Int) = (i : Int)) := by
      unfold OrderSlice.len; omega
    have ha1 : ob.orders.sliceTo ((i : Int) + 1) = some a := by
      have : ((i : Int) + 1) = ((i + 1 : Nat) : Int) := by push_cast; rfl
      rw [this]; exact ha
    have hlen : i < (a.append grow b.elems).len := by
      unfold OrderSlice.len
      rw [OrderSlice.append_elems, hae, hbe]
      simp
      omega
    refine ⟨⟨⟨(a.append grow b.elems).elems.set i o, (a.append grow b.elems).spare⟩⟩, ?_, ?_⟩
    · simp [hne, ha1, hb, OrderSlice.assign, hlen]
    · simp only [OrderSlice.append_elems, hae, hbe]
      exact List.set_take_succ_append_drop _ _ _ hlt

theorem PDAXOrderBook.insert_eq_none (grow : Nat → Nat → Nat) (ob : PDAXOrderBook) (i : Int)
    (o : Order) (h : i < 0 ∨ (ob.Orders.length : Int) < i) : ob.insert grow i o = none := by
  unfold PDAXOrderBook.Orders at h
  unfold PDAXOrderBook.insert
  have hne : ¬ ((ob.orders.len : Int) = i) := by
    unfold OrderSlice.len; omega
  have hb : ob.orders.sliceFrom i = none := ob.orders.sliceFrom_out i h
  rw [if_neg hne]
  cases ha : ob.orders.sliceTo (i + 1) <;> simp [hb]

theorem PDAXOrderBook.remove_eq_some (grow : Nat → Nat → Nat) (ob : PDAXOrderBook) (i : Nat)
    (h : i < ob.Orders.length) :
    ∃ ob1, ob.remove grow (i : Int) = some ob1 ∧
      ob1.Orders = ob.Orders.take i ++ ob.Orders.drop (i + 1) := by
  unfold PDAXOrderBook.Orders at *
  unfold PDAXOrderBook.remove
  obtain ⟨a, ha, hae⟩ := ob.orders.sliceTo_eq_some i (by omega)
  obtain ⟨b, hb, hbe⟩ := ob.orders.sliceFrom_eq_some (i + 1) (by omega)
  have hb1 : ob.orders.sliceFrom ((i : Int) + 1) = some b := by
    have : ((i : Int) + 1) = ((i + 1 : Nat) : Int) := by push_cast; rfl
    rw [this]; exact hb
  refine ⟨⟨a.append grow b.elems⟩, ?_, ?_⟩
  · simp [ha, hb1]
  · simp [OrderSlice.append_elems, hae, hbe]

theorem PDAXOrderBook.remove_eq_none (grow : Nat → Nat → Nat) (ob : PDAXOrderBook) (i : Int)
    (h : i < 0 ∨ (ob.Orders.length : Int) ≤ i) : ob.remove grow i = none := by
  unfold PDAXOrderBook.Orders at h
  unfold PDAXOrderBook.remove
  rcases h with h | h
  · simp [ob.orders.sliceTo_neg i h]
  · have hb : ob.orders.sliceFrom (i + 1) = none := ob.orders.sliceFrom_out (i + 1) (by omega)
    cases ha : ob.orders.sliceTo i <;> simp [hb]

theorem PDAXOrderBook.Apply_mkRemove (grow : Nat → Nat → Nat) (ob : PDAXOrderBook) (i : Int) :
    ob.Apply grow (OrderBookUpdate.mkRemove i) = ob.remove grow i := by
  simp [PDAXOrderBook.Apply, OrderBookUpdate.mkRemove]

theorem PDAXOrderBook.Apply_mkInsert (grow : Nat → Nat → Nat) (ob : PDAXOrderBook) (o : Order)
    (i : Int) (ho : o.eq Order.zero = false) :
    ob.Apply grow (OrderBookUpdate.mkInsert o i) = ob.insert grow i o := by
  simp [PDAXOrderBook.Apply, OrderBookUpdate.mkInsert, ho]

theorem Order.zero_eq_zero : Order.zero.eq Order.zero = true := by decide

theorem PDAXOrderBook.Apply_mkUpdate (grow : Nat → Nat → Nat) (ob : PDAXOrderBook)
    (d : OrderUpdate) (i j : Int) (hd : d.eq OrderUpdate.zero = false) :
    ob.Apply grow (OrderBookUpdate.mkUpdate d i j) = ob.update grow i j d := by
  simp [PDAXOrderBook.Apply, OrderBookUpdate.mkUpdate, hd, Order.zero_eq_zero]

theorem Order.modified_ne_zero (o : Order) (d : OrderUpdate)
    (hd : d.eq OrderUpdate.zero = false) : (o.modified d).eq Order.zero = false := by
  unfold OrderUpdate.eq at hd
  unfold Order.eq Order.modified
  simp only [Order.zero, OrderUpdate.zero] at *
  cases h1 : f64Eq d.Quantity 0 <;> cases h2 : f64Eq d.Timestamp 0 <;> simp_all

theorem OrderSlice.index_eq_some (s : OrderSlice) (i : Nat) (h : i < s.elems.length) :
    s.index (i : Int) = some (s.elems.get ⟨i, h⟩) := by
  have hc : i < s.len := h
  simp [OrderSlice.index, hc, List.getElem?_eq_getElem h]

theorem PDAXOrderBook.update_same (grow : Nat → Nat → Nat) (ob : PDAXOrderBook) (i : Nat)
    (d : OrderUpdate) (h : i < ob.Orders.length) :
    ob.update grow (i : Int) (i : Int) d
      = some ⟨⟨ob.Orders.set i ((ob.Orders.get ⟨i, h⟩).modified d), ob.orders.spare⟩⟩ := by
  unfold PDAXOrderBook.Orders at *
  have hc : i < ob.orders.len := h
  simp [PDAXOrderBook.update, OrderSlice.index_eq_some _ _ h, OrderSlice.assign, hc,
    Order.modified]

theorem PDAXOrderBook.update_move (grow : Nat → Nat → Nat) (ob : PDAXOrderBook) (i : Nat)
    (j : Int) (d : OrderUpdate) (h : i < ob.Orders.length) (hij : (i : Int) ≠ j) :
    ob.update grow (i : Int) j d
      = (ob.remove grow (i : Int)).bind
          (fun ob1 => ob1.insert grow j ((ob.Orders.get ⟨i, h⟩).modified d)) := by
  unfold PDAXOrderBook.Orders at *
  simp [PDAXOrderBook.update, OrderSlice.index_eq_some _ _ h, hij, Order.modified]

theorem PDAXOrderBook.Apply_wellFormed_length (grow : Nat → Nat → Nat) (ob : PDAXOrderBook)
    (u : OrderBookUpdate) (h : u.wellFormed ob.Orders.length = true) :
    ∃ ob1, ob.Apply grow u = some ob1 ∧
      (ob1.Orders.length : Int)
        = (ob.Orders.length : Int) + (if u.isInsert then 1 else 0) - (if u.isRemove then 1 else 0) := by
  unfold OrderBookUpdate.wellFormed at h
  simp only [Bool.or_eq_true, Bool.and_eq_true, decide_eq_true_eq] at h
  rcases h with (⟨⟨hv, h0⟩, hn⟩ | ⟨⟨hv, h0⟩, hn⟩) | ⟨⟨⟨⟨hv, h0⟩, hn⟩, hj0⟩, hjn⟩
  · -- removal
    have hv1 := hv
    simp only [OrderBookUpdate.isRemove, Bool.and_eq_true] at hv1
    obtain ⟨⟨hr, hins⟩, hupd⟩ := hv1
    have hI : u.isInsert = false := by simp [OrderBookUpdate.isInsert, hr]
    obtain ⟨k, hk⟩ := Int.eq_ofNat_of_zero_le h0
    have hkn : k < ob.Orders.length := by omega
    obtain ⟨ob1, h1, h1e⟩ := PDAXOrderBook.remove_eq_some grow ob k hkn
    refine ⟨ob1, ?_, ?_⟩
    · simp [PDAXOrderBook.Apply, hr, hk, h1]
    · rw [h1e, hv, hI, List.length_append, List.length_take, List.length_drop]
      simp
      omega
  · -- insertion
    have hv1 := hv
    simp only [OrderBookUpdate.isInsert, Bool.and_eq_true, Bool.not_eq_true'] at hv1
    obtain ⟨⟨hr, hins⟩, hupd⟩ := hv1
    have hR : u.isRemove = false := by simp [OrderBookUpdate.isRemove, hr]
    obtain ⟨k, hk⟩ := Int.eq_ofNat_of_zero_le h0
    have hkn : k ≤ ob.Orders.length := by omega
    obtain ⟨ob1, h1, h1e⟩ := PDAXOrderBook.insert_eq_some grow ob k u.Insert hkn
    refine ⟨ob1, ?_, ?_⟩
    · simp [PDAXOrderBook.Apply, hr, hins, hk, h1]
    · rw [h1e, hv, hR, List.length_append, List.length_take, List.length_cons, List.length_drop]
      simp
      omega
  · -- update
    have hv1 := hv
    simp only [OrderBookUpdate.isUpdate, Bool.and_eq_true, Bool.not_eq_true'] at hv1
    obtain ⟨⟨hr, hins⟩, hupd⟩ := hv1
    have hR : u.isRemove = false := by simp [OrderBookUpdate.isRemove, hr]
    have hI : u.isInsert = false := by simp [OrderBookUpdate.isInsert, hr, hins]
    obtain ⟨k, hk⟩ := Int.eq_ofNat_of_zero_le h0
    obtain ⟨l, hl⟩ := Int.eq_ofNat_of_zero_le hj0
    have hkn : k < ob.Orders.length := by omega
    have hln : l < ob.Orders.length := by omega
    have happ : ob.Apply grow u = ob.update grow (k : Int) (l : Int) u.Update := by
      simp [PDAXOrderBook.Apply, hr, hins, hupd, hk, hl]
    rw [happ, hR, hI]
    by_cases hkl : k = l
    · subst hkl
      rw [PDAXOrderBook.update_same grow ob k u.Update hkn]
      exact ⟨_, rfl, by simp [PDAXOrderBook.Orders]⟩
    · have hne : (k : Int) ≠ (l : Int) := by omega
      obtain ⟨ob1, h1, h1e⟩ := PDAXOrderBook.remove_eq_some grow ob k hkn
      have hlen : ob1.Orders.length + 1 = ob.Orders.length := by
        rw [h1e, List.length_append, List.length_take, List.length_drop]; omega
      obtain ⟨ob2, h2, h2e⟩ := PDAXOrderBook.insert_eq_some grow ob1 l
        ((ob.Orders.get ⟨k, hkn⟩).modified u.Update) (by omega)
      refine ⟨ob2, ?_, ?_⟩
      · rw [PDAXOrderBook.update_move grow ob k l u.Update hkn hne, h1]
        exact h2
      · rw [h2e, List.length_append, List.length_take, List.length_cons, List.length_drop]
        simp
        omega

/-- C1: a sequence of well-formed updates (exactly one variant populated, indices in range of
the book immediately before the update) applied in order with `Apply` returns a book whose
number of orders is the initial number plus the number of Insert updates minus the number of
Remove updates; Update entries count in neither term. -/
theorem apply_all_length (grow : Nat → Nat → Nat) (ob : PDAXOrderBook)
    (us : List OrderBookUpdate) (h : wellFormedSeq grow ob us = true) :
    ∃ ob1, applyAll grow ob us = some ob1 ∧
      (ob1.Orders.length : Int)
        = (ob.Orders.length : Int) + (us.countP OrderBookUpdate.isInsert : Int)
            - (us.countP OrderBookUpdate.isRemove : Int) := by
  induction us generalizing ob with
  | nil => exact ⟨ob, rfl, by simp⟩
  | cons u us ih =>
    simp only [wellFormedSeq, Bool.and_eq_true] at h
    obtain ⟨hu, hrest⟩ := h
    obtain ⟨ob1, h1, h1len⟩ := PDAXOrderBook.Apply_wellFormed_length grow ob u hu
    rw [h1] at hrest
    obtain ⟨ob2, h2, h2len⟩ := ih ob1 hrest
    refine ⟨ob2, ?_, ?_⟩
    · simp [applyAll, h1, h2]
    · rw [h2len, h1len, List.countP_cons, List.countP_cons]
      cases u.isInsert <;> cases u.isRemove <;> simp <;> omega

theorem apply_all_length_witness :
    wellFormedSeq sampleGrow sampleBook
        [OrderBookUpdate.mkInsert sampleOrderC 3, OrderBookUpdate.mkInsert sampleOrderA 0,
          OrderBookUpdate.mkUpdate sampleDelta 4 1, OrderBookUpdate.mkRemove 2,
          OrderBookUpdate.mkUpdate sampleDelta 0 0] = true ∧
      ∃ ob1, applyAll sampleGrow sampleBook
        [OrderBookUpdate.mkInsert sampleOrderC 3, OrderBookUpdate.mkInsert sampleOrderA 0,
          OrderBookUpdate.mkUpdate sampleDelta 4 1, OrderBookUpdate.mkRemove 2,
          OrderBookUpdate.mkUpdate sampleDelta 0 0] = some ob1 ∧
        (ob1.Orders.length : Int)
          = (sampleBook.Orders.length : Int)
            + (([OrderBookUpdate.mkInsert sampleOrderC 3, OrderBookUpdate.mkInsert sampleOrderA 0,
                  OrderBookUpdate.mkUpdate sampleDelta 4 1, OrderBookUpdate.mkRemove 2,
                  OrderBookUpdate.mkUpdate sampleDelta 0 0].countP
                    OrderBookUpdate.isInsert : Nat) : Int)
            - (([OrderBookUpdate.mkInsert sampleOrderC 3, OrderBookUpdate.mkInsert sampleOrderA 0,
                  OrderBookUpdate.mkUpdate sampleDelta 4 1, OrderBookUpdate.mkRemove 2,
                  OrderBookUpdate.mkUpdate sampleDelta 0 0].countP
                    OrderBookUpdate.isRemove : Nat) : Int) :=
  ⟨by decide, apply_all_length sampleGrow sampleBook _ (by decide)⟩

/-- C2: on a book holding `s`, for `i <= len s` and a non-zero order `o`, `Apply` of
`Insert(o, newIndex = i)` returns the book holding the first `i` elements of `s`, then `o`,
then the remaining elements of `s` in their order. -/
theorem apply_insert_places_order (grow : Nat → Nat → Nat) (ob : PDAXOrderBook) (i : Nat)
    (o : Order) (hi : i ≤ ob.Orders.length) (ho : o.eq Order.zero = false) :
    ∃ ob1, ob.Apply grow (OrderBookUpdate.mkInsert o (i : Int)) = some ob1 ∧
      ob1.Orders = ob.Orders.take i ++ o :: ob.Orders.drop i := by
  rw [PDAXOrderBook.Apply_mkInsert grow ob o i ho]
  exact PDAXOrderBook.insert_eq_some grow ob i o hi

theorem apply_insert_places_order_witness :
    1 ≤ sampleBook.Orders.length ∧ sampleOrderC.eq Order.zero = false ∧
      ∃ ob1, sampleBook.Apply sampleGrow (OrderBookUpdate.mkInsert sampleOrderC ((1 : Nat) : Int))
          = some ob1 ∧
        ob1.Orders = sampleBook.Orders.take 1 ++ sampleOrderC :: sampleBook.Orders.drop 1 :=
  ⟨by decide, by decide,
    apply_insert_places_order sampleGrow sampleBook 1 sampleOrderC (by decide) (by decide)⟩

/-- C3: on a book holding `s`, for `i < len s`, `Apply` of `Remove(oldIndex = i)` returns the
book holding `s` without its `i`-th element: positions below `i` are unchanged and position
`j >= i` holds what was at `j + 1`. -/
theorem apply_remove_deletes_entry (grow : Nat → Nat → Nat) (ob : PDAXOrderBook) (i : Nat)
    (hi : i < ob.Orders.length) :
    ∃ ob1, ob.Apply grow (OrderBookUpdate.mkRemove (i : Int)) = some ob1 ∧
      ob1.Orders = ob.Orders.take i ++ ob.Orders.drop (i + 1) ∧
      ob1.Orders.length + 1 = ob.Orders.length ∧
      (∀ j, j < i → ob1.Orders.get? j = ob.Orders.get? j) ∧
      (∀ j, i ≤ j → ob1.Orders.get? j = ob.Orders.get? (j + 1)) := by
  rw [PDAXOrderBook.Apply_mkRemove]
  obtain ⟨ob1, h1, h2⟩ := PDAXOrderBook.remove_eq_some grow ob i hi
  have hlen : (ob.Orders.take i).length = i := by
    rw [List.length_take]; omega
  refine ⟨ob1, h1, h2, ?_, ?_, ?_⟩
  · rw [h2, List.length_append, hlen, List.length_drop]; omega
  · intro j hj
    rw [h2, List.get?_eq_getElem?, List.get?_eq_getElem?,
      List.getElem?_append_left (by omega), List.getElem?_take_of_lt hj]
  · intro j hj
    rw [h2, List.get?_eq_getElem?, List.get?_eq_getElem?,
      List.getElem?_append_right (by omega), hlen, List.getElem?_drop]
    congr 1
    omega

theorem apply_remove_deletes_entry_witness :
    1 < sampleBook.Orders.length ∧
      ∃ ob1, sampleBook.Apply sampleGrow (OrderBookUpdate.mkRemove ((1 : Nat) : Int)) = some ob1 ∧
        ob1.Orders = sampleBook.Orders.take 1 ++ sampleBook.Orders.drop (1 + 1) ∧
        ob1.Orders.length + 1 = sampleBook.Orders.length ∧
        (∀ j, j < 1 → ob1.Orders.get? j = sampleBook.Orders.get? j) ∧
        (∀ j, 1 ≤ j → ob1.Orders.get? j = sampleBook.Orders.get? (j + 1)) :=
  ⟨by decide, apply_remove_deletes_entry sampleGrow sampleBook 1 (by decide)⟩

/-- C4: on a book of length `n`, for `i < n` and a non-zero `OrderUpdate` `d`, `Apply` of
`Update(d, oldIndex = i, newIndex = i)` replaces the entry at `i` by one with the quantity and
timestamp of `d` and the same price, decimals and side; every other entry and the length of the
book are as before. -/
theorem apply_update_in_place_frame (grow : Nat → Nat → Nat) (ob : PDAXOrderBook) (i : Nat)
    (d : OrderUpdate) (hi : i < ob.Orders.length) (hd : d.eq OrderUpdate.zero = false) :
    ∃ o o1 ob1, ob.Orders.get? i = some o ∧
      ob.Apply grow (OrderBookUpdate.mkUpdate d (i : Int) (i : Int)) = some ob1 ∧
      ob1.Orders.get? i = some o1 ∧
      o1.Quantity = d.Quantity ∧ o1.Timestamp = d.Timestamp ∧
      o1.Price = o.Price ∧ o1.PriceDec = o.PriceDec ∧ o1.QuantityDec = o.QuantityDec ∧
      o1.Side = o.Side ∧
      (∀ j, j ≠ i → ob1.Orders.get? j = ob.Orders.get? j) ∧
      ob1.Orders.length = ob.Orders.length := by
  rw [PDAXOrderBook.Apply_mkUpdate grow ob d i i hd, PDAXOrderBook.update_same grow ob i d hi]
  refine ⟨ob.Orders.get ⟨i, hi⟩, (ob.Orders.get ⟨i, hi⟩).modified d, _, ?_, rfl, ?_,
    rfl, rfl, rfl, rfl, rfl, rfl, ?_, ?_⟩
  · rw [List.get?_eq_getElem?, List.getElem?_eq_getElem hi]; rfl
  · simp [PDAXOrderBook.Orders, List.getElem?_set, hi] 
    exact hi
  · intro j hj
    simp [PDAXOrderBook.Orders, List.getElem?_set, Ne.symm hj]
  · simp [PDAXOrderBook.Orders]

theorem apply_update_in_place_frame_witness :
    2 < sampleBook.Orders.length ∧ sampleDelta.eq OrderUpdate.zero = false ∧
      ∃ o o1 ob1, sampleBook.Orders.get? 2 = some o ∧
        sampleBook.Apply sampleGrow
          (OrderBookUpdate.mkUpdate sampleDelta ((2 : Nat) : Int) ((2 : Nat) : Int)) = some ob1 ∧
        ob1.Orders.get? 2 = some o1 ∧
        o1.Quantity = sampleDelta.Quantity ∧ o1.Timestamp = sampleDelta.Timestamp ∧
        o1.Price = o.Price ∧ o1.PriceDec = o.PriceDec ∧ o1.QuantityDec = o.QuantityDec ∧
        o1.Side = o.Side ∧
        (∀ j, j ≠ 2 → ob1.Orders.get? j = sampleBook.Orders.get? j) ∧
        ob1.Orders.length = sampleBook.Orders.length :=
  ⟨by decide, by decide,
    apply_update_in_place_frame sampleGrow sampleBook 2 sampleDelta (by decide) (by decide)⟩

/-- C5: for in-range `oldIndex = i` and `newIndex = j` with `i ≠ j` and a non-zero `OrderUpdate`
`d`, `Apply` of `Update(d, i, j)` returns the book that `Apply` of `Remove(i)` followed by
`Apply` of `Insert(m, j)` returns, `m` being the order previously at `i` with the quantity and
timestamp of `d`; `j` is a position of the book after the removal. -/
theorem apply_update_move_eq_remove_then_insert (grow : Nat → Nat → Nat) (ob : PDAXOrderBook)
    (i j : Nat) (d : OrderUpdate) (hi : i < ob.Orders.length) (hj : j < ob.Orders.length)
    (hij : i ≠ j) (hd : d.eq OrderUpdate.zero = false) :
    ∃ o ob1 ob2, ob.Orders.get? i = some o ∧
      ob.Apply grow (OrderBookUpdate.mkRemove (i : Int)) = some ob1 ∧
      ob1.Apply grow (OrderBookUpdate.mkInsert (o.modified d) (j : Int)) = some ob2 ∧
      ob.Apply grow (OrderBookUpdate.mkUpdate d (i : Int) (j : Int)) = some ob2 := by
  obtain ⟨ob1, h1, h1e⟩ := PDAXOrderBook.remove_eq_some grow ob i hi
  have hlen : ob1.Orders.length + 1 = ob.Orders.length := by
    rw [h1e, List.length_append, List.length_take, List.length_drop]; omega
  obtain ⟨ob2, h2, _⟩ :=
    PDAXOrderBook.insert_eq_some grow ob1 j ((ob.Orders.get ⟨i, hi⟩).modified d) (by omega)
  have hne : (i : Int) ≠ (j : Int) := by omega
  refine ⟨ob.Orders.get ⟨i, hi⟩, ob1, ob2, ?_, ?_, ?_, ?_⟩
  · rw [List.get?_eq_getElem?, List.getElem?_eq_getElem hi]; rfl
  · rw [PDAXOrderBook.Apply_mkRemove]; exact h1
  · rw [PDAXOrderBook.Apply_mkInsert _ _ _ _ (Order.modified_ne_zero _ d hd)]; exact h2
  · rw [PDAXOrderBook.Apply_mkUpdate grow ob d i j hd, PDAXOrderBook.update_move grow ob i j d hi hne,
      h1]
    exact h2

theorem apply_update_move_eq_remove_then_insert_witness :
    0 < sampleBook.Orders.length ∧ 2 < sampleBook.Orders.length ∧ (0 : Nat) ≠ 2 ∧
      sampleDelta.eq OrderUpdate.zero = false ∧
      ∃ o ob1 ob2, sampleBook.Orders.get? 0 = some o ∧
        sampleBook.Apply sampleGrow (OrderBookUpdate.mkRemove ((0 : Nat) : Int)) = some ob1 ∧
        ob1.Apply sampleGrow (OrderBookUpdate.mkInsert (o.modified sampleDelta) ((2 : Nat) : Int))
          = some ob2 ∧
        sampleBook.Apply sampleGrow
          (OrderBookUpdate.mkUpdate sampleDelta ((0 : Nat) : Int) ((2 : Nat) : Int)) = some ob2 :=
  ⟨by decide, by decide, by decide, by decide,
    apply_update_move_eq_remove_then_insert sampleGrow sampleBook 0 2 sampleDelta
      (by decide) (by decide) (by decide) (by decide)⟩

/-- C6: on a book of length `n`, `Apply` faults on a Remove whose `OldIndex` is outside
`[0, n-1]`, on an Insert whose `NewIndex` is outside `[0, n]` and on an Update whose `OldIndex`
is outside `[0, n-1]`; no book is returned. -/
theorem apply_out_of_range_faults (grow : Nat → Nat → Nat) (ob : PDAXOrderBook)
    (u : OrderBookUpdate)
    (h : (u.Remove = true ∧ (u.OldIndex < 0 ∨ (ob.Orders.length : Int) ≤ u.OldIndex))
      ∨ (u.Remove = false ∧ u.Insert.eq Order.zero = false
          ∧ (u.NewIndex < 0 ∨ (ob.Orders.length : Int) < u.NewIndex))
      ∨ (u.Remove = false ∧ u.Insert.eq Order.zero = true ∧ u.Update.eq OrderUpdate.zero = false
          ∧ (u.OldIndex < 0 ∨ (ob.Orders.length : Int) ≤ u.OldIndex))) :
    ob.Apply grow u = none := by
  rcases h with ⟨hr, hx⟩ | ⟨hr, hins, hx⟩ | ⟨hr, hins, hupd, hx⟩
  · simp [PDAXOrderBook.Apply, hr, PDAXOrderBook.remove_eq_none grow ob _ hx]
  · simp [PDAXOrderBook.Apply, hr, hins, PDAXOrderBook.insert_eq_none grow ob _ _ hx]
  · simp [PDAXOrderBook.Apply, hr, hins, hupd, PDAXOrderBook.update,
      OrderSlice.index_out ob.orders _ hx]

theorem apply_out_of_range_faults_witness :
    ((OrderBookUpdate.mkInsert sampleOrderA 4).Remove = false ∧
        (OrderBookUpdate.mkInsert sampleOrderA 4).Insert.eq Order.zero = false ∧
        ((OrderBookUpdate.mkInsert sampleOrderA 4).NewIndex < 0 ∨
          (sampleBook.Orders.length : Int) < (OrderBookUpdate.mkInsert sampleOrderA 4).NewIndex)) ∧
      sampleBook.Apply sampleGrow (OrderBookUpdate.mkInsert sampleOrderA 4) = none :=
  ⟨by decide,
    apply_out_of_range_faults sampleGrow sampleBook (OrderBookUpdate.mkInsert sampleOrderA 4)
      (Or.inr (Or.inl (by decide)))⟩

/-! ## Theorems: byte cursors -/

theorem lor_shiftLeft_eq_add (a b k : Nat) (h : a < 2 ^ k) : a ||| b <<< k = a + b * 2 ^ k := by
  rw [Nat.lor_comm, Nat.shiftLeft_eq, Nat.mul_comm b, ← Nat.mul_add_lt_is_or h, Nat.add_comm]

theorem lor_shiftLeft_mod_eq_add (acc x k w : Nat) (hacc : acc < 2 ^ k) (hx : x < 256)
    (hk : k + 8 ≤ w) : acc ||| (x <<< k) % 2 ^ w = acc + x * 2 ^ k := by
  have h1 : x * 2 ^ k < 2 ^ w := by
    calc x * 2 ^ k < 2 ^ 8 * 2 ^ k := by
          apply Nat.mul_lt_mul_of_pos_right hx (Nat.two_pow_pos k)
      _ = 2 ^ (k + 8) := by rw [← Nat.pow_add, Nat.add_comm]
      _ ≤ 2 ^ w := Nat.pow_le_pow_right (by decide) hk
  have h2 : (x <<< k) % 2 ^ w = x <<< k := by
    rw [Nat.shiftLeft_eq]; exact Nat.mod_eq_of_lt h1
  rw [h2, lor_shiftLeft_eq_add _ _ _ hacc]

theorem be16_round_trip (v : Nat) (h : v < 2 ^ 16) :
    v % 256 ||| (((v >>> 8) % 256) <<< 8) % 2 ^ 16 = v := by
  rw [lor_shiftLeft_mod_eq_add _ _ 8 16 (by omega) (by omega) (by omega),
    Nat.shiftRight_eq_div_pow]
  omega

theorem be64_round_trip (v : Nat) (h : v < 2 ^ 64) :
    v % 256 ||| (((v >>> 8) % 256) <<< 8) % 2 ^ 64 ||| (((v >>> 16) % 256) <<< 16) % 2 ^ 64
      ||| (((v >>> 24) % 256) <<< 24) % 2 ^ 64 ||| (((v >>> 32) % 256) <<< 32) % 2 ^ 64
      ||| (((v >>> 40) % 256) <<< 40) % 2 ^ 64 ||| (((v >>> 48) % 256) <<< 48) % 2 ^ 64
      ||| (((v >>> 56) % 256) <<< 56) % 2 ^ 64 = v := by
  simp only [Nat.shiftRight_eq_div_pow]
  rw [lor_shiftLeft_mod_eq_add _ _ 8 64 (by omega) (by omega) (by omega),
    lor_shiftLeft_mod_eq_add _ _ 16 64 (by omega) (by omega) (by omega),
    lor_shiftLeft_mod_eq_add _ _ 24 64 (by omega) (by omega) (by omega),
    lor_shiftLeft_mod_eq_add _ _ 32 64 (by omega) (by omega) (by omega),
    lor_shiftLeft_mod_eq_add _ _ 40 64 (by omega) (by omega) (by omega),
    lor_shiftLeft_mod_eq_add _ _ 48 64 (by omega) (by omega) (by omega),
    lor_shiftLeft_mod_eq_add _ _ 56 64 (by omega) (by omega) (by omega)]
  omega

/-- C7: a `uint8`, `uint16` or `float64` value (the latter as its bit pattern) written through a
`WriteCursor` at offset 0 into a buffer long enough to hold it and read with the same width through
a `ReadCursor` at offset 0 over the resulting buffer is returned unchanged. -/
theorem cursor_write_read_round_trip (b8 b16 b64 : List Nat) (v8 v16 v64 : Nat)
    (h16 : v16 < 2 ^ 16) (h64 : v64 < 2 ^ 64)
    (l8 : 1 ≤ b8.length) (l16 : 2 ≤ b16.length) (l64 : 8 ≤ b64.length) :
    (∃ wc rc, WriteCursor.WriteUint8 ⟨0, b8⟩ v8 = some wc ∧
        ReadCursor.ReadUint8 ⟨0, wc.Data⟩ = some (v8, rc)) ∧
    (∃ wc rc, WriteCursor.WriteUint16 ⟨0, b16⟩ v16 = some wc ∧
        ReadCursor.ReadUint16 ⟨0, wc.Data⟩ = some (v16, rc)) ∧
    (∃ wc rc, WriteCursor.WriteFloat64 ⟨0, b64⟩ v64 = some wc ∧
        ReadCursor.ReadFloat64 ⟨0, wc.Data⟩ = some (v64, rc)) := by
  refine ⟨?_, ?_, ?_⟩
  · rcases b8 with _ | ⟨x0, r⟩
    · simp at l8
    · exact ⟨⟨1, v8 :: r⟩, ⟨1, v8 :: r⟩, by simp [WriteCursor.WriteUint8],
        by simp [ReadCursor.ReadUint8]⟩
  · rcases b16 with _ | ⟨x0, _ | ⟨x1, r⟩⟩
    · simp at l16
    · simp at l16
    · refine ⟨⟨2, (v16 >>> 8) % 256 :: v16 % 256 :: r⟩,
        ⟨2, (v16 >>> 8) % 256 :: v16 % 256 :: r⟩, ?_, ?_⟩
      · simp [WriteCursor.WriteUint16, bytesFrom, BigEndian.PutUint16]
      · have := be16_round_trip v16 h16
        simp [ReadCursor.ReadUint16, bytesFrom, BigEndian.Uint16]
        exact this
  · rcases b64 with _ | ⟨x0, _ | ⟨x1, _ | ⟨x2, _ | ⟨x3, _ | ⟨x4, _ | ⟨x5, _ | ⟨x6, _ | ⟨x7, r⟩⟩⟩⟩⟩⟩⟩⟩
    any_goals (simp at l64; done)
    refine ⟨⟨8, (v64 >>> 56) % 256 :: (v64 >>> 48) % 256 :: (v64 >>> 40) % 256 ::
        (v64 >>> 32) % 256 :: (v64 >>> 24) % 256 :: (v64 >>> 16) % 256 :: (v64 >>> 8) % 256 ::
        v64 % 256 :: r⟩,
      ⟨8, (v64 >>> 56) % 256 :: (v64 >>> 48) % 256 :: (v64 >>> 40) % 256 ::
        (v64 >>> 32) % 256 :: (v64 >>> 24) % 256 :: (v64 >>> 16) % 256 :: (v64 >>> 8) % 256 ::
        v64 % 256 :: r⟩, ?_, ?_⟩
    · simp [WriteCursor.WriteFloat64, bytesFrom, BigEndian.PutUint64]
    · have := be64_round_trip v64 h64
      simp [ReadCursor.ReadFloat64, bytesFrom, BigEndian.Uint64]
      exact this

theorem cursor_write_read_round_trip_witness :
    (43981 < 2 ^ 16 ∧ 0x4059000000000000 < 2 ^ 64 ∧ 1 ≤ [7].length ∧ 2 ≤ [7, 7, 7].length ∧
      8 ≤ [7, 7, 7, 7, 7, 7, 7, 7, 7].length) ∧
    ((∃ wc rc, WriteCursor.WriteUint8 ⟨0, [7]⟩ 200 = some wc ∧
        ReadCursor.ReadUint8 ⟨0, wc.Data⟩ = some (200, rc)) ∧
    (∃ wc rc, WriteCursor.WriteUint16 ⟨0, [7, 7, 7]⟩ 43981 = some wc ∧
        ReadCursor.ReadUint16 ⟨0, wc.Data⟩ = some (43981, rc)) ∧
    (∃ wc rc, WriteCursor.WriteFloat64 ⟨0, [7, 7, 7, 7, 7, 7, 7, 7, 7]⟩ 0x4059000000000000
          = some wc ∧
        ReadCursor.ReadFloat64 ⟨0, wc.Data⟩ = some (0x4059000000000000, rc))) :=
  ⟨by decide,
    cursor_write_read_round_trip [7] [7, 7, 7] [7, 7, 7, 7, 7, 7, 7, 7, 7] 200 43981
      0x4059000000000000 (by decide) (by decide) (by decide) (by decide) (by decide)⟩

theorem ReadCursor.ReadUint8_spec (rc : ReadCursor) (hlen : rc.Data.length < 2 ^ 64) :
    (rc.ReadUint8 = none ↔ rc.Data.length < rc.CurPos + 1) ∧
      ∀ v rc1, rc.ReadUint8 = some (v, rc1) →
        rc1.CurPos = rc.CurPos + 1 ∧ rc1.Data = rc.Data := by
  unfold ReadCursor.ReadUint8
  cases hg : rc.Data.get? rc.CurPos with
  | none =>
    have := List.get?_eq_none.1 hg
    simp only [Option.bind_eq_bind, Option.none_bind, true_iff]
    refine ⟨by omega, ?_⟩
    intro v rc1 hc
    cases hc
  | some v0 =>
    have hlt : rc.CurPos < rc.Data.length := by
      by_contra hc
      have := List.get?_eq_none.2 (Nat.le_of_not_lt hc)
      rw [hg] at this
      cases this
    have hm : (rc.CurPos + 1) % 2 ^ 64 = rc.CurPos + 1 := Nat.mod_eq_of_lt (by omega)
    simp only [Option.bind_eq_bind, Option.some_bind, hm]
    constructor
    · constructor
      · intro hc; cases hc
      · intro hc; omega
    · intro v rc1 h2
      cases h2
      exact ⟨rfl, rfl⟩

theorem ReadCursor.read_be_spec (rc : ReadCursor) (w : Nat) (dec : List Nat → Option Nat)
    (hdec : ∀ b, dec b = none ↔ b.length < w) (hlen : rc.Data.length < 2 ^ 64) :
    (((bytesFrom rc.Data rc.CurPos).bind fun b =>
        (dec b).bind fun v =>
          some (v, ({ rc with CurPos := (rc.CurPos + w) % 2 ^ 64 } : ReadCursor))) = none
      ↔ rc.Data.length < rc.CurPos + w) ∧
      ∀ v rc1, ((bytesFrom rc.Data rc.CurPos).bind fun b =>
        (dec b).bind fun v =>
          some (v, ({ rc with CurPos := (rc.CurPos + w) % 2 ^ 64 } : ReadCursor))) = some (v, rc1) →
        rc1.CurPos = rc.CurPos + w ∧ rc1.Data = rc.Data := by
  unfold bytesFrom
  by_cases h : rc.CurPos ≤ rc.Data.length
  · rw [if_pos h]
    simp only [Option.some_bind]
    cases hd : dec (rc.Data.drop rc.CurPos) with
    | none =>
      have := (hdec _).1 hd
      rw [List.length_drop] at this
      simp
      omega
    | some v0 =>
      have hnot : ¬ (rc.Data.drop rc.CurPos).length < w := by
        intro hc
        have := (hdec _).2 hc
        rw [hd] at this
        cases this
      rw [List.length_drop] at hnot
      have hm : (rc.CurPos + w) % 2 ^ 64 = rc.CurPos + w := Nat.mod_eq_of_lt (by omega)
      simp only [Option.some_bind, hm]
      constructor
      · constructor
        · intro hc; cases hc
        · intro hc; omega
      · intro v rc1 h2
        cases h2
        exact ⟨rfl, rfl⟩
  · rw [if_neg h]
    simp
    omega

theorem BigEndian.Uint16_eq_none (b : List Nat) : BigEndian.Uint16 b = none ↔ b.length < 2 := by
  unfold BigEndian.Uint16
  split <;> simp <;> omega

theorem BigEndian.Uint32_eq_none (b : List Nat) : BigEndian.Uint32 b = none ↔ b.length < 4 := by
  unfold BigEndian.Uint32
  split <;> simp <;> omega

theorem BigEndian.Uint64_eq_none (b : List Nat) : BigEndian.Uint64 b = none ↔ b.length < 8 := by
  unfold BigEndian.Uint64
  split <;> simp <;> omega

/-- C8: each read of width `w` (`ReadUint8` 1, `ReadUint16` 2, `ReadUint32` 4, `ReadFloat64` 8)
faults exactly when `CurPos + w` exceeds the length of the buffer, and a read that succeeds
returns the cursor at `CurPos + w` over the same buffer. The buffer is a Go slice, hence
shorter than `2 ^ 64` bytes, so that `CurPos + w` does not wrap. -/
theorem read_faults_iff_out_of_bounds (rc : ReadCursor) (hlen : rc.Data.length < 2 ^ 64) :
    ((rc.ReadUint8 = none ↔ rc.Data.length < rc.CurPos + 1) ∧
      ∀ v rc1, rc.ReadUint8 = some (v, rc1) → rc1.CurPos = rc.CurPos + 1 ∧ rc1.Data = rc.Data) ∧
    ((rc.ReadUint16 = none ↔ rc.Data.length < rc.CurPos + 2) ∧
      ∀ v rc1, rc.ReadUint16 = some (v, rc1) → rc1.CurPos = rc.CurPos + 2 ∧ rc1.Data = rc.Data) ∧
    ((rc.ReadUint32 = none ↔ rc.Data.length < rc.CurPos + 4) ∧
      ∀ v rc1, rc.ReadUint32 = some (v, rc1) → rc1.CurPos = rc.CurPos + 4 ∧ rc1.Data = rc.Data) ∧
    ((rc.ReadFloat64 = none ↔ rc.Data.length < rc.CurPos + 8) ∧
      ∀ v rc1, rc.ReadFloat64 = some (v, rc1) → rc1.CurPos = rc.CurPos + 8 ∧ rc1.Data = rc.Data) :=
  ⟨ReadCursor.ReadUint8_spec rc hlen,
    ReadCursor.read_be_spec rc 2 BigEndian.Uint16 BigEndian.Uint16_eq_none hlen,
    ReadCursor.read_be_spec rc 4 BigEndian.Uint32 BigEndian.Uint32_eq_none hlen,
    ReadCursor.read_be_spec rc 8 BigEndian.Uint64 BigEndian.Uint64_eq_none hlen⟩

theorem read_faults_iff_out_of_bounds_witness :
    ([1, 2, 3, 4, 5] : List Nat).length < 2 ^ 64 ∧
    (((ReadCursor.mk 2 [1, 2, 3, 4, 5]).ReadUint8 = none ↔
        (ReadCursor.mk 2 [1, 2, 3, 4, 5]).Data.length < (ReadCursor.mk 2 [1, 2, 3, 4, 5]).CurPos + 1) ∧
      ∀ v rc1, (ReadCursor.mk 2 [1, 2, 3, 4, 5]).ReadUint8 = some (v, rc1) →
        rc1.CurPos = (ReadCursor.mk 2 [1, 2, 3, 4, 5]).CurPos + 1 ∧
          rc1.Data = (ReadCursor.mk 2 [1, 2, 3, 4, 5]).Data) ∧
    (((ReadCursor.mk 2 [1, 2, 3, 4, 5]).ReadUint16 = none ↔
        (ReadCursor.mk 2 [1, 2, 3, 4, 5]).Data.length < (ReadCursor.mk 2 [1, 2, 3, 4, 5]).CurPos + 2) ∧
      ∀ v rc1, (ReadCursor.mk 2 [1, 2, 3, 4, 5]).ReadUint16 = some (v, rc1) →
        rc1.CurPos = (ReadCursor.mk 2 [1, 2, 3, 4, 5]).CurPos + 2 ∧
          rc1.Data = (ReadCursor.mk 2 [1, 2, 3, 4, 5]).Data) ∧
    (((ReadCursor.mk 2 [1, 2, 3, 4, 5]).ReadUint32 = none ↔
        (ReadCursor.mk 2 [1, 2, 3, 4, 5]).Data.length < (ReadCursor.mk 2 [1, 2, 3, 4, 5]).CurPos + 4) ∧
      ∀ v rc1, (ReadCursor.mk 2 [1, 2, 3, 4, 5]).ReadUint32 = some (v, rc1) →
        rc1.CurPos = (ReadCursor.mk 2 [1, 2, 3, 4, 5]).CurPos + 4 ∧
          rc1.Data = (ReadCursor.mk 2 [1, 2, 3, 4, 5]).Data) ∧
    (((ReadCursor.mk 2 [1, 2, 3, 4, 5]).ReadFloat64 = none ↔
        (ReadCursor.mk 2 [1, 2, 3, 4, 5]).Data.length < (ReadCursor.mk 2 [1, 2, 3, 4, 5]).CurPos + 8) ∧
      ∀ v rc1, (ReadCursor.mk 2 [1, 2, 3, 4, 5]).ReadFloat64 = some (v, rc1) →
        rc1.CurPos = (ReadCursor.mk 2 [1, 2, 3, 4, 5]).CurPos + 8 ∧
          rc1.Data = (ReadCursor.mk 2 [1, 2, 3, 4, 5]).Data) :=
  ⟨by decide, read_faults_iff_out_of_bounds (ReadCursor.mk 2 [1, 2, 3, 4, 5]) (by decide)⟩

/-! ## Theorems: the calendar arithmetic of `DecodeTime` -/

theorem yearOfEra_mono (r r' : Int) (h : r ≤ r') : yearOfEra r ≤ yearOfEra r' := by
  unfold yearOfEra
  have hg : r - r / 1460 + r / 36524 - r / 146096
      ≤ r' - r' / 1460 + r' / 36524 - r' / 146096 := by omega
  exact Int.ediv_le_ediv (by decide) hg

set_option maxRecDepth 100000 in
theorem yearOfEra_endpoints : ∀ k : Nat, k < 400 →
    yearOfEra (yearStart k) = k ∧ yearOfEra (yearStart k + yearLength k - 1) = k ∧
    yearStart k + yearLength k = (if k = 399 then 146097 else yearStart (k + 1)) := by
  decide


theorem isLeapYear_add_era (y n : Int) : isLeapYear (y + 400 * n) = isLeapYear y := by
  unfold isLeapYear
  have h4 : (y + 400 * n) % 4 = y % 4 := by omega
  have h100 : (y + 400 * n) % 100 = y % 100 := by omega
  have h400 : (y + 400 * n) % 400 = y % 400 := by omega
  rw [h4, h100, h400]

/-- For a day `r` of the era, the year of the era is in `[0, 399]` and the day falls inside it. -/
theorem yearOfEra_spec (r : Int) (h0 : 0 ≤ r) (h1 : r < 146097) :
    0 ≤ yearOfEra r ∧ yearOfEra r ≤ 399 ∧ yearStart (yearOfEra r) ≤ r ∧
      r < yearStart (yearOfEra r) + yearLength (yearOfEra r) := by
  have hlo : 0 ≤ yearOfEra r := by
    have := yearOfEra_mono 0 r h0
    have h00 : yearOfEra 0 = 0 := by decide
    omega
  have hhi : yearOfEra r ≤ 399 := by
    have := yearOfEra_mono r 146096 (by omega)
    have h00 : yearOfEra 146096 = 399 := by decide
    omega
  obtain ⟨k, hk⟩ := Int.eq_ofNat_of_zero_le hlo
  have hk400 : k < 400 := by omega
  rw [hk]
  refine ⟨by omega, by omega, ?_, ?_⟩
  · by_contra hc
    have hlt : r < yearStart k := by omega
    have hk0 : k ≠ 0 := by
      rintro rfl
      have : yearStart ((0 : Nat) : Int) = 0 := by decide
      omega
    obtain ⟨j, rfl⟩ : ∃ j, k = j + 1 := ⟨k - 1, by omega⟩
    obtain ⟨_, hj2, hj3⟩ := yearOfEra_endpoints j (by omega)
    have hj399 : j ≠ 399 := by omega
    rw [if_neg hj399] at hj3
    have hle : r ≤ yearStart j + yearLength j - 1 := by
      have : ((j + 1 : Nat) : Int) = (j : Int) + 1 := by push_cast; rfl
      rw [this] at hlt
      omega
    have := yearOfEra_mono _ _ hle
    rw [hj2, hk] at this
    omega
  · by_contra hc
    obtain ⟨_, _, hk3⟩ := yearOfEra_endpoints k hk400
    by_cases hk399 : k = 399
    · rw [if_pos hk399] at hk3
      omega
    · rw [if_neg hk399] at hk3
      have hle : yearStart ((k : Int) + 1) ≤ r := by omega
      have := yearOfEra_mono _ _ hle
      obtain ⟨hs, _, _⟩ := yearOfEra_endpoints (k + 1) (by omega)
      have hc1 : ((k + 1 : Nat) : Int) = (k : Int) + 1 := by push_cast; rfl
      rw [hc1] at hs
      rw [hs, hk] at this
      omega

/-- A day of the era lying inside the year `k` of the era has `k` as its year of the era. -/
theorem yearOfEra_eq (r : Int) (k : Nat) (hk : k < 400) (h0 : yearStart k ≤ r)
    (h1 : r < yearStart k + yearLength k) : yearOfEra r = k := by
  obtain ⟨e1, e2, _⟩ := yearOfEra_endpoints k hk
  have a1 := yearOfEra_mono _ _ h0
  have a2 := yearOfEra_mono r (yearStart k + yearLength k - 1) (by omega)
  omega


theorem CivilDate.next_eq_nextFields (d : CivilDate) :
    d.next = ⟨d.year + (nextFields (isLeapYear d.year) d.month d.day).1,
      (nextFields (isLeapYear d.year) d.month d.day).2.1,
      (nextFields (isLeapYear d.year) d.month d.day).2.2⟩ := by
  unfold CivilDate.next nextFields daysInMonth
  split_ifs <;> simp

theorem civilFromDays_eq (t : Int) :
    civilFromDays t =
      ⟨yearOfEra (t - 146097 * (t / 146097)) + 400 * (t / 146097)
          + yearCarry (t - 146097 * (t / 146097) - yearStart (yearOfEra (t - 146097 * (t / 146097)))),
        monthOfYearDay (t - 146097 * (t / 146097) - yearStart (yearOfEra (t - 146097 * (t / 146097)))),
        dayOfYearDay (t - 146097 * (t / 146097) - yearStart (yearOfEra (t - 146097 * (t / 146097))))⟩ :=
  rfl

set_option maxRecDepth 100000 in
theorem nextFields_table : ∀ a : Nat, a < 366 → ∀ leapCur leapNext : Bool,
    NextFieldsOK a leapCur leapNext := by
  decide

theorem yearStart_le (k : Nat) (hk : k < 400) :
    yearStart k + yearLength k ≤ 146097 ∧ 365 ≤ yearLength k ∧ yearLength k ≤ 366 := by
  obtain ⟨_, _, h3⟩ := yearOfEra_endpoints k hk
  have hL : 365 ≤ yearLength k ∧ yearLength k ≤ 366 := by
    unfold yearLength; split <;> omega
  refine ⟨?_, hL.1, hL.2⟩
  rw [h3]
  split
  · omega
  · unfold yearStart; omega

theorem civilFromDays_succ (t : Int) : civilFromDays (t + 1) = (civilFromDays t).next := by
  rw [CivilDate.next_eq_nextFields, civilFromDays_eq t, civilFromDays_eq (t + 1)]
  simp only []
  have hr0 : 0 ≤ t - 146097 * (t / 146097) := by omega
  have hr1 : t - 146097 * (t / 146097) < 146097 := by omega
  generalize hn : t / 146097 = n at *
  generalize hr : t - 146097 * n = r at *
  obtain ⟨hlo, hhi, hs, he⟩ := yearOfEra_spec r hr0 hr1
  obtain ⟨k, hk⟩ := Int.eq_ofNat_of_zero_le hlo
  rw [hk] at hs he ⊢
  have hk400 : k < 400 := by omega
  obtain ⟨hB, hL0, hL1⟩ := yearStart_le k hk400
  obtain ⟨a, ha⟩ := Int.eq_ofNat_of_zero_le (show 0 ≤ r - yearStart k by omega)
  rw [ha]
  have ha366 : a < 366 := by omega
  have hLdef : yearLength k = if isLeapYear ((k : Int) + 1) then 366 else 365 := rfl
  have hleap : yearCarry a = 1 →
      isLeapYear ((k : Int) + 400 * n + yearCarry a) = isLeapYear ((k : Int) + 1) := by
    intro hc
    rw [hc]
    have : (k : Int) + 400 * n + 1 = (k : Int) + 1 + 400 * n := by ring
    rw [this, isLeapYear_add_era]
  obtain ⟨hW, hE⟩ := nextFields_table a ha366 _ _ hleap
  rw [← hLdef] at hW hE
  by_cases hcase : (a : Int) + 1 < yearLength k
  · -- the next day lies in the same year of the era
    have hn1 : (t + 1) / 146097 = n := by omega
    have hr' : t + 1 - 146097 * n = r + 1 := by omega
    have hy : yearOfEra (r + 1) = k := yearOfEra_eq (r + 1) k hk400 (by omega) (by omega)
    have ha' : r + 1 - yearStart k = (a : Int) + 1 := by omega
    rw [hn1, hr', hy, ha', hW hcase]
    simp only [CivilDate.mk.injEq, and_true]
    ring
  · have haL : (a : Int) + 1 = yearLength k := by omega
    obtain ⟨hnf, hc⟩ := hE haL
    rw [hnf, hc]
    obtain ⟨_, _, h3⟩ := yearOfEra_endpoints k hk400
    by_cases hk399 : k = 399
    · -- the era ends
      rw [if_pos hk399] at h3
      have hr146096 : r = 146096 := by omega
      have hn1 : (t + 1) / 146097 = n + 1 := by omega
      have hr' : t + 1 - 146097 * (n + 1) = 0 := by omega
      rw [hn1, hr']
      have e0 : yearOfEra 0 = 0 := by decide
      have e1 : yearCarry (0 - yearStart 0) = 0 := by decide
      have e2 : monthOfYearDay (0 - yearStart 0) = 3 := by decide
      have e3 : dayOfYearDay (0 - yearStart 0) = 1 := by decide
      rw [e0, e1, e2, e3, hk399]
      simp only [CivilDate.mk.injEq, and_true]
      push_cast
      ring
    · -- the next year of the era starts
      rw [if_neg hk399] at h3
      have hk1 : ((k + 1 : Nat) : Int) = (k : Int) + 1 := by push_cast; rfl
      have hrs : r + 1 = yearStart ((k + 1 : Nat) : Int) := by rw [hk1]; omega
      obtain ⟨hB', hL0', _⟩ := yearStart_le (k + 1) (by omega)
      have hn1 : (t + 1) / 146097 = n := by omega
      have hr' : t + 1 - 146097 * n = r + 1 := by omega
      have hy : yearOfEra (r + 1) = ((k + 1 : Nat) : Int) :=
        yearOfEra_eq (r + 1) (k + 1) (by omega) (by omega) (by omega)
      rw [hn1, hr', hy, hrs, Int.sub_self]
      have e1 : yearCarry 0 = 0 := by decide
      have e2 : monthOfYearDay 0 = 3 := by decide
      have e3 : dayOfYearDay 0 = 1 := by decide
      rw [e1, e2, e3, hk1]
      simp only [CivilDate.mk.injEq, and_true]
      ring

theorem civilFromDays_epoch (n : Nat) : civilFromDays ((n : Int) + 730425) = dateAfterEpoch n := by
  induction n with
  | zero => decide
  | succ m ih =>
    have : ((m + 1 : Nat) : Int) + 730425 = ((m : Int) + 730425) + 1 := by push_cast; ring
    rw [this, civilFromDays_succ, ih]
    rfl

/-! ## Theorems: float64 rounding -/

theorem roundHalfEven_intCast (z : Int) : roundHalfEven (z : ℚ) = z := by
  unfold roundHalfEven
  simp

theorem floor_le_roundHalfEven (q : ℚ) : ⌊q⌋ ≤ roundHalfEven q := by
  unfold roundHalfEven
  split_ifs <;> omega

theorem roundHalfEven_le_floor_add_one (q : ℚ) : roundHalfEven q ≤ ⌊q⌋ + 1 := by
  unfold roundHalfEven
  split_ifs <;> omega

theorem roundHalfEven_mono {q q' : ℚ} (h : q ≤ q') : roundHalfEven q ≤ roundHalfEven q' := by
  have hfl : ⌊q⌋ ≤ ⌊q'⌋ := Int.floor_mono h
  rcases lt_or_eq_of_le hfl with hlt | heq
  · calc roundHalfEven q ≤ ⌊q⌋ + 1 := roundHalfEven_le_floor_add_one q
      _ ≤ ⌊q'⌋ := by omega
      _ ≤ roundHalfEven q' := floor_le_roundHalfEven q'
  · unfold roundHalfEven
    rw [← heq]
    have hd : q - ⌊q⌋ ≤ q' - ⌊q⌋ := by linarith
    split_ifs <;> first | omega | (exfalso; linarith)

theorem roundHalfEven_neg (q : ℚ) : roundHalfEven (-q) = -roundHalfEven q := by
  by_cases hq : (⌊q⌋ : ℚ) = q
  · have : -q = ((-⌊q⌋ : Int) : ℚ) := by push_cast; rw [hq]
    rw [this, roundHalfEven_intCast]
    conv_rhs => rw [← hq, roundHalfEven_intCast]
  · have hlt : (⌊q⌋ : ℚ) < q := lt_of_le_of_ne (Int.floor_le q) hq
    have hfl : ⌊-q⌋ = -⌊q⌋ - 1 := by
      rw [Int.floor_eq_iff]
      have := Int.lt_floor_add_one q
      push_cast
      constructor <;> linarith
    unfold roundHalfEven
    rw [hfl]
    push_cast
    have h1 := Int.lt_floor_add_one q
    split_ifs <;> first | omega | (exfalso; linarith)


theorem f64Exponent_neg (x : ℚ) : f64Exponent (-x) = f64Exponent x := by
  unfold f64Exponent
  rw [abs_neg]

theorem f64Round_neg (x : ℚ) : f64Round (-x) = -f64Round x := by
  unfold f64Round
  rw [f64Exponent_neg, neg_div, roundHalfEven_neg]
  push_cast
  ring

theorem f64Round_zero : f64Round 0 = 0 := by
  unfold f64Round
  rw [zero_div]
  have := roundHalfEven_intCast 0
  simp only [Int.cast_zero] at this
  rw [this]
  simp

theorem two_zpow_pos (e : Int) : (0 : ℚ) < 2 ^ e := zpow_pos (by norm_num) e

theorem f64Round_nonneg {x : ℚ} (hx : 0 ≤ x) : 0 ≤ f64Round x := by
  unfold f64Round
  have hu := two_zpow_pos (f64Exponent x - 52)
  have h1 : (0 : ℚ) ≤ x / 2 ^ (f64Exponent x - 52) := div_nonneg hx hu.le
  have h2 : 0 ≤ roundHalfEven (x / 2 ^ (f64Exponent x - 52)) :=
    le_trans (Int.floor_nonneg.2 h1) (floor_le_roundHalfEven _)
  have h3 : (0 : ℚ) ≤ (roundHalfEven (x / 2 ^ (f64Exponent x - 52)) : ℚ) := by exact_mod_cast h2
  exact mul_nonneg h3 hu.le

theorem two_pow_mul_zpow (n : Nat) (e : Int) :
    (((2 ^ n : Int)) : ℚ) * 2 ^ (e - (n : Int)) = 2 ^ e := by
  push_cast
  rw [← zpow_natCast, ← zpow_add₀ (by norm_num)]
  congr 1
  ring

theorem f64Exponent_of_pos {x : ℚ} (hx : 0 < x) : f64Exponent x = max (Int.log 2 x) (-1022) := by
  unfold f64Exponent
  rw [abs_of_pos hx]

theorem f64Round_le_two_zpow {x : ℚ} (hx : 0 < x) : f64Round x ≤ 2 ^ (f64Exponent x + 1) := by
  unfold f64Round
  have hu := two_zpow_pos (f64Exponent x - 52)
  have hlt : x < 2 ^ (f64Exponent x + 1) := by
    have h1 : x < (2 : ℚ) ^ (Int.log 2 x + 1) := by
      exact_mod_cast Int.lt_zpow_succ_log_self (b := 2) (by norm_num) x
    have h2 : (2 : ℚ) ^ (Int.log 2 x + 1) ≤ 2 ^ (f64Exponent x + 1) := by
      apply zpow_le_zpow_right₀ (by norm_num)
      rw [f64Exponent_of_pos hx]
      have := le_max_left (Int.log 2 x) (-1022)
      omega
    exact lt_of_lt_of_le h1 h2
  have e53 : (((2 ^ 53 : Int)) : ℚ) * 2 ^ (f64Exponent x - 52) = 2 ^ (f64Exponent x + 1) := by
    have := two_pow_mul_zpow 53 (f64Exponent x + 1)
    rw [show f64Exponent x + 1 - ((53 : Nat) : Int) = f64Exponent x - 52 by push_cast; ring] at this
    exact this
  have h53 : x / 2 ^ (f64Exponent x - 52) ≤ ((2 ^ 53 : Int) : ℚ) := by
    rw [div_le_iff₀ hu, e53]
    exact hlt.le
  have h := roundHalfEven_mono h53
  rw [roundHalfEven_intCast] at h
  have hq : (roundHalfEven (x / 2 ^ (f64Exponent x - 52)) : ℚ) ≤ ((2 ^ 53 : Int) : ℚ) := by
    exact_mod_cast h
  calc (roundHalfEven (x / 2 ^ (f64Exponent x - 52)) : ℚ) * 2 ^ (f64Exponent x - 52)
      ≤ ((2 ^ 53 : Int) : ℚ) * 2 ^ (f64Exponent x - 52) := mul_le_mul_of_nonneg_right hq hu.le
    _ = 2 ^ (f64Exponent x + 1) := e53

theorem two_zpow_le_f64Round {x : ℚ} (hx : 0 < x) (he : f64Exponent x = Int.log 2 x) :
    2 ^ (f64Exponent x) ≤ f64Round x := by
  unfold f64Round
  have hu := two_zpow_pos (f64Exponent x - 52)
  have hle : (2 : ℚ) ^ (f64Exponent x) ≤ x := by
    rw [he]
    exact_mod_cast Int.zpow_log_le_self (b := 2) (by norm_num) hx
  have e52 : (((2 ^ 52 : Int)) : ℚ) * 2 ^ (f64Exponent x - 52) = 2 ^ (f64Exponent x) := by
    have := two_pow_mul_zpow 52 (f64Exponent x)
    rw [show f64Exponent x - ((52 : Nat) : Int) = f64Exponent x - 52 by push_cast; ring] at this
    exact this
  have h52 : ((2 ^ 52 : Int) : ℚ) ≤ x / 2 ^ (f64Exponent x - 52) := by
    rw [le_div_iff₀ hu, e52]
    exact hle
  have h := roundHalfEven_mono h52
  rw [roundHalfEven_intCast] at h
  have hq : ((2 ^ 52 : Int) : ℚ) ≤ (roundHalfEven (x / 2 ^ (f64Exponent x - 52)) : ℚ) := by
    exact_mod_cast h
  calc (2 : ℚ) ^ (f64Exponent x) = ((2 ^ 52 : Int) : ℚ) * 2 ^ (f64Exponent x - 52) := e52.symm
    _ ≤ _ := mul_le_mul_of_nonneg_right hq hu.le

theorem f64Round_mono_of_pos {x y : ℚ} (hx : 0 < x) (h : x ≤ y) : f64Round x ≤ f64Round y := by
  have hy : 0 < y := lt_of_lt_of_le hx h
  have hlog : Int.log 2 x ≤ Int.log 2 y := Int.log_mono_right hx h
  have hexp : f64Exponent x ≤ f64Exponent y := by
    rw [f64Exponent_of_pos hx, f64Exponent_of_pos hy]
    exact max_le_max hlog le_rfl
  rcases lt_or_eq_of_le hexp with hlt | heq
  · have hey : f64Exponent y = Int.log 2 y := by
      rw [f64Exponent_of_pos hx, f64Exponent_of_pos hy] at hlt
      rw [f64Exponent_of_pos hy]
      have h1 := le_max_right (Int.log 2 x) (-1022)
      rcases max_cases (Int.log 2 y) (-1022) with ⟨h2, _⟩ | ⟨h2, _⟩
      · exact h2
      · rw [h2] at hlt; omega
    calc f64Round x ≤ 2 ^ (f64Exponent x + 1) := f64Round_le_two_zpow hx
      _ ≤ 2 ^ (f64Exponent y) := zpow_le_zpow_right₀ (by norm_num) (by omega)
      _ ≤ f64Round y := two_zpow_le_f64Round hy hey
  · unfold f64Round
    rw [heq]
    have hu := two_zpow_pos (f64Exponent y - 52)
    have hdiv : x / 2 ^ (f64Exponent y - 52) ≤ y / 2 ^ (f64Exponent y - 52) :=
      div_le_div_of_nonneg_right h hu.le
    have hr := roundHalfEven_mono hdiv
    have hq : (roundHalfEven (x / 2 ^ (f64Exponent y - 52)) : ℚ)
        ≤ (roundHalfEven (y / 2 ^ (f64Exponent y - 52)) : ℚ) := by exact_mod_cast hr
    exact mul_le_mul_of_nonneg_right hq hu.le

theorem f64Round_mono {x y : ℚ} (h : x ≤ y) : f64Round x ≤ f64Round y := by
  rcases lt_trichotomy 0 x with hx | hx | hx
  · exact f64Round_mono_of_pos hx h
  · rw [← hx, f64Round_zero]
    exact f64Round_nonneg (hx ▸ h)
  · rcases lt_trichotomy 0 y with hy | hy | hy
    · have h1 : f64Round x ≤ 0 := by
        have := f64Round_nonneg (show (0 : ℚ) ≤ -x by linarith)
        rw [f64Round_neg] at this
        linarith
      exact le_trans h1 (f64Round_nonneg hy.le)
    · rw [← hy, f64Round_zero]
      have := f64Round_nonneg (show (0 : ℚ) ≤ -x by linarith)
      rw [f64Round_neg] at this
      linarith
    · have := f64Round_mono_of_pos (show (0 : ℚ) < -y by linarith) (show -y ≤ -x by linarith)
      rw [f64Round_neg, f64Round_neg] at this
      linarith


theorem f64Round_dyadic (m : Int) (k : Nat) (hm : -2 ^ 53 < m ∧ m < 2 ^ 53) (hk : k ≤ 1074) :
    f64Round ((m : ℚ) / 2 ^ k) = (m : ℚ) / 2 ^ k := by
  by_cases hm0 : m = 0
  · subst hm0
    simp [f64Round_zero]
  have hx0 : (m : ℚ) / 2 ^ k ≠ 0 := by
    apply div_ne_zero
    · exact_mod_cast hm0
    · positivity
  have habs : |(m : ℚ) / 2 ^ k| < (2 : ℚ) ^ ((53 : Int) - (k : Int)) := by
    rw [abs_div, abs_of_pos (show (0 : ℚ) < 2 ^ k by positivity), div_lt_iff₀ (by positivity)]
    have h1 : |(m : ℚ)| < 2 ^ 53 := by
      rw [abs_lt]
      constructor
      · exact_mod_cast hm.1
      · exact_mod_cast hm.2
    have h2 : (2 : ℚ) ^ ((53 : Int) - (k : Int)) * 2 ^ k = 2 ^ 53 := by
      rw [← zpow_natCast, ← zpow_add₀ (by norm_num)]
      have : (53 : Int) - (k : Int) + (k : Int) = ((53 : Nat) : Int) := by push_cast; ring
      rw [this, zpow_natCast]
    rw [h2]
    exact h1
  have hlog : Int.log 2 |(m : ℚ) / 2 ^ k| < (53 : Int) - (k : Int) := by
    apply (Int.lt_zpow_iff_log_lt (b := 2) (by norm_num) (abs_pos.2 hx0)).1
    rw [Nat.cast_ofNat]
    exact habs
  have he : f64Exponent ((m : ℚ) / 2 ^ k) + (k : Int) ≤ 52 := by
    unfold f64Exponent
    rcases max_cases (Int.log 2 |(m : ℚ) / 2 ^ k|) (-1022) with ⟨h2, _⟩ | ⟨h2, _⟩ <;> rw [h2] <;> omega
  obtain ⟨j, hj⟩ := Int.eq_ofNat_of_zero_le
    (show 0 ≤ 52 - f64Exponent ((m : ℚ) / 2 ^ k) - (k : Int) by omega)
  unfold f64Round
  generalize f64Exponent ((m : ℚ) / 2 ^ k) = e at *
  have hdiv : (m : ℚ) / 2 ^ k / 2 ^ (e - 52) = ((m * 2 ^ j : Int) : ℚ) := by
    push_cast
    rw [div_div, div_eq_iff (by positivity), mul_assoc]
    rw [← zpow_natCast, ← zpow_natCast, ← zpow_add₀ (by norm_num), ← zpow_add₀ (by norm_num)]
    have : (0 : Int) = (j : Int) + ((k : Int) + (e - 52)) := by omega
    rw [← this]
    simp
  rw [hdiv, roundHalfEven_intCast]
  push_cast
  rw [eq_div_iff (by positivity), mul_assoc, mul_assoc]
  have : (2 : ℚ) ^ j * (2 ^ (e - 52) * 2 ^ k) = 1 := by
    rw [← zpow_natCast, ← zpow_natCast, ← zpow_add₀ (by norm_num), ← zpow_add₀ (by norm_num)]
    have : (j : Int) + (e - 52 + (k : Int)) = 0 := by omega
    rw [this]
    simp
  rw [this, mul_one]

theorem f64Round_intCast (z : Int) (hz : -2 ^ 53 < z ∧ z < 2 ^ 53) : f64Round (z : ℚ) = z := by
  have := f64Round_dyadic z 0 hz (by decide)
  simpa using this

theorem fadd_intCast (a b : Int) (h : -2 ^ 53 < a + b ∧ a + b < 2 ^ 53) :
    fadd (a : ℚ) (b : ℚ) = ((a + b : Int) : ℚ) := by
  unfold fadd
  rw [← Int.cast_add, f64Round_intCast _ h]

theorem fsub_intCast (a b : Int) (h : -2 ^ 53 < a - b ∧ a - b < 2 ^ 53) :
    fsub (a : ℚ) (b : ℚ) = ((a - b : Int) : ℚ) := by
  unfold fsub
  rw [← Int.cast_sub, f64Round_intCast _ h]

theorem fmul_intCast (a b : Int) (h : -2 ^ 53 < a * b ∧ a * b < 2 ^ 53) :
    fmul (a : ℚ) (b : ℚ) = ((a * b : Int) : ℚ) := by
  unfold fmul
  rw [← Int.cast_mul, f64Round_intCast _ h]


theorem floor_fdiv_intCast (a : Int) (d k : Nat) (hd : 0 < d) (hdk : d ≤ 2 ^ k) (hk : k ≤ 1074)
    (hq : -2 ^ 53 < a / (d : Int) ∧ a / (d : Int) < 2 ^ 53)
    (hy : -2 ^ 53 < (a / (d : Int) + 1) * 2 ^ k - 1 ∧ (a / (d : Int) + 1) * 2 ^ k - 1 < 2 ^ 53) :
    ⌊fdiv (a : ℚ) (d : ℚ)⌋ = a / (d : Int) := by
  have hdq : (0 : ℚ) < (d : ℚ) := by exact_mod_cast hd
  have hkq : (0 : ℚ) < (2 : ℚ) ^ k := by positivity
  have hfl : ⌊(a : ℚ) / (d : ℚ)⌋ = a / (d : Int) := Rat.floor_intCast_div_natCast a d
  generalize hqd : a / (d : Int) = q at *
  -- the quotient lies between `q` and the float64 value `q + 1 - 2 ^ (-k)`
  have hlo : (q : ℚ) ≤ (a : ℚ) / (d : ℚ) := by
    rw [← hfl]; exact Int.floor_le _
  have hmod : a ≤ q * (d : Int) + ((d : Int) - 1) := by
    have h1 := Int.emod_lt_of_pos a (show (0 : Int) < (d : Int) by omega)
    have h2 := Int.ediv_add_emod a (d : Int)
    rw [hqd] at h2
    have h3 : (d : Int) * q = q * (d : Int) := Int.mul_comm _ _
    omega
  have hhi : (a : ℚ) / (d : ℚ) ≤ (((q + 1) * 2 ^ k - 1 : Int) : ℚ) / 2 ^ k := by
    have h1 : (a : ℚ) ≤ (q : ℚ) * (d : ℚ) + ((d : ℚ) - 1) := by exact_mod_cast hmod
    have h2 : (a : ℚ) / (d : ℚ) ≤ (q : ℚ) + 1 - 1 / (d : ℚ) := by
      rw [div_le_iff₀ hdq]
      have : ((q : ℚ) + 1 - 1 / (d : ℚ)) * (d : ℚ) = (q : ℚ) * (d : ℚ) + ((d : ℚ) - 1) := by
        field_simp
        ring
      rw [this]
      exact h1
    have h3 : (1 : ℚ) / 2 ^ k ≤ 1 / (d : ℚ) := by
      apply one_div_le_one_div_of_le hdq
      exact_mod_cast hdk
    have h4 : (((q + 1) * 2 ^ k - 1 : Int) : ℚ) / 2 ^ k = (q : ℚ) + 1 - 1 / 2 ^ k := by
      push_cast
      field_simp
    rw [h4]
    linarith
  have hrq := f64Round_intCast q hq
  have hry := f64Round_dyadic ((q + 1) * 2 ^ k - 1) k hy hk
  have h1 := f64Round_mono hlo
  have h2 := f64Round_mono hhi
  rw [hrq] at h1
  rw [hry] at h2
  have hylt : (((q + 1) * 2 ^ k - 1 : Int) : ℚ) / 2 ^ k < (q : ℚ) + 1 := by
    rw [div_lt_iff₀ hkq]
    push_cast
    linarith
  unfold fdiv
  rw [Int.floor_eq_iff]
  exact ⟨h1, lt_of_le_of_lt h2 hylt⟩

theorem signedFloor_neg_of_nonneg {w : ℚ} (hw : 0 ≤ w) :
    signedFloor (-w) = -((⌊w⌋ : Int) : ℚ) := by
  unfold signedFloor
  split_ifs with h
  · rw [Int.ceil_neg]; push_cast; rfl
  · have hw0 : w = 0 := by linarith
    subst hw0
    simp

theorem signedFloor_of_nonneg {w : ℚ} (hw : 0 ≤ w) : signedFloor w = ((⌊w⌋ : Int) : ℚ) := by
  unfold signedFloor
  rw [if_neg (not_lt.2 hw)]

theorem signedFloor_fdiv_intCast (a : Int) (d k : Nat) (hd : 0 < d) (hdk : d ≤ 2 ^ k)
    (hk : k ≤ 1074) (hb : ((a.natAbs / d + 1) * 2 ^ k : Nat) ≤ 2 ^ 53) :
    signedFloor (fdiv (a : ℚ) (d : ℚ)) = ((a.tdiv (d : Int) : Int) : ℚ) := by
  have hdq : (0 : ℚ) < (d : ℚ) := by exact_mod_cast hd
  have hk1 : 1 ≤ 2 ^ k := Nat.one_le_two_pow
  have key : ∀ b : Int, 0 ≤ b → b.natAbs = a.natAbs →
      ⌊fdiv (b : ℚ) (d : ℚ)⌋ = b / (d : Int) := by
    intro b hb0 hba
    have hq0 : 0 ≤ b / (d : Int) := Int.ediv_nonneg hb0 (by omega)
    have hbn : b / (d : Int) = ((a.natAbs / d : Nat) : Int) := by
      rw [← hba]
      have : b = (b.natAbs : Int) := by omega
      conv_lhs => rw [this]
      norm_cast
    have hbb : ((b / (d : Int) + 1) * 2 ^ k : Int) ≤ 2 ^ 53 := by
      rw [hbn]
      exact_mod_cast hb
    have hpos : (0 : Int) < 2 ^ k := by positivity
    have hge : b / (d : Int) + 1 ≤ (b / (d : Int) + 1) * 2 ^ k := by
      have : (1 : Int) ≤ 2 ^ k := by exact_mod_cast hk1
      nlinarith
    apply floor_fdiv_intCast b d k hd hdk hk
    · constructor <;> omega
    · constructor <;> omega
  by_cases ha : 0 ≤ a
  · have hnn : 0 ≤ fdiv (a : ℚ) (d : ℚ) := by
      unfold fdiv
      apply f64Round_nonneg
      apply div_nonneg _ hdq.le
      exact_mod_cast ha
    rw [signedFloor_of_nonneg hnn, key a ha rfl, Int.tdiv_eq_ediv ha (by omega)]
  · have hna : 0 ≤ -a := by omega
    have hneg : fdiv (a : ℚ) (d : ℚ) = -fdiv ((-a : Int) : ℚ) (d : ℚ) := by
      unfold fdiv
      rw [← f64Round_neg]
      congr 1
      push_cast
      ring
    have hnn : 0 ≤ fdiv ((-a : Int) : ℚ) (d : ℚ) := by
      unfold fdiv
      apply f64Round_nonneg
      apply div_nonneg _ hdq.le
      exact_mod_cast hna
    rw [hneg, signedFloor_neg_of_nonneg hnn, key (-a) hna (by simp)]
    have e2 : a.tdiv (d : Int) = -((-a).tdiv (d : Int)) := by rw [Int.neg_tdiv, neg_neg]
    rw [e2, Int.tdiv_eq_ediv hna (by omega)]
    push_cast
    rfl

theorem roundHalfEven_eq_of_near (q : ℚ) (n : Int) (h1 : (n : ℚ) - 1 / 2 < q)
    (h2 : q < (n : ℚ) + 1 / 2) : roundHalfEven q = n := by
  have hfl : ⌊q⌋ = n - 1 ∨ ⌊q⌋ = n := by
    have a1 : n - 1 ≤ ⌊q⌋ := by
      rw [Int.le_floor]; push_cast; linarith
    have a2 : ⌊q⌋ < n + 1 := by
      rw [Int.floor_lt]; push_cast; linarith
    omega
  unfold roundHalfEven
  rcases hfl with h | h
  · have hlt := Int.lt_floor_add_one q
    rw [h] at hlt ⊢
    push_cast at hlt ⊢
    split_ifs <;> first | omega | (exfalso; linarith)
  · have hle := Int.floor_le q
    rw [h] at hle ⊢
    split_ifs <;> first | omega | (exfalso; linarith)

theorem f64Round_of_exponent (x : ℚ) (e : Int) (he : -1022 ≤ e) (hlo : (2 : ℚ) ^ e ≤ |x|)
    (hhi : |x| < (2 : ℚ) ^ (e + 1)) :
    f64Round x = (roundHalfEven (x / 2 ^ (e - 52)) : ℚ) * 2 ^ (e - 52) := by
  have hpos : 0 < |x| := lt_of_lt_of_le (two_zpow_pos e) hlo
  have h1 : e ≤ Int.log 2 |x| := by
    apply (Int.zpow_le_iff_le_log (b := 2) (by norm_num) hpos).1
    rw [Nat.cast_ofNat]
    exact hlo
  have h2 : Int.log 2 |x| < e + 1 := by
    apply (Int.lt_zpow_iff_log_lt (b := 2) (by norm_num) hpos).1
    rw [Nat.cast_ofNat]
    exact hhi
  have hexp : f64Exponent x = e := by
    unfold f64Exponent
    rw [max_eq_left (by omega)]
    omega
  unfold f64Round
  rw [hexp]

/-! ## Theorems: `DecodeTime` on whole seconds -/

theorem truncToInt_intCast (z : Int) : truncToInt (z : ℚ) = z := by
  unfold truncToInt
  split <;> simp

theorem signedFloor_intCast (z : Int) : signedFloor (z : ℚ) = (z : ℚ) := by
  unfold signedFloor
  split <;> simp

theorem truncToInt_div (a : Int) (d : Nat) (hd : 0 < d) :
    truncToInt ((a : ℚ) / (d : ℚ)) = a.tdiv (d : Int) := by
  have hdq : (0 : ℚ) < (d : ℚ) := by exact_mod_cast hd
  unfold truncToInt
  by_cases h : (a : ℚ) / (d : ℚ) < 0
  · rw [if_pos h]
    have ha : a < 0 := by
      have := (div_neg_iff.1 h)
      rcases this with ⟨_, h2⟩ | ⟨h1, _⟩
      · exact absurd h2 (not_lt.2 hdq.le)
      · exact_mod_cast h1
    have e1 : (a : ℚ) / (d : ℚ) = -(((-a : Int) : ℚ) / (d : ℚ)) := by push_cast; ring
    rw [e1, Int.ceil_neg, Rat.floor_intCast_div_natCast]
    have e2 : a.tdiv (d : Int) = -((-a).tdiv (d : Int)) := by rw [Int.neg_tdiv, neg_neg]
    rw [e2, Int.tdiv_eq_ediv (by omega) (by omega)]
  · rw [if_neg h]
    have ha : 0 ≤ a := by
      have := div_nonneg_iff.1 (not_lt.1 h)
      rcases this with ⟨h1, _⟩ | ⟨_, h2⟩
      · exact_mod_cast h1
      · exact absurd hdq (not_lt.2 h2)
    rw [Rat.floor_intCast_div_natCast, Int.tdiv_eq_ediv ha (by omega)]

theorem mathMod_intCast (a : Int) (d : Nat) (hd : 0 < d) :
    mathMod (a : ℚ) (d : ℚ) = ((a.tmod (d : Int) : Int) : ℚ) := by
  unfold mathMod
  rw [truncToInt_div a d hd, Int.tmod_def]
  push_cast
  ring

theorem signedFloor_fdiv_of_abs_le (a : Int) (d k B : Nat) (hd : 0 < d) (hdk : d ≤ 2 ^ k)
    (hk : k ≤ 1074) (hB : (B / d + 1) * 2 ^ k ≤ 2 ^ 53) (ha : -(B : Int) ≤ a ∧ a ≤ (B : Int)) :
    signedFloor (fdiv (a : ℚ) (d : ℚ)) = ((a.tdiv (d : Int) : Int) : ℚ) := by
  apply signedFloor_fdiv_intCast a d k hd hdk hk
  have h1 : a.natAbs ≤ B := by omega
  have h2 : a.natAbs / d ≤ B / d := Nat.div_le_div_right h1
  calc (a.natAbs / d + 1) * 2 ^ k ≤ (B / d + 1) * 2 ^ k :=
        Nat.mul_le_mul_right _ (by omega)
    _ ≤ 2 ^ 53 := hB

theorem withTInt_tdiv (t : Int) : (if t ≥ 0 then t else t - 146096).tdiv 146097 = t / 146097 := by
  by_cases h : t ≥ 0
  · rw [if_pos h, Int.tdiv_eq_ediv h (by decide)]
  · rw [if_neg h]
    have e : (t - 146096).tdiv 146097 = -((-(t - 146096)).tdiv 146097) := by
      rw [Int.neg_tdiv, neg_neg]
    rw [e, Int.tdiv_eq_ediv (by omega) (by decide)]
    omega

theorem withT_intCast (t : Int) (ht : -2 ^ 52 < t ∧ t < 2 ^ 52) :
    withT (t : ℚ) = ((if t ≥ 0 then t else t - 146096 : Int) : ℚ) := by
  unfold withT
  by_cases h : t ≥ 0
  · have hq : (t : ℚ) ≥ 0 := by exact_mod_cast h
    rw [if_pos hq, if_pos h]
  · have hq : ¬ (t : ℚ) ≥ 0 := fun hc => h (by exact_mod_cast hc)
    rw [if_neg hq, if_neg h]
    have := fsub_intCast t 146096 (by omega)
    simp only [Int.cast_ofNat] at this
    exact this

theorem withS_intCast (s : Int) : withS (s : ℚ) = ((if s < 10 then 3 else -9 : Int) : ℚ) := by
  unfold withS
  have : ((s : ℚ) < 10) ↔ (s < 10) := by exact_mod_cast Iff.rfl
  by_cases h : s < 10
  · rw [if_pos h, if_pos (this.2 h)]; push_cast; rfl
  · rw [if_neg h, if_neg (fun hc => h (this.1 hc))]; push_cast; rfl

theorem withO_intCast (o : Int) : withO (o : ℚ) = ((if o ≤ 2 then 1 else 0 : Int) : ℚ) := by
  unfold withO
  have : ((o : ℚ) ≤ 2) ↔ (o ≤ 2) := by exact_mod_cast Iff.rfl
  by_cases h : o ≤ 2
  · rw [if_pos h, if_pos (this.2 h)]; push_cast; rfl
  · rw [if_neg h, if_neg (fun hc => h (this.1 hc))]; push_cast; rfl

/-- `signedFloor (a / d)` for a whole `a` of magnitude at most `2 ^ 52` and one of the
divisors of `DecodeTime`. -/
theorem signedFloor_fdiv_lit (a : Int) (ha : -2 ^ 52 ≤ a ∧ a ≤ 2 ^ 52) :
    signedFloor (fdiv (a : ℚ) 146097) = ((a.tdiv 146097 : Int) : ℚ) ∧
    signedFloor (fdiv (a : ℚ) 1460) = ((a.tdiv 1460 : Int) : ℚ) ∧
    signedFloor (fdiv (a : ℚ) 36524) = ((a.tdiv 36524 : Int) : ℚ) ∧
    signedFloor (fdiv (a : ℚ) 146096) = ((a.tdiv 146096 : Int) : ℚ) ∧
    signedFloor (fdiv (a : ℚ) 365) = ((a.tdiv 365 : Int) : ℚ) ∧
    signedFloor (fdiv (a : ℚ) 4) = ((a.tdiv 4 : Int) : ℚ) ∧
    signedFloor (fdiv (a : ℚ) 100) = ((a.tdiv 100 : Int) : ℚ) ∧
    signedFloor (fdiv (a : ℚ) 153) = ((a.tdiv 153 : Int) : ℚ) ∧
    signedFloor (fdiv (a : ℚ) 5) = ((a.tdiv 5 : Int) : ℚ) ∧
    signedFloor (fdiv (a : ℚ) 3600) = ((a.tdiv 3600 : Int) : ℚ) ∧
    signedFloor (fdiv (a : ℚ) 60) = ((a.tdiv 60 : Int) : ℚ) := by
  have hB : -(((2 ^ 52 : Nat)) : Int) ≤ a ∧ a ≤ (((2 ^ 52 : Nat)) : Int) := by
    constructor <;> omega
  have h1 := signedFloor_fdiv_of_abs_le a 146097 18 (2 ^ 52) (by decide) (by decide) (by decide)
    (by decide) hB
  have h2 := signedFloor_fdiv_of_abs_le a 1460 11 (2 ^ 52) (by decide) (by decide) (by decide)
    (by decide) hB
  have h3 := signedFloor_fdiv_of_abs_le a 36524 16 (2 ^ 52) (by decide) (by decide) (by decide)
    (by decide) hB
  have h4 := signedFloor_fdiv_of_abs_le a 146096 18 (2 ^ 52) (by decide) (by decide) (by decide)
    (by decide) hB
  have h5 := signedFloor_fdiv_of_abs_le a 365 9 (2 ^ 52) (by decide) (by decide) (by decide)
    (by decide) hB
  have h6 := signedFloor_fdiv_of_abs_le a 4 2 (2 ^ 52) (by decide) (by decide) (by decide)
    (by decide) hB
  have h7 := signedFloor_fdiv_of_abs_le a 100 7 (2 ^ 52) (by decide) (by decide) (by decide)
    (by decide) hB
  have h8 := signedFloor_fdiv_of_abs_le a 153 8 (2 ^ 52) (by decide) (by decide) (by decide)
    (by decide) hB
  have h9 := signedFloor_fdiv_of_abs_le a 5 3 (2 ^ 52) (by decide) (by decide) (by decide)
    (by decide) hB
  have h10 := signedFloor_fdiv_of_abs_le a 3600 12 (2 ^ 52) (by decide) (by decide) (by decide)
    (by decide) hB
  have h11 := signedFloor_fdiv_of_abs_le a 60 6 (2 ^ 52) (by decide) (by decide) (by decide)
    (by decide) hB
  simp only [Nat.cast_ofNat] at h1 h2 h3 h4 h5 h6 h7 h8 h9 h10 h11
  exact ⟨h1, h2, h3, h4, h5, h6, h7, h8, h9, h10, h11⟩



theorem DecodeTime_intCast (z : Int) (hz : -2 ^ 52 < z ∧ z < 2 ^ 52) :
    DecodeTime (z : ℚ) = decodeTimeInt z := by
  have c86400 : (86400 : ℚ) = ((86400 : Nat) : ℚ) := by norm_num
  have c24 : (24 : ℚ) = ((24 : Nat) : ℚ) := by norm_num
  have c60 : (60 : ℚ) = ((60 : Nat) : ℚ) := by norm_num
  unfold DecodeTime decodeTimeInt
  rw [civilFromDays_eq]
  simp only []
  -- time of day
  obtain ⟨-, -, -, -, -, -, -, -, -, hz3600, hz60⟩ := signedFloor_fdiv_lit z (by omega)
  rw [hz3600, hz60]
  have m24 := mathMod_intCast (z.tdiv 3600) 24 (by decide)
  have m60 := mathMod_intCast (z.tdiv 60) 60 (by decide)
  have s60 := mathMod_intCast z 60 (by decide)
  simp only [Nat.cast_ofNat] at m24 m60 s60
  rw [m24, m60, s60, signedFloor_intCast]
  -- the day number
  have hT : fadd ((⌊fdiv (z : ℚ) 86400⌋ : Int) : ℚ) 730425
      = ((z / 86400 + 730425 : Int) : ℚ) := by
    rw [c86400, floor_fdiv_intCast z 86400 17 (by decide) (by decide) (by decide)
      (by omega) (by omega)]
    have := fadd_intCast (z / ((86400 : Nat) : Int)) 730425 (by omega)
    simp only [Int.cast_ofNat, Nat.cast_ofNat] at this ⊢
    exact this
  rw [hT]
  have hTb : -2 ^ 40 < z / 86400 + 730425 ∧ z / 86400 + 730425 < 2 ^ 40 := by omega
  generalize z / 86400 + 730425 = T at hTb ⊢
  -- the era
  rw [withT_intCast T (by omega)]
  have hN := (signedFloor_fdiv_lit (if T ≥ 0 then T else T - 146096) (by split <;> omega)).1
  rw [hN, withTInt_tdiv]
  have hR0 : 0 ≤ T - 146097 * (T / 146097) := by omega
  have hR1 : T - 146097 * (T / 146097) < 146097 := by omega
  have hNb : -2 ^ 40 < T / 146097 ∧ T / 146097 < 2 ^ 40 := by omega
  generalize T / 146097 = N at hR0 hR1 hNb ⊢
  -- the day of the era
  have hmul := fmul_intCast 146097 N (by omega)
  simp only [Int.cast_ofNat] at hmul
  rw [hmul, fsub_intCast _ _ (by omega)]
  generalize T - 146097 * N = R at hR0 hR1 ⊢
  -- the year of the era
  obtain ⟨-, hR1460, hR36524, hR146096, -, -, -, -, -, -, -⟩ := signedFloor_fdiv_lit R (by omega)
  rw [hR1460, hR36524, hR146096, Int.tdiv_eq_ediv hR0 (by decide),
    Int.tdiv_eq_ediv hR0 (by decide), Int.tdiv_eq_ediv hR0 (by decide),
    fsub_intCast _ _ (by omega), fadd_intCast _ _ (by omega), fsub_intCast _ _ (by omega)]
  have hG0 : 0 ≤ R - R / 1460 + R / 36524 - R / 146096 := by omega
  obtain ⟨-, -, -, -, hG365, -, -, -, -, -, -⟩ :=
    signedFloor_fdiv_lit (R - R / 1460 + R / 36524 - R / 146096) (by omega)
  rw [hG365, Int.tdiv_eq_ediv hG0 (by decide)]
  have hy : (R - R / 1460 + R / 36524 - R / 146096) / 365 = yearOfEra R := rfl
  rw [hy]
  obtain ⟨hI0, hI1, hs, he⟩ := yearOfEra_spec R hR0 hR1
  have hL : yearLength (yearOfEra R) ≤ 366 := by unfold yearLength; split <;> omega
  generalize yearOfEra R = I at hI0 hI1 hs he hL ⊢
  -- the day of the year
  obtain ⟨-, -, -, -, -, hI4, hI100, -, -, -, -⟩ := signedFloor_fdiv_lit I (by omega)
  have hm365 := fmul_intCast 365 I (by omega)
  simp only [Int.cast_ofNat] at hm365
  rw [hI4, hI100, Int.tdiv_eq_ediv hI0 (by decide), Int.tdiv_eq_ediv hI0 (by decide), hm365,
    fadd_intCast _ _ (by omega), fsub_intCast _ _ (by omega)]
  have hys : 365 * I + I / 4 - I / 100 = yearStart I := rfl
  rw [hys, fsub_intCast _ _ (by omega)]
  have hA0 : 0 ≤ R - yearStart I := by omega
  have hA1 : R - yearStart I < 366 := by omega
  generalize R - yearStart I = A at hA0 hA1 ⊢
  -- month and day
  have hm5 := fmul_intCast 5 A (by omega)
  have ha2 := fadd_intCast (5 * A) 2 (by omega)
  simp only [Int.cast_ofNat] at hm5 ha2
  obtain ⟨-, -, -, -, -, -, -, hS153, -, -, -⟩ := signedFloor_fdiv_lit (5 * A + 2) (by omega)
  rw [hm5, ha2, hS153, Int.tdiv_eq_ediv (by omega) (by decide)]
  unfold yearCarry monthOfYearDay dayOfYearDay
  simp only []
  have hS0 : 0 ≤ (5 * A + 2) / 153 := by omega
  have hS1 : (5 * A + 2) / 153 ≤ 11 := by omega
  generalize (5 * A + 2) / 153 = S at hS0 hS1 ⊢
  have hm153 := fmul_intCast 153 S (by omega)
  have hs2 := fadd_intCast (153 * S) 2 (by omega)
  have hm400 := fmul_intCast 400 N (by omega)
  simp only [Int.cast_ofNat] at hm153 hs2 hm400
  obtain ⟨-, -, -, -, -, -, -, -, hS5, -, -⟩ := signedFloor_fdiv_lit (153 * S + 2) (by omega)
  have hd1 := fadd_intCast (A - (153 * S + 2) / 5) 1 (by omega)
  simp only [Int.cast_one] at hd1
  rw [withS_intCast, fadd_intCast S _ (by split <;> omega), withO_intCast, hm400,
    fadd_intCast I _ (by omega), fadd_intCast _ _ (by split <;> omega), hm153, hs2, hS5,
    Int.tdiv_eq_ediv (by omega) (by decide), fsub_intCast _ _ (by omega), hd1,
    truncToInt_intCast, truncToInt_intCast, truncToInt_intCast, truncToInt_intCast,
    truncToInt_intCast, truncToInt_intCast]

theorem daysInMonth_ge (y m : Int) : 28 ≤ daysInMonth y m := by
  unfold daysInMonth
  split_ifs <;> decide

theorem CivilDate.next_valid (d : CivilDate)
    (h : 1 ≤ d.month ∧ d.month ≤ 12 ∧ 1 ≤ d.day ∧ d.day ≤ daysInMonth d.year d.month) :
    1 ≤ d.next.month ∧ d.next.month ≤ 12 ∧ 1 ≤ d.next.day ∧
      d.next.day ≤ daysInMonth d.next.year d.next.month := by
  obtain ⟨h1, h2, h3, h4⟩ := h
  unfold CivilDate.next
  split_ifs with c1 c2
  · simp only []
    omega
  · have := daysInMonth_ge d.year (d.month + 1)
    simp only []
    omega
  · have := daysInMonth_ge (d.year + 1) 1
    simp only []
    omega

theorem dateAfterEpoch_valid (n : Nat) :
    1 ≤ (dateAfterEpoch n).month ∧ (dateAfterEpoch n).month ≤ 12 ∧ 1 ≤ (dateAfterEpoch n).day ∧
      (dateAfterEpoch n).day ≤ daysInMonth (dateAfterEpoch n).year (dateAfterEpoch n).month := by
  induction n with
  | zero => decide
  | succ m ih => exact CivilDate.next_valid _ ih

theorem decodeTimeInt_natCast (f : Nat) : decodeTimeInt (f : Int) = instantAfterEpoch f := by
  unfold decodeTimeInt
  have hf : (0 : Int) ≤ (f : Int) := by omega
  have h3600 : (0 : Int) ≤ (f : Int) / 3600 := by omega
  have h60 : (0 : Int) ≤ (f : Int) / 60 := by omega
  rw [Int.tdiv_eq_ediv hf (by decide), Int.tdiv_eq_ediv hf (by decide),
    Int.tmod_eq_emod h3600 (by decide), Int.tmod_eq_emod h60 (by decide),
    Int.tmod_eq_emod hf (by decide)]
  have hd : (f : Int) / 86400 + 730425 = ((f / 86400 : Nat) : Int) + 730425 := by omega
  rw [hd, civilFromDays_epoch]
  unfold instantAfterEpoch
  simp only [DateFields.mk.injEq, true_and]
  omega

theorem DecodeTime_natCast (f : Nat) (hf : f < 2 ^ 52) :
    DecodeTime (f : ℚ) = instantAfterEpoch f := by
  have hc : ((f : Nat) : ℚ) = (((f : Int) : Int) : ℚ) := by push_cast; rfl
  rw [hc, DecodeTime_intCast _ (by omega), decodeTimeInt_natCast]

theorem instantAfterEpoch_inRange (f : Nat) : (instantAfterEpoch f).inRange := by
  obtain ⟨h1, h2, h3, h4⟩ := dateAfterEpoch_valid (f / 86400)
  unfold DateFields.inRange instantAfterEpoch
  refine ⟨h1, h2, h3, h4, ?_, ?_, ?_, ?_, ?_, ?_⟩ <;> simp only [] <;> omega

theorem f64Round_large_example : f64Round 71636610885525296 = 71636610885525296 := by
  rw [f64Round_of_exponent _ 55 (by decide) (by norm_num [abs_of_pos]) (by norm_num [abs_of_pos]),
    roundHalfEven_eq_of_near _ 8954576360690662 (by norm_num) (by norm_num)]
  norm_num

theorem fdiv_large_example : fdiv 71636610885525296 60 = 1193943514758755 := by
  unfold fdiv
  rw [f64Round_of_exponent _ 50 (by decide) (by norm_num [abs_of_pos]) (by norm_num [abs_of_pos]),
    roundHalfEven_eq_of_near _ 4775774059035020 (by norm_num) (by norm_num)]
  norm_num

/-- C9 as stated fails: 71636610885525296 is a whole number of seconds and a float64 value, yet
`DecodeTime` returns minute 35 for it where the instant that many seconds after
2000-01-01 00:00:00 has minute 34 (the float64 quotient by 60 rounds up to a whole number). -/
theorem decodeTime_large_seconds_counterexample :
    f64Round 71636610885525296 = 71636610885525296 ∧
      (DecodeTime ((71636610885525296 : Nat) : ℚ)).minute = 35 ∧
      (instantAfterEpoch 71636610885525296).minute = 34 ∧
      DecodeTime ((71636610885525296 : Nat) : ℚ) ≠ instantAfterEpoch 71636610885525296 := by
  have hmin : (DecodeTime ((71636610885525296 : Nat) : ℚ)).minute = 35 := by
    show truncToInt (mathMod (signedFloor (fdiv ((71636610885525296 : Nat) : ℚ) 60)) 60) = 35
    have h0 : ((71636610885525296 : Nat) : ℚ) = 71636610885525296 := by norm_num
    have h1 : (1193943514758755 : ℚ) = ((1193943514758755 : Int) : ℚ) := by norm_num
    have m60 := mathMod_intCast 1193943514758755 60 (by decide)
    simp only [Nat.cast_ofNat] at m60
    rw [h0, fdiv_large_example, h1, signedFloor_intCast, m60, truncToInt_intCast]
    decide
  have hspec : (instantAfterEpoch 71636610885525296).minute = 34 := by decide
  refine ⟨f64Round_large_example, hmin, hspec, ?_⟩
  intro h
  rw [h, hspec] at hmin
  exact absurd hmin (by decide)

/-- C9 (amended): for a whole number of seconds `f` with `0 <= f < 2 ^ 52`, `DecodeTime f` is
the calendar instant `f` seconds after 2000-01-01 00:00:00 UTC: year, month and day are those
of the day `f / 86400` days after 2000-01-01 in the proleptic Gregorian calendar, the hour is
`f / 3600 % 24`, the minute `f / 60 % 60` and the second `f % 60`; all fields are in their
usual ranges, so `time.Date` returns the instant with these fields. -/
theorem decodeTime_whole_seconds (f : Nat) (hf : f < 2 ^ 52) :
    DecodeTime (f : ℚ) = instantAfterEpoch f ∧ (DecodeTime (f : ℚ)).inRange := by
  rw [DecodeTime_natCast f hf]
  exact ⟨rfl, instantAfterEpoch_inRange f⟩

theorem decodeTime_whole_seconds_witness :
    951868799 < 2 ^ 52 ∧
      DecodeTime ((951868799 : Nat) : ℚ) = instantAfterEpoch 951868799 ∧
      (DecodeTime ((951868799 : Nat) : ℚ)).inRange :=
  ⟨by decide, decodeTime_whole_seconds 951868799 (by decide)⟩

/-- C10: `DecodeTime 669124800` is 2021-03-15 12:00:00, and 669124800 is the number of seconds
from 2000-01-01 00:00:00 to that instant (7744 days and 12 hours). -/
theorem decodeTime_fixed_example :
    DecodeTime 669124800 = ⟨2021, 3, 15, 12, 0, 0⟩ ∧
      instantAfterEpoch 669124800 = ⟨2021, 3, 15, 12, 0, 0⟩ ∧
      dateAfterEpoch 7744 = ⟨2021, 3, 15⟩ ∧ 669124800 = 7744 * 86400 + 12 * 3600 := by
  have hq : (669124800 : ℚ) = (((669124800 : Int)) : ℚ) := by norm_num
  have h1 : DecodeTime 669124800 = ⟨2021, 3, 15, 12, 0, 0⟩ := by
    rw [hq, DecodeTime_intCast _ (by decide)]
    decide
  have h2 : dateAfterEpoch 7744 = ⟨2021, 3, 15⟩ := by
    rw [← civilFromDays_epoch]
    decide
  refine ⟨h1, ?_, h2, by decide⟩
  have hi := decodeTimeInt_natCast 669124800
  rw [← hi]
  decide

/-! ## Theorems: reading trades -/

theorem getD_drop (d : List Nat) (p i : Nat) : (d.drop p).getD i 0 = d.getD (p + i) 0 := by
  simp [List.getD_eq_getElem?_getD, List.getElem?_drop]

theorem ReadCursor.ReadUint8_ok (p : Nat) (d : List Nat) (h : p + 1 ≤ d.length)
    (hd : d.length < 2 ^ 64) :
    ReadCursor.ReadUint8 ⟨p, d⟩ = some (d.getD p 0, ⟨p + 1, d⟩) := by
  have hm : (p + 1) % 2 ^ 64 = p + 1 := Nat.mod_eq_of_lt (by omega)
  have hp : p < d.length := by omega
  simp only [ReadCursor.ReadUint8, hm, List.getD_eq_getElem?_getD, List.get?_eq_getElem?,
    List.getElem?_eq_getElem hp, Option.bind_eq_bind, Option.some_bind, Option.pure_def,
    Option.getD_some]

theorem ReadCursor.ReadUint16_ok (p : Nat) (d : List Nat) (h : p + 2 ≤ d.length)
    (hd : d.length < 2 ^ 64) :
    ReadCursor.ReadUint16 ⟨p, d⟩ = some (be16At d p, ⟨p + 2, d⟩) := by
  have hm : (p + 2) % 2 ^ 64 = p + 2 := Nat.mod_eq_of_lt (by omega)
  have h1 : p ≤ d.length := by omega
  have h2 : 1 < (d.drop p).length := by rw [List.length_drop]; omega
  simp only [ReadCursor.ReadUint16, bytesFrom, if_pos h1, BigEndian.Uint16, if_pos h2, hm,
    Option.bind_eq_bind, Option.some_bind, getD_drop, be16At, Nat.add_zero, Option.pure_def]

theorem ReadCursor.ReadUint32_ok (p : Nat) (d : List Nat) (h : p + 4 ≤ d.length)
    (hd : d.length < 2 ^ 64) :
    ReadCursor.ReadUint32 ⟨p, d⟩ = some (be32At d p, ⟨p + 4, d⟩) := by
  have hm : (p + 4) % 2 ^ 64 = p + 4 := Nat.mod_eq_of_lt (by omega)
  have h1 : p ≤ d.length := by omega
  have h2 : 3 < (d.drop p).length := by rw [List.length_drop]; omega
  simp only [ReadCursor.ReadUint32, bytesFrom, if_pos h1, BigEndian.Uint32, if_pos h2, hm,
    Option.bind_eq_bind, Option.some_bind, getD_drop, be32At, Nat.add_zero, Option.pure_def]

theorem ReadCursor.ReadFloat64_ok (p : Nat) (d : List Nat) (h : p + 8 ≤ d.length)
    (hd : d.length < 2 ^ 64) :
    ReadCursor.ReadFloat64 ⟨p, d⟩ = some (be64At d p, ⟨p + 8, d⟩) := by
  have hm : (p + 8) % 2 ^ 64 = p + 8 := Nat.mod_eq_of_lt (by omega)
  have h1 : p ≤ d.length := by omega
  have h2 : 7 < (d.drop p).length := by rw [List.length_drop]; omega
  simp only [ReadCursor.ReadFloat64, bytesFrom, if_pos h1, BigEndian.Uint64, if_pos h2, hm,
    Option.bind_eq_bind, Option.some_bind, getD_drop, be64At, Nat.add_zero, Option.pure_def]

theorem Reader.ReadTrade_ok (tr : Reader) (p : Nat) (d : List Nat) (h : p + 86 ≤ d.length)
    (hd : d.length < 2 ^ 64) :
    tr.ReadTrade ⟨p, d⟩ = some (tradeAt tr d p, ⟨p + 86, d⟩) := by
  simp (disch := omega) only [Reader.ReadTrade, ReadCursor.ReadUint8_ok, ReadCursor.ReadUint32_ok,
    ReadCursor.ReadFloat64_ok, tradeAt, Nat.add_assoc, Nat.reduceAdd]

theorem Reader.ReadNullableTrade_ok (tr : Reader) (p : Nat) (d : List Nat)
    (h : p + 121 ≤ d.length) (hd : d.length < 2 ^ 64) :
    tr.ReadNullableTrade ⟨p, d⟩ = some (tradeAt tr d p, ⟨p + 121, d⟩) := by
  simp (disch := omega) only [Reader.ReadNullableTrade, Reader.ReadTrade_ok,
    ReadCursor.ReadUint8_ok, ReadCursor.ReadFloat64_ok, Nat.add_assoc, Nat.reduceAdd]

theorem ReadCursor.ReadUint8_if (p : Nat) (d : List Nat) (hd : d.length < 2 ^ 64) :
    ReadCursor.ReadUint8 ⟨p, d⟩
      = if p + 1 ≤ d.length then some (d.getD p 0, ⟨p + 1, d⟩) else none := by
  split
  · next h => exact ReadCursor.ReadUint8_ok p d h hd
  · next h => exact (ReadCursor.ReadUint8_spec ⟨p, d⟩ hd).1.2 (by simp only; omega)

theorem ReadCursor.ReadUint16_if (p : Nat) (d : List Nat) (hd : d.length < 2 ^ 64) :
    ReadCursor.ReadUint16 ⟨p, d⟩
      = if p + 2 ≤ d.length then some (be16At d p, ⟨p + 2, d⟩) else none := by
  split
  · next h => exact ReadCursor.ReadUint16_ok p d h hd
  · next h =>
    exact (ReadCursor.read_be_spec ⟨p, d⟩ 2 BigEndian.Uint16 BigEndian.Uint16_eq_none hd).1.2
      (by simp only; omega)

theorem ReadCursor.ReadUint32_if (p : Nat) (d : List Nat) (hd : d.length < 2 ^ 64) :
    ReadCursor.ReadUint32 ⟨p, d⟩
      = if p + 4 ≤ d.length then some (be32At d p, ⟨p + 4, d⟩) else none := by
  split
  · next h => exact ReadCursor.ReadUint32_ok p d h hd
  · next h =>
    exact (ReadCursor.read_be_spec ⟨p, d⟩ 4 BigEndian.Uint32 BigEndian.Uint32_eq_none hd).1.2
      (by simp only; omega)

theorem ReadCursor.ReadFloat64_if (p : Nat) (d : List Nat) (hd : d.length < 2 ^ 64) :
    ReadCursor.ReadFloat64 ⟨p, d⟩
      = if p + 8 ≤ d.length then some (be64At d p, ⟨p + 8, d⟩) else none := by
  split
  · next h => exact ReadCursor.ReadFloat64_ok p d h hd
  · next h =>
    exact (ReadCursor.read_be_spec ⟨p, d⟩ 8 BigEndian.Uint64 BigEndian.Uint64_eq_none hd).1.2
      (by simp only; omega)

theorem Reader.ReadTrade_short (tr : Reader) (p : Nat) (d : List Nat) (h : d.length < p + 86)
    (hd : d.length < 2 ^ 64) : tr.ReadTrade ⟨p, d⟩ = none := by
  unfold Reader.ReadTrade
  repeat
    first
    | rfl
    | omega
    | (rw [ReadCursor.ReadFloat64_if _ _ hd]; split_ifs)
    | (rw [ReadCursor.ReadUint8_if _ _ hd]; split_ifs)
    | (rw [ReadCursor.ReadUint32_if _ _ hd]; split_ifs)
    | dsimp only

theorem Reader.ReadTrade_eq (tr : Reader) (p : Nat) (d : List Nat) (hd : d.length < 2 ^ 64) :
    tr.ReadTrade ⟨p, d⟩
      = if p + 86 ≤ d.length then some (tradeAt tr d p, ⟨p + 86, d⟩) else none := by
  split
  · next h => exact Reader.ReadTrade_ok tr p d h hd
  · next h => exact Reader.ReadTrade_short tr p d (by omega) hd

theorem f64Val_whole_example : f64Val 0x40C81C8000000000 = some ((12345 : Int) : ℚ) := by
  norm_num [f64Val]

theorem f64Val_three : f64Val 0x4008000000000000 = some ((3 : Int) : ℚ) := by
  norm_num [f64Val]

theorem f64Val_two_pow_63 : f64Val 0x43E0000000000000 = some (((2 : Int) ^ 63 : Int) : ℚ) := by
  norm_num [f64Val]

theorem f64ToInt64_of_whole (bits : Nat) (z : Int) (h : f64Val bits = some (z : ℚ))
    (hz : -2 ^ 63 ≤ z ∧ z < 2 ^ 63) : f64ToInt64 bits = z := by
  unfold f64ToInt64
  rw [h]
  simp only [truncToInt_intCast]
  rw [if_pos hz]

theorem f64ToInt64_two_pow_63 : f64ToInt64 0x43E0000000000000 = -2 ^ 63 := by
  unfold f64ToInt64
  rw [f64Val_two_pow_63]
  simp only [truncToInt_intCast]
  decide

theorem Decimal.value_example : (apd.New 12345 (-2)).value = 123.45 := by
  norm_num [Decimal.value, apd.New]

/-- C12, as stated, fails: a trade record whose raw price is the whole number `2 ^ 63` (a
float64 value) with two price decimals decodes to the coefficient `-2 ^ 63`, the price
`-2 ^ 63 * 10 ^ (-2)`, not `2 ^ 63 * 10 ^ (-2)`: the coefficient is an `int64`. -/
theorem readTrade_price_beyond_int64_counterexample :
    f64Val (be64At sampleHugePriceRecord 37) = some (((2 : Int) ^ 63 : Int) : ℚ) ∧
    sampleHugePriceRecord.getD 78 0 = 2 ∧
    (sampleReader.ReadTrade ⟨0, sampleHugePriceRecord⟩).map (fun r => r.1.Price)
      = some (apd.New (-2 ^ 63) (-2)) ∧
    (apd.New (-2 ^ 63) (-2)).value ≠ (((2 : Int) ^ 63 : Int) : ℚ) * 10 ^ (-2 : Int) := by
  have hb : be64At sampleHugePriceRecord 37 = 0x43E0000000000000 := by decide
  refine ⟨by rw [hb]; exact f64Val_two_pow_63, by decide, ?_, ?_⟩
  · rw [Reader.ReadTrade_ok sampleReader 0 sampleHugePriceRecord (by decide) (by decide)]
    simp only [Option.map_some', tradeAt, Nat.zero_add, hb, f64ToInt64_two_pow_63]
    rfl
  · norm_num [Decimal.value, apd.New]

/-- C12, amended: when the 86 bytes of a trade record are there and the raw price and quantity
are whole numbers `pr` and `q` within the range of `int64`, `ReadTrade` returns the price with
coefficient `pr` and exponent minus the price decimal-place count, the decimal
`pr * 10 ^ (-d)`, and the quantity with coefficient `q` and exponent minus the quantity
decimal-place count. -/
theorem readTrade_scales_price_and_quantity (tr : Reader) (p : Nat) (d : List Nat)
    (hd : d.length < 2 ^ 64) (h : p + 86 ≤ d.length) (pr q : Int)
    (hpr : -2 ^ 63 ≤ pr ∧ pr < 2 ^ 63) (hq : -2 ^ 63 ≤ q ∧ q < 2 ^ 63)
    (hpv : f64Val (be64At d (p + 37)) = some (pr : ℚ))
    (hqv : f64Val (be64At d (p + 45)) = some (q : ℚ)) :
    ∃ t rc1, tr.ReadTrade ⟨p, d⟩ = some (t, rc1) ∧
      t.Price = ⟨pr, -((d.getD (p + 78) 0 : Nat) : Int)⟩ ∧
      t.Price.value = (pr : ℚ) * 10 ^ (-((d.getD (p + 78) 0 : Nat) : Int)) ∧
      t.Quantity = ⟨q, -((d.getD (p + 79) 0 : Nat) : Int)⟩ ∧
      t.Quantity.value = (q : ℚ) * 10 ^ (-((d.getD (p + 79) 0 : Nat) : Int)) := by
  refine ⟨tradeAt tr d p, ⟨p + 86, d⟩, Reader.ReadTrade_ok tr p d h hd, ?_⟩
  simp only [tradeAt, apd.New, Decimal.value, f64ToInt64_of_whole _ _ hpv hpr,
    f64ToInt64_of_whole _ _ hqv hq, and_self]

theorem readTrade_scales_price_and_quantity_witness :
    sampleTradeRecord.length < 2 ^ 64 ∧ 0 + 86 ≤ sampleTradeRecord.length ∧
    ((-2 ^ 63 : Int) ≤ 12345 ∧ (12345 : Int) < 2 ^ 63) ∧
    ((-2 ^ 63 : Int) ≤ 3 ∧ (3 : Int) < 2 ^ 63) ∧
    f64Val (be64At sampleTradeRecord (0 + 37)) = some ((12345 : Int) : ℚ) ∧
    f64Val (be64At sampleTradeRecord (0 + 45)) = some ((3 : Int) : ℚ) ∧
    ∃ t rc1, sampleReader.ReadTrade ⟨0, sampleTradeRecord⟩ = some (t, rc1) ∧
      t.Price = ⟨12345, -((sampleTradeRecord.getD (0 + 78) 0 : Nat) : Int)⟩ ∧
      t.Price.value
        = ((12345 : Int) : ℚ) * 10 ^ (-((sampleTradeRecord.getD (0 + 78) 0 : Nat) : Int)) ∧
      t.Quantity = ⟨3, -((sampleTradeRecord.getD (0 + 79) 0 : Nat) : Int)⟩ ∧
      t.Quantity.value
        = ((3 : Int) : ℚ) * 10 ^ (-((sampleTradeRecord.getD (0 + 79) 0 : Nat) : Int)) :=
  have hp : f64Val (be64At sampleTradeRecord (0 + 37)) = some ((12345 : Int) : ℚ) := by
    rw [show be64At sampleTradeRecord (0 + 37) = 0x40C81C8000000000 from by decide]
    exact f64Val_whole_example
  have hq : f64Val (be64At sampleTradeRecord (0 + 45)) = some ((3 : Int) : ℚ) := by
    rw [show be64At sampleTradeRecord (0 + 45) = 0x4008000000000000 from by decide]
    exact f64Val_three
  ⟨by decide, by decide, by decide, by decide, hp, hq,
    readTrade_scales_price_and_quantity sampleReader 0 sampleTradeRecord (by decide) (by decide)
      12345 3 (by decide) (by decide) hp hq⟩

/-- C13: for every currency table, reading a trade faults only when fewer than 86 bytes are
left (whatever the table holds), and the trade read has the currency pair made of the
table's symbol for the code `int(currency)` followed by "-PHP" when the code has an entry,
and "-PHP" alone when it has none. -/
theorem readTrade_currency_pair (tr : Reader) (p : Nat) (d : List Nat)
    (hd : d.length < 2 ^ 64) :
    (tr.ReadTrade ⟨p, d⟩ = none ↔ d.length < p + 86) ∧
    ∀ t rc1, tr.ReadTrade ⟨p, d⟩ = some (t, rc1) →
      t.CurrencyPair
        = match tr.CurrencyCodes (f64ToInt64 (be64At d (p + 29))) with
          | some s => s ++ "-PHP"
          | none => "-PHP" := by
  rw [Reader.ReadTrade_eq tr p d hd]
  constructor
  · split <;> simp <;> omega
  · intro t rc1 h
    split at h
    · simp only [Option.some.injEq, Prod.mk.injEq] at h
      rw [← h.1]
      simp only [tradeAt, Reader.lookup]
      cases tr.CurrencyCodes (f64ToInt64 (be64At d (p + 29))) with
      | none => rfl
      | some s => rfl
    · cases h

theorem readTrade_currency_pair_witness :
    sampleTradeRecord.length < 2 ^ 64 ∧
    ((emptyReader.ReadTrade ⟨0, sampleTradeRecord⟩ = none ↔ sampleTradeRecord.length < 0 + 86) ∧
    ∀ t rc1, emptyReader.ReadTrade ⟨0, sampleTradeRecord⟩ = some (t, rc1) →
      t.CurrencyPair
        = match emptyReader.CurrencyCodes (f64ToInt64 (be64At sampleTradeRecord (0 + 29))) with
          | some s => s ++ "-PHP"
          | none => "-PHP") :=
  ⟨by decide, readTrade_currency_pair emptyReader 0 sampleTradeRecord (by decide)⟩

theorem getD_append_mid (a r b : List Nat) (p j : Nat) (hp : p = a.length + j)
    (hj : j < r.length) : (a ++ r ++ b).getD p 0 = r.getD j 0 := by
  subst hp
  rw [List.append_assoc, List.getD_append_right _ _ _ _ (by omega),
    List.getD_append _ _ _ _ (by omega)]
  congr 1
  omega

theorem be16At_append_mid (a r b : List Nat) (p k : Nat) (hp : p = a.length + k)
    (hk : k + 2 ≤ r.length) : be16At (a ++ r ++ b) p = be16At r k := by
  unfold be16At
  rw [getD_append_mid a r b p k hp (by omega),
    getD_append_mid a r b (p + 1) (k + 1) (by omega) (by omega)]

theorem be64At_append_mid (a r b : List Nat) (p k : Nat) (hp : p = a.length + k)
    (hk : k + 8 ≤ r.length) : be64At (a ++ r ++ b) p = be64At r k := by
  unfold be64At
  rw [getD_append_mid a r b p k hp (by omega),
    getD_append_mid a r b (p + 1) (k + 1) (by omega) (by omega),
    getD_append_mid a r b (p + 2) (k + 2) (by omega) (by omega),
    getD_append_mid a r b (p + 3) (k + 3) (by omega) (by omega),
    getD_append_mid a r b (p + 4) (k + 4) (by omega) (by omega),
    getD_append_mid a r b (p + 5) (k + 5) (by omega) (by omega),
    getD_append_mid a r b (p + 6) (k + 6) (by omega) (by omega),
    getD_append_mid a r b (p + 7) (k + 7) (by omega) (by omega)]

theorem tradeAt_append_mid (tr : Reader) (a r b : List Nat) (p k : Nat)
    (hp : p = a.length + k) (hk : k + 86 ≤ r.length) :
    tradeAt tr (a ++ r ++ b) p = tradeAt tr r k := by
  unfold tradeAt
  rw [be64At_append_mid a r b (p + 29) (k + 29) (by omega) (by omega),
    be64At_append_mid a r b (p + 37) (k + 37) (by omega) (by omega),
    be64At_append_mid a r b (p + 45) (k + 45) (by omega) (by omega),
    be64At_append_mid a r b (p + 16) (k + 16) (by omega) (by omega),
    getD_append_mid a r b (p + 78) (k + 78) (by omega) (by omega),
    getD_append_mid a r b (p + 79) (k + 79) (by omega) (by omega)]

theorem handleTradeLoop_done (tr : Reader) (tradeCount fuel t : Nat) (rc : ReadCursor)
    (repo : List Trade) (ht : tradeCount ≤ t) :
    handleTradeLoop tr tradeCount (fuel + 1) t rc repo = some (repo, rc) := by
  rw [handleTradeLoop, if_neg (by omega)]

theorem handleTradeLoop_trade (tr : Reader) (tradeCount fuel t p : Nat) (d : List Nat)
    (repo : List Trade) (ht : t < tradeCount) (hd : d.length < 2 ^ 64)
    (hp : p + 126 ≤ d.length) (htag : be16At d (p + 1) = 128) :
    handleTradeLoop tr tradeCount (fuel + 1) t ⟨p, d⟩ repo
      = handleTradeLoop tr tradeCount fuel ((t + 2) % 2 ^ 16) ⟨p + 126, d⟩
          (repo ++ [tradeAt tr d (p + 5)]) := by
  rw [handleTradeLoop, if_pos ht]
  simp (disch := omega) only [ReadCursor.ReadUint8_ok, ReadCursor.ReadUint16_ok,
    Reader.ReadNullableTrade_ok, Option.bind_eq_bind, Option.some_bind, htag, if_true,
    Nat.add_assoc, Nat.reduceAdd]

theorem Reader.ReadNullableTrade_short (tr : Reader) (p : Nat) (d : List Nat)
    (h : d.length < p + 121) (hd : d.length < 2 ^ 64) : tr.ReadNullableTrade ⟨p, d⟩ = none := by
  unfold Reader.ReadNullableTrade
  rw [Reader.ReadTrade_eq tr p d hd]
  split_ifs
  · dsimp only
    repeat
      first
      | rfl
      | omega
      | (rw [ReadCursor.ReadFloat64_if _ _ hd]; split_ifs)
      | (rw [ReadCursor.ReadUint8_if _ _ hd]; split_ifs)
      | dsimp only
  · rfl

theorem Reader.ReadNullableTrade_eq (tr : Reader) (p : Nat) (d : List Nat)
    (hd : d.length < 2 ^ 64) :
    tr.ReadNullableTrade ⟨p, d⟩
      = if p + 121 ≤ d.length then some (tradeAt tr d p, ⟨p + 121, d⟩) else none := by
  split
  · next h => exact Reader.ReadNullableTrade_ok tr p d h hd
  · next h => exact Reader.ReadNullableTrade_short tr p d (by omega) hd

/-- The loop of `handleTrade` does not need more rounds than a third of the bytes left, plus
one: each round reads at least three bytes or faults. With that many rounds or more the result
is the same. -/
theorem handleTradeLoop_fuel (tr : Reader) (tradeCount : Nat) (d : List Nat)
    (hd : d.length < 2 ^ 64) :
    ∀ (f t pos : Nat) (repo : List Trade), d.length < pos + 3 * (f + 1) →
      ∀ g, f + 1 ≤ g →
        handleTradeLoop tr tradeCount g t ⟨pos, d⟩ repo
          = handleTradeLoop tr tradeCount (f + 1) t ⟨pos, d⟩ repo := by
  intro f
  induction f with
  | zero =>
    intro t pos repo hC g hg
    obtain ⟨g1, rfl⟩ : ∃ g1, g = g1 + 1 := ⟨g - 1, by omega⟩
    rw [handleTradeLoop, handleTradeLoop]
    by_cases ht : t < tradeCount
    · simp only [if_pos ht, Option.bind_eq_bind]
      rw [ReadCursor.ReadUint8_if _ _ hd]
      split_ifs with h1
      · simp only [Option.some_bind]
        rw [ReadCursor.ReadUint16_if _ _ hd, if_neg (by omega)]
        rfl
      · rfl
    · simp only [if_neg ht]
  | succ f ih =>
    intro t pos repo hC g hg
    obtain ⟨g1, rfl⟩ : ∃ g1, g = g1 + 1 := ⟨g - 1, by omega⟩
    rw [handleTradeLoop, handleTradeLoop]
    by_cases ht : t < tradeCount
    · simp only [if_pos ht, Option.bind_eq_bind]
      rw [ReadCursor.ReadUint8_if _ _ hd]
      split_ifs with h1
      · simp only [Option.some_bind]
        rw [ReadCursor.ReadUint16_if _ _ hd]
        split_ifs with h2
        · simp only [Option.some_bind]
          split_ifs with h3
          · rw [ReadCursor.ReadUint16_if _ _ hd]
            split_ifs with h4
            · simp only [Option.some_bind]
              rw [Reader.ReadNullableTrade_eq _ _ _ hd]
              split_ifs with h5
              · simp only [Option.some_bind]
                exact ih _ _ _ (by omega) g1 (by omega)
              · rfl
            · rfl
          · exact ih _ _ _ (by omega) g1 (by omega)
        · rfl
      · rfl
    · simp only [if_neg ht]

/-- The number of rounds that `handleTrade` allows its loop is enough: allowing more does not
change the result. -/
theorem handleTrade_fuel (tr : Reader) (tradeCount t pos extra : Nat) (d : List Nat)
    (repo : List Trade) (hd : d.length < 2 ^ 64) :
    handleTradeLoop tr tradeCount (d.length + 1 + extra) t ⟨pos, d⟩ repo
      = handleTradeLoop tr tradeCount (d.length + 1) t ⟨pos, d⟩ repo :=
  handleTradeLoop_fuel tr tradeCount d hd d.length t pos repo (by omega) _ (by omega)

/-- C14: a frame of message type 36 (page reset) with view id 4.0 whose payload holds two trade
sub-records (each an insert byte, the tag 128, a length and the 121 bytes of a nullable trade;
the count field is 4, two per sub-record, as the loop of `handleTrade` counts) makes
`handleBinMessage` hand exactly two trades to the repository, in the order of the wire, the
first decoded from the bytes of the first sub-record and the second from those of the
second. -/
theorem handleBinMessage_forwards_two_trades (tr : Reader) (repo : List Trade)
    (m0 m1 m2 m3 s0 s1 g0 g1 g2 g3 g4 g5 g6 g7 nl i1 a1 b1 i2 a2 b2 : Nat)
    (rec1 rec2 rest : List Nat) (h1 : rec1.length = 121) (h2 : rec2.length = 121)
    (hrest : rest.length < 2 ^ 63) :
    ∃ t1 t2 c1 c2, tr.ReadNullableTrade ⟨0, rec1⟩ = some (t1, c1) ∧
      tr.ReadNullableTrade ⟨0, rec2⟩ = some (t2, c2) ∧
      handleBinMessage tr
        ([36, m0, m1, m2, m3, s0, s1] ++ [0x40, 0x10, 0, 0, 0, 0, 0, 0]
          ++ [g0, g1, g2, g3, g4, g5, g6, g7, nl] ++ [0, 4]
          ++ [i1] ++ [0, 128] ++ [a1, b1] ++ rec1
          ++ [i2] ++ [0, 128] ++ [a2, b2] ++ rec2 ++ rest)
        repo = some (repo ++ [t1, t2]) := by
  refine ⟨tradeAt tr rec1 0, tradeAt tr rec2 0, ⟨0 + 121, rec1⟩, ⟨0 + 121, rec2⟩,
    Reader.ReadNullableTrade_ok tr 0 rec1 (by omega) (by omega),
    Reader.ReadNullableTrade_ok tr 0 rec2 (by omega) (by omega), ?_⟩
  obtain ⟨d, hd⟩ : ∃ d : List Nat, d = [36, m0, m1, m2, m3, s0, s1]
      ++ [0x40, 0x10, 0, 0, 0, 0, 0, 0] ++ [g0, g1, g2, g3, g4, g5, g6, g7, nl] ++ [0, 4]
      ++ [i1] ++ [0, 128] ++ [a1, b1] ++ rec1 ++ [i2] ++ [0, 128] ++ [a2, b2] ++ rec2 ++ rest :=
    ⟨_, rfl⟩
  rw [← hd]
  have hlen : d.length = 278 + rest.length := by
    rw [hd]
    simp only [List.length_append, List.length_cons, List.length_nil, h1, h2]
  have f0 : d.getD 0 0 = 36 := by
    rw [hd]
    rfl
  have fv : be64At d 7 = wsTradeViewID := by
    have e : d = [36, m0, m1, m2, m3, s0, s1] ++ [0x40, 0x10, 0, 0, 0, 0, 0, 0]
        ++ ([g0, g1, g2, g3, g4, g5, g6, g7, nl] ++ [0, 4] ++ [i1] ++ [0, 128] ++ [a1, b1]
          ++ rec1 ++ [i2] ++ [0, 128] ++ [a2, b2] ++ rec2 ++ rest) := by
      rw [hd]; simp only [List.append_assoc]
    rw [e, be64At_append_mid _ _ _ 7 0 (by rfl) (by decide)]
    decide
  have fc : be16At d 24 = 4 := by
    have e : d = ([36, m0, m1, m2, m3, s0, s1] ++ [0x40, 0x10, 0, 0, 0, 0, 0, 0]
        ++ [g0, g1, g2, g3, g4, g5, g6, g7, nl]) ++ [0, 4] ++ ([i1] ++ [0, 128] ++ [a1, b1]
          ++ rec1 ++ [i2] ++ [0, 128] ++ [a2, b2] ++ rec2 ++ rest) := by
      rw [hd]; simp only [List.append_assoc]
    rw [e, be16At_append_mid _ _ _ 24 0 (by rfl) (by decide)]
    decide
  have ft1 : be16At d (26 + 1) = 128 := by
    have e : d = ([36, m0, m1, m2, m3, s0, s1] ++ [0x40, 0x10, 0, 0, 0, 0, 0, 0]
        ++ [g0, g1, g2, g3, g4, g5, g6, g7, nl] ++ [0, 4] ++ [i1]) ++ [0, 128] ++ ([a1, b1]
          ++ rec1 ++ [i2] ++ [0, 128] ++ [a2, b2] ++ rec2 ++ rest) := by
      rw [hd]; simp only [List.append_assoc]
    rw [e, be16At_append_mid _ _ _ (26 + 1) 0 (by rfl) (by decide)]
    decide
  have tA1 : tradeAt tr d (26 + 5) = tradeAt tr rec1 0 := by
    have e : d = ([36, m0, m1, m2, m3, s0, s1] ++ [0x40, 0x10, 0, 0, 0, 0, 0, 0]
        ++ [g0, g1, g2, g3, g4, g5, g6, g7, nl] ++ [0, 4] ++ [i1] ++ [0, 128] ++ [a1, b1])
          ++ rec1 ++ ([i2] ++ [0, 128] ++ [a2, b2] ++ rec2 ++ rest) := by
      rw [hd]; simp only [List.append_assoc]
    rw [e]
    exact tradeAt_append_mid tr _ rec1 _ (26 + 5) 0 (by rfl) (by omega)
  have ft2 : be16At d (152 + 1) = 128 := by
    have e : d = ([36, m0, m1, m2, m3, s0, s1] ++ [0x40, 0x10, 0, 0, 0, 0, 0, 0]
        ++ [g0, g1, g2, g3, g4, g5, g6, g7, nl] ++ [0, 4] ++ [i1] ++ [0, 128] ++ [a1, b1]
          ++ rec1 ++ [i2]) ++ [0, 128] ++ ([a2, b2] ++ rec2 ++ rest) := by
      rw [hd]; simp only [List.append_assoc]
    rw [e, be16At_append_mid _ _ _ (152 + 1) 0
      (by simp only [List.length_append, List.length_cons, List.length_nil, h1]) (by decide)]
    decide
  have tA2 : tradeAt tr d (152 + 5) = tradeAt tr rec2 0 := by
    rw [hd]
    exact tradeAt_append_mid tr _ rec2 _ (152 + 5) 0
      (by simp only [List.length_append, List.length_cons, List.length_nil, h1]) (by omega)
  have hd64 : d.length < 2 ^ 64 := by omega
  have hview : f64Eq wsTradeViewID wsTradeViewID = true := by decide
  have key : ∀ k, handleTradeLoop tr 4 (k + 1 + 1 + 1) 0 ⟨26, d⟩ repo
      = some (repo ++ [tradeAt tr rec1 0, tradeAt tr rec2 0], ⟨278, d⟩) := by
    intro k
    rw [handleTradeLoop_trade tr 4 (k + 1 + 1) 0 26 d repo (by omega) hd64 (by omega) ft1]
    have e1 : (0 + 2) % 2 ^ 16 = 2 := by decide
    have e2 : (2 + 2) % 2 ^ 16 = 4 := by decide
    rw [e1, handleTradeLoop_trade tr 4 (k + 1) 2 (26 + 126) d _ (by decide) hd64 (by omega) ft2,
      e2, handleTradeLoop_done tr 4 k 4 _ _ (by decide), tA1, tA2, List.append_assoc]
    rfl
  have hloop : handleTradeLoop tr 4 (d.length + 1) 0 ⟨26, d⟩ repo
      = some (repo ++ [tradeAt tr rec1 0, tradeAt tr rec2 0], ⟨278, d⟩) := by
    rw [show d.length + 1 = (d.length - 2) + 1 + 1 + 1 from by omega]
    exact key _
  have r0 : ReadCursor.ReadUint8 ⟨0, d⟩ = some (36, ⟨1, d⟩) := by
    rw [ReadCursor.ReadUint8_ok 0 d (by omega) hd64, f0]
  have r1 : ReadCursor.ReadUint32 ⟨1, d⟩ = some (be32At d 1, ⟨5, d⟩) :=
    ReadCursor.ReadUint32_ok 1 d (by omega) hd64
  have r2 : ReadCursor.ReadUint16 ⟨5, d⟩ = some (be16At d 5, ⟨7, d⟩) :=
    ReadCursor.ReadUint16_ok 5 d (by omega) hd64
  have r3 : ReadCursor.ReadFloat64 ⟨7, d⟩ = some (wsTradeViewID, ⟨15, d⟩) := by
    rw [ReadCursor.ReadFloat64_ok 7 d (by omega) hd64, fv]
  have r4 : ReadCursor.ReadFloat64 ⟨15, d⟩ = some (be64At d 15, ⟨23, d⟩) :=
    ReadCursor.ReadFloat64_ok 15 d (by omega) hd64
  have r5 : ReadCursor.ReadUint8 ⟨23, d⟩ = some (d.getD 23 0, ⟨24, d⟩) :=
    ReadCursor.ReadUint8_ok 23 d (by omega) hd64
  have r6 : ReadCursor.ReadUint16 ⟨24, d⟩ = some (4, ⟨26, d⟩) := by
    rw [ReadCursor.ReadUint16_ok 24 d (by omega) hd64, fc]
  have hty : (36 = wsPageUpdate ∨ 36 = wsPageReset) := Or.inr rfl
  have hT : handleTrade tr ⟨15, d⟩ repo
      = some (repo ++ [tradeAt tr rec1 0, tradeAt tr rec2 0], ⟨278, d⟩) := by
    unfold handleTrade
    simp only [Option.bind_eq_bind]
    rw [r4, Option.some_bind]
    dsimp only
    rw [r5, Option.some_bind]
    dsimp only
    rw [r6, Option.some_bind]
    exact hloop
  unfold handleBinMessage
  simp only [Option.bind_eq_bind]
  rw [r0, Option.some_bind]
  dsimp only
  rw [if_pos hty, r1, Option.some_bind]
  dsimp only
  rw [r2, Option.some_bind]
  dsimp only
  rw [r3, Option.some_bind]
  dsimp only
  rw [if_pos hview, hT, Option.some_bind]
  rfl

theorem handleBinMessage_forwards_two_trades_witness :
    (sampleNullableTradeRecord.length = 121 ∧ sampleNullableTradeRecordB.length = 121 ∧
      ([] : List Nat).length < 2 ^ 63) ∧
    ∃ t1 t2 c1 c2, sampleReader.ReadNullableTrade ⟨0, sampleNullableTradeRecord⟩ = some (t1, c1) ∧
      sampleReader.ReadNullableTrade ⟨0, sampleNullableTradeRecordB⟩ = some (t2, c2) ∧
      handleBinMessage sampleReader
        ([36, 0, 0, 0, 7, 0, 1] ++ [0x40, 0x10, 0, 0, 0, 0, 0, 0]
          ++ [0, 0, 0, 0, 0, 0, 0, 0, 0] ++ [0, 4]
          ++ [1] ++ [0, 128] ++ [0, 121] ++ sampleNullableTradeRecord
          ++ [1] ++ [0, 128] ++ [0, 121] ++ sampleNullableTradeRecordB ++ [])
        [] = some ([] ++ [t1, t2]) :=
  ⟨⟨by decide, by decide, by decide⟩,
    handleBinMessage_forwards_two_trades sampleReader [] 0 0 0 7 0 1 0 0 0 0 0 0 0 0 0 1 0 121
      1 0 121 sampleNullableTradeRecord sampleNullableTradeRecordB [] (by decide) (by decide)
      (by decide)⟩

/-! ## Theorems: `time.Date` and `DecodeTime` before the epoch -/

theorem dayNumber_epoch : dayNumber 2000 1 1 = 0 := by decide

/-- The day number grows by one from a date of the calendar to the next. -/
theorem dayNumber_next (d : CivilDate)
    (h : 1 ≤ d.month ∧ d.month ≤ 12 ∧ 1 ≤ d.day ∧ d.day ≤ daysInMonth d.year d.month) :
    dayNumber d.next.year d.next.month d.next.day = dayNumber d.year d.month d.day + 1 := by
  obtain ⟨y, m, dd⟩ := d
  obtain ⟨h1, h2, h3, h4⟩ := h
  simp only at h1 h2 h3 h4
  unfold CivilDate.next
  simp only
  split_ifs with c1 c2
  · unfold dayNumber
    simp only
    omega
  · have hm : m = 1 ∨ m = 2 ∨ m = 3 ∨ m = 4 ∨ m = 5 ∨ m = 6 ∨ m = 7 ∨ m = 8 ∨ m = 9 ∨ m = 10
        ∨ m = 11 := by omega
    have hdd : dd = daysInMonth y m := by omega
    unfold daysInMonth isLeapYear at hdd
    unfold dayNumber
    rcases hm with rfl | rfl | rfl | rfl | rfl | rfl | rfl | rfl | rfl | rfl | rfl <;>
      simp at hdd ⊢ <;> (try split_ifs at hdd) <;> omega
  · have hm : m = 12 := by omega
    have hdd : dd = daysInMonth y m := by omega
    subst hm
    unfold daysInMonth at hdd
    unfold dayNumber
    simp at hdd ⊢
    omega

set_option maxRecDepth 100000 in
theorem dayOfYear_table : ∀ a : Nat, a < 366 → ∀ leapNext : Bool, DayOfYearOK a leapNext := by
  decide

theorem civilFromDays_fields (t : Int) :
    (1 ≤ (civilFromDays t).month ∧ (civilFromDays t).month ≤ 12 ∧ 1 ≤ (civilFromDays t).day ∧
      (civilFromDays t).day ≤ daysInMonth (civilFromDays t).year (civilFromDays t).month) ∧
    dayNumber (civilFromDays t).year (civilFromDays t).month (civilFromDays t).day
      = t - 730425 := by
  rw [civilFromDays_eq t]
  simp only []
  have hr0 : 0 ≤ t - 146097 * (t / 146097) := by omega
  have hr1 : t - 146097 * (t / 146097) < 146097 := by omega
  generalize hn : t / 146097 = n at *
  generalize hr : t - 146097 * n = r at *
  obtain ⟨hlo, hhi, hs, he⟩ := yearOfEra_spec r hr0 hr1
  obtain ⟨k, hk⟩ := Int.eq_ofNat_of_zero_le hlo
  rw [hk] at hs he ⊢
  have hk400 : k < 400 := by omega
  obtain ⟨a, ha⟩ := Int.eq_ofNat_of_zero_le (show 0 ≤ r - yearStart k by omega)
  rw [ha]
  have ha366 : a < 366 := by
    have : yearLength k ≤ 366 := by unfold yearLength; split <;> omega
    omega
  have hLdef : yearLength k = if isLeapYear ((k : Int) + 1) then 366 else 365 := rfl
  obtain ⟨m1, m12, d1, dmax, hday⟩ :=
    dayOfYear_table a ha366 (isLeapYear ((k : Int) + 1)) (by rw [← hLdef]; omega)
  have hcarry : yearCarry a = if monthOfYearDay a ≤ 2 then 1 else 0 := rfl
  constructor
  · refine ⟨m1, m12, d1, ?_⟩
    unfold daysInMonth
    by_cases hm2 : monthOfYearDay (a : Int) = 2
    · have hc1 : yearCarry a = 1 := by rw [hcarry, if_pos (by omega)]
      have hleap : isLeapYear ((k : Int) + 400 * n + yearCarry a) = isLeapYear ((k : Int) + 1) := by
        rw [hc1]
        have : (k : Int) + 400 * n + 1 = (k : Int) + 1 + 400 * n := by ring
        rw [this, isLeapYear_add_era]
      rw [if_pos hm2, hleap]
      rw [if_pos hm2] at dmax
      exact dmax
    · rw [if_neg hm2]
      rw [if_neg hm2] at dmax
      exact dmax
  · unfold dayNumber
    simp only []
    have hys : yearStart (k : Int) = 365 * (k : Int) + (k : Int) / 4 - (k : Int) / 100 := rfl
    rw [hcarry]
    have h4 : ((k : Int) + 400 * n) / 4 = (k : Int) / 4 + 100 * n := by omega
    have h100 : ((k : Int) + 400 * n) / 100 = (k : Int) / 100 + 4 * n := by omega
    have h400 : ((k : Int) + 400 * n) / 400 = n := by omega
    by_cases hm : monthOfYearDay (a : Int) ≤ 2
    · rw [if_pos hm] at hday ⊢
      simp only [if_pos hm]
      have e : (k : Int) + 400 * n + 1 - 1 = (k : Int) + 400 * n := by ring
      rw [e, h4, h100, h400]
      omega
    · rw [if_neg hm] at hday ⊢
      simp only [if_neg hm]
      have e : (k : Int) + 400 * n + 0 = (k : Int) + 400 * n := by ring
      rw [e, h4, h100, h400]
      omega

theorem tdiv_neg_natCast (g d : Nat) : (-(g : Int)).tdiv (d : Int) = -(((g / d : Nat)) : Int) := by
  rw [Int.neg_tdiv, Int.tdiv_eq_ediv (by omega) (by omega)]
  rfl

theorem tmod_neg_natCast (g d : Nat) : (-(g : Int)).tmod (d : Int) = -(((g % d : Nat)) : Int) := by
  rw [Int.tmod_def, tdiv_neg_natCast]
  have := Nat.div_add_mod g d
  have h2 : ((g : Int)) = (d : Int) * ((g / d : Nat) : Int) + ((g % d : Nat) : Int) := by
    exact_mod_cast this.symm
  rw [mul_neg]
  omega

theorem timeDate_decodeTimeInt (f : Int) :
    timeDate (decodeTimeInt f)
      = f / 86400 * 86400 + (f.tdiv 3600).tmod 24 * 3600 + (f.tdiv 60).tmod 60 * 60
        + f.tmod 60 := by
  obtain ⟨⟨m1, m12, _, _⟩, hday⟩ := civilFromDays_fields (f / 86400 + 730425)
  unfold timeDate decodeTimeInt
  simp only []
  have e1 : ((civilFromDays (f / 86400 + 730425)).month - 1) / 12 = 0 := by omega
  have e2 : ((civilFromDays (f / 86400 + 730425)).month - 1) % 12 + 1
      = (civilFromDays (f / 86400 + 730425)).month := by omega
  rw [e1, e2, Int.add_zero, hday]
  omega

/-- On a whole number of seconds from 0 on, `time.Date` returns the instant that many seconds
after 2000-01-01 00:00:00 UTC. -/
theorem timeDate_decodeTimeInt_natCast (f : Nat) : timeDate (decodeTimeInt (f : Int)) = f := by
  rw [timeDate_decodeTimeInt]
  have hf : (0 : Int) ≤ (f : Int) := by omega
  have h3600 : (0 : Int) ≤ (f : Int) / 3600 := by omega
  have h60 : (0 : Int) ≤ (f : Int) / 60 := by omega
  rw [Int.tdiv_eq_ediv hf (by decide), Int.tdiv_eq_ediv hf (by decide),
    Int.tmod_eq_emod h3600 (by decide), Int.tmod_eq_emod h60 (by decide),
    Int.tmod_eq_emod hf (by decide)]
  omega

theorem decodeTimeInt_neg (g : Nat) :
    (decodeTimeInt (-(g : Int))).hour = -((g / 3600 % 24 : Nat) : Int) ∧
    (decodeTimeInt (-(g : Int))).minute = -((g / 60 % 60 : Nat) : Int) ∧
    (decodeTimeInt (-(g : Int))).second = -((g % 60 : Nat) : Int) ∧
    timeDate (decodeTimeInt (-(g : Int)))
      = if g % 86400 = 0 then -(g : Int) else -(g : Int) - 86400 := by
  have h1 : (decodeTimeInt (-(g : Int))).hour = -((g / 3600 % 24 : Nat) : Int) := by
    show ((-(g : Int)).tdiv 3600).tmod 24 = _
    have := tdiv_neg_natCast g 3600
    have h2 := tmod_neg_natCast (g / 3600) 24
    simp only [Nat.cast_ofNat] at this h2
    rw [this, h2]
  have h2 : (decodeTimeInt (-(g : Int))).minute = -((g / 60 % 60 : Nat) : Int) := by
    show ((-(g : Int)).tdiv 60).tmod 60 = _
    have := tdiv_neg_natCast g 60
    have h2 := tmod_neg_natCast (g / 60) 60
    simp only [Nat.cast_ofNat] at this h2
    rw [this, h2]
  have h3 : (decodeTimeInt (-(g : Int))).second = -((g % 60 : Nat) : Int) := by
    show (-(g : Int)).tmod 60 = _
    have h2 := tmod_neg_natCast g 60
    simp only [Nat.cast_ofNat] at h2
    rw [h2]
  refine ⟨h1, h2, h3, ?_⟩
  have ht := timeDate_decodeTimeInt (-(g : Int))
  have h1' : ((-(g : Int)).tdiv 3600).tmod 24 = -((g / 3600 % 24 : Nat) : Int) := h1
  have h2' : ((-(g : Int)).tdiv 60).tmod 60 = -((g / 60 % 60 : Nat) : Int) := h2
  have h3' : (-(g : Int)).tmod 60 = -((g % 60 : Nat) : Int) := h3
  rw [h1', h2', h3'] at ht
  rw [ht]
  split_ifs with hz <;> omega

theorem civilFromDays_add_natCast (n : Nat) :
    ∀ t : Int, civilFromDays (t + (n : Int)) = Nat.iterate CivilDate.next n (civilFromDays t) := by
  induction n with
  | zero => intro t; simp
  | succ n ih =>
    intro t
    have e : t + ((n + 1 : Nat) : Int) = (t + 1) + (n : Int) := by push_cast; ring
    rw [e, ih (t + 1), civilFromDays_succ, Function.iterate_succ_apply]

/-- C11, as stated, fails: for the whole number of seconds -1 `DecodeTime` hands
`time.Date` the date 1999-12-31 with the time of day 00:00:-1, which is the instant 86401
seconds before 2000-01-01 00:00:00 (1999-12-30 23:59:59), not the instant one second before
it; and that instant is not 86400 seconds earlier than the one decoded from -1 + 86400. -/
theorem decodeTime_negative_second_counterexample :
    DecodeTime (((-1 : Int)) : ℚ) = ⟨1999, 12, 31, 0, 0, -1⟩ ∧
    timeDate (DecodeTime (((-1 : Int)) : ℚ)) = -86401 ∧
    timeDate (DecodeTime (((-1 : Int)) : ℚ)) ≠ -1 ∧
    timeDate (DecodeTime (((-1 + 86400 : Int)) : ℚ)) = 86399 ∧
    timeDate (DecodeTime (((-1 : Int)) : ℚ))
      ≠ timeDate (DecodeTime (((-1 + 86400 : Int)) : ℚ)) - 86400 := by
  rw [DecodeTime_intCast (-1) (by decide), DecodeTime_intCast (-1 + 86400) (by decide)]
  decide

/-- C11, amended: for a negative whole number of seconds `f` above `-2 ^ 52`, the date that
`DecodeTime f` hands to `time.Date` is a date of the calendar, the one `f / 86400` (floor) days
from 2000-01-01 (going `-(f / 86400)` days forward from it, day by day, reaches 2000-01-01), the
day in which the instant `|f|` seconds before 2000-01-01 00:00:00 UTC lies; hour, minute and
second are taken toward zero, `-(|f| / 3600 % 24)`, `-(|f| / 60 % 60)` and `-(|f| % 60)`; so
`time.Date` returns the instant `|f|` seconds before 2000-01-01 00:00:00 UTC when `f` is a
multiple of 86400, and the instant 86400 seconds before that one otherwise. -/
theorem decodeTime_negative_seconds (f : Int) (hneg : f < 0) (hlo : -2 ^ 52 < f) :
    (1 ≤ (DecodeTime (f : ℚ)).month ∧ (DecodeTime (f : ℚ)).month ≤ 12 ∧
      1 ≤ (DecodeTime (f : ℚ)).day ∧
      (DecodeTime (f : ℚ)).day
        ≤ daysInMonth (DecodeTime (f : ℚ)).year (DecodeTime (f : ℚ)).month) ∧
    dayNumber (DecodeTime (f : ℚ)).year (DecodeTime (f : ℚ)).month (DecodeTime (f : ℚ)).day
      = f / 86400 ∧
    Nat.iterate CivilDate.next (-(f / 86400)).toNat
        ⟨(DecodeTime (f : ℚ)).year, (DecodeTime (f : ℚ)).month, (DecodeTime (f : ℚ)).day⟩
      = ⟨2000, 1, 1⟩ ∧
    (DecodeTime (f : ℚ)).hour = -((-f) / 3600 % 24) ∧
    (DecodeTime (f : ℚ)).minute = -((-f) / 60 % 60) ∧
    (DecodeTime (f : ℚ)).second = -((-f) % 60) ∧
    timeDate (DecodeTime (f : ℚ)) = (if f % 86400 = 0 then f else f - 86400) := by
  rw [DecodeTime_intCast f (by omega)]
  obtain ⟨g, hg⟩ : ∃ g : Nat, f = -(g : Int) := ⟨f.natAbs, by omega⟩
  obtain ⟨hv, hday⟩ := civilFromDays_fields (f / 86400 + 730425)
  obtain ⟨h1, h2, h3, h4⟩ := decodeTimeInt_neg g
  rw [← hg] at h1 h2 h3 h4
  refine ⟨hv, ?_, ?_, ?_, ?_, ?_, ?_⟩
  · show dayNumber (civilFromDays (f / 86400 + 730425)).year
      (civilFromDays (f / 86400 + 730425)).month (civilFromDays (f / 86400 + 730425)).day = _
    rw [hday]
    omega
  · show Nat.iterate CivilDate.next (-(f / 86400)).toNat (civilFromDays (f / 86400 + 730425)) = _
    rw [← civilFromDays_add_natCast]
    have e : f / 86400 + 730425 + (((-(f / 86400)).toNat : Nat) : Int) = 730425 := by omega
    rw [e]
    decide
  · rw [h1, hg]
    push_cast
    omega
  · rw [h2, hg]
    push_cast
    omega
  · rw [h3, hg]
    push_cast
    omega
  · rw [h4]
    split_ifs with c1 c2 c2 <;> omega

theorem decodeTime_negative_seconds_witness :
    ((-90061 : Int) < 0 ∧ (-2 ^ 52 : Int) < -90061) ∧
    ((1 ≤ (DecodeTime (((-90061 : Int)) : ℚ)).month ∧
      (DecodeTime (((-90061 : Int)) : ℚ)).month ≤ 12 ∧
      1 ≤ (DecodeTime (((-90061 : Int)) : ℚ)).day ∧
      (DecodeTime (((-90061 : Int)) : ℚ)).day
        ≤ daysInMonth (DecodeTime (((-90061 : Int)) : ℚ)).year
            (DecodeTime (((-90061 : Int)) : ℚ)).month) ∧
    dayNumber (DecodeTime (((-90061 : Int)) : ℚ)).year (DecodeTime (((-90061 : Int)) : ℚ)).month
        (DecodeTime (((-90061 : Int)) : ℚ)).day
      = (-90061 : Int) / 86400 ∧
    Nat.iterate CivilDate.next (-((-90061 : Int) / 86400)).toNat
        ⟨(DecodeTime (((-90061 : Int)) : ℚ)).year, (DecodeTime (((-90061 : Int)) : ℚ)).month,
          (DecodeTime (((-90061 : Int)) : ℚ)).day⟩
      = ⟨2000, 1, 1⟩ ∧
    (DecodeTime (((-90061 : Int)) : ℚ)).hour = -((-(-90061 : Int)) / 3600 % 24) ∧
    (DecodeTime (((-90061 : Int)) : ℚ)).minute = -((-(-90061 : Int)) / 60 % 60) ∧
    (DecodeTime (((-90061 : Int)) : ℚ)).second = -((-(-90061 : Int)) % 60) ∧
    timeDate (DecodeTime (((-90061 : Int)) : ℚ))
      = (if (-90061 : Int) % 86400 = 0 then (-90061 : Int) else (-90061 : Int) - 86400)) :=
  ⟨by decide, decodeTime_negative_seconds (-90061) (by decide) (by decide)⟩

/-! ## Theorems: the maintenance window -/

/-- C15, as stated, fails: at 22:55:30 UTC the time of day lies strictly between 22:55 and
23:35, yet the instant is not classified as maintenance. -/
theorem maintenance_window_half_minute_counterexample :
    clockParse 22 55 < 22 * 3600 + 55 * 60 + 30 ∧ (22 * 3600 + 55 * 60 + 30 : Int) < clockParse 23 35 ∧
    isPDAXMaintenanceWindow ((22 * 3600 + 55 * 60 + 30) * 1000000000) = false := by
  decide

/-- C15, amended: an instant is classified as maintenance exactly when its UTC time of day, cut
to the whole minute, lies strictly between 22:55 and 23:35, that is when the time of day is at
least 22:56:00 and before 23:35:00, whatever the date; in particular 23:00 UTC of any day is
classified maintenance, 22:50 UTC and 23:40 UTC are not. -/
theorem maintenance_window_by_minute (now : Int) :
    (isPDAXMaintenanceWindow now = true ↔
      (22 * 3600 + 56 * 60 ≤ now / 1000000000 % 86400 ∧
        now / 1000000000 % 86400 < 23 * 3600 + 35 * 60)) ∧
    isPDAXMaintenanceWindow (now + 86400 * 1000000000) = isPDAXMaintenanceWindow now ∧
    (∀ day : Int, isPDAXMaintenanceWindow ((day * 86400 + 23 * 3600) * 1000000000) = true) ∧
    (∀ day : Int,
      isPDAXMaintenanceWindow ((day * 86400 + 22 * 3600 + 50 * 60) * 1000000000) = false) ∧
    (∀ day : Int,
      isPDAXMaintenanceWindow ((day * 86400 + 23 * 3600 + 40 * 60) * 1000000000) = false) := by
  have key : ∀ t : Int, (isPDAXMaintenanceWindow t = true ↔
      (22 * 3600 + 56 * 60 ≤ t / 1000000000 % 86400 ∧
        t / 1000000000 % 86400 < 23 * 3600 + 35 * 60)) := by
    intro t
    unfold isPDAXMaintenanceWindow clockParse clockFormat
    simp only [Bool.and_eq_true, decide_eq_true_eq]
    omega
  refine ⟨key now, ?_, ?_, ?_, ?_⟩
  · rw [Bool.eq_iff_iff, key, key]
    have : (now + 86400 * 1000000000) / 1000000000 % 86400 = now / 1000000000 % 86400 := by
      omega
    rw [this]
  · intro day
    rw [key]
    omega
  · intro day
    rw [Bool.eq_false_iff, Ne, key]
    omega
  · intro day
    rw [Bool.eq_false_iff, Ne, key]
    omega

/-! ## Theorems: the captcha solver -/

theorem strings.HasPrefix_append (pre s : String) : strings.HasPrefix (pre ++ s) pre = true := by
  unfold strings.HasPrefix
  rw [String.data_append, List.isPrefixOf_iff_prefix]
  exact List.prefix_append _ _

theorem strings.TrimPrefix_append (pre s : String) : strings.TrimPrefix (pre ++ s) pre = s := by
  unfold strings.TrimPrefix
  rw [if_pos (strings.HasPrefix_append pre s), String.data_append, List.drop_left]

theorem okPrefix_append_ne_notReady (s : String) : okPrefix ++ s ≠ notReadyStatus := by
  intro h
  have h2 := congrArg String.data h
  rw [String.data_append] at h2
  have e1 : okPrefix.data = 'O' :: ['K', '|'] := by decide
  have e2 : notReadyStatus.data = 'C' :: "APCHA_NOT_READY".data := by decide
  rw [e1, e2, List.cons_append] at h2
  exact absurd (List.cons.inj h2).1 (by decide)

theorem ne_zeroBalance_of_hasPrefix (task : String)
    (h : strings.HasPrefix task okPrefix = true) : task ≠ zeroBalance := by
  rintro rfl
  revert h
  decide

theorem solveLoop_notReady (poll : Nat → HttpResult) (m : Nat) :
    ∀ left i, (∀ j, i ≤ j → j < i + m → poll j = HttpResult.body notReadyStatus) →
      solveLoop poll (m + left) i = solveLoop poll left (i + m) := by
  induction m with
  | zero => intro left i _; simp
  | succ m ih =>
    intro left i h
    have e : m + 1 + left = (m + left) + 1 := by omega
    rw [e, solveLoop, h i (by omega) (by omega)]
    simp only [if_true]
    rw [ih left (i + 1) (fun j h1 h2 => h j (by omega) (by omega))]
    congr 1
    omega

/-- C16: when the task was accepted (the first answer starts with "OK|") and each of the first
30 result requests is answered "CAPCHA_NOT_READY", `Solve` sends exactly 30 result requests
and returns the empty token with the timeout error. -/
theorem solve_times_out (task : String) (poll : Nat → HttpResult)
    (hacc : strings.HasPrefix task okPrefix = true)
    (hnr : ∀ i, i < 30 → poll i = HttpResult.body notReadyStatus) :
    Solve (HttpResult.body task) poll = ⟨"", some SolveError.timeout, 30⟩ := by
  unfold Solve
  simp only [if_neg (ne_zeroBalance_of_hasPrefix task hacc), hacc, if_true]
  have := solveLoop_notReady poll 30 0 0 (fun j _ h2 => hnr j (by omega))
  simp only [Nat.add_zero, Nat.zero_add] at this
  rw [solutionCheckAttemptCount, this]
  rfl

theorem solve_times_out_witness :
    strings.HasPrefix "OK|74327409378" okPrefix = true ∧
    (∀ i, i < 30 → (fun _ : Nat => HttpResult.body notReadyStatus) i
      = HttpResult.body notReadyStatus) ∧
    Solve (HttpResult.body "OK|74327409378") (fun _ => HttpResult.body notReadyStatus)
      = ⟨"", some SolveError.timeout, 30⟩ :=
  ⟨by decide, fun _ _ => rfl,
    solve_times_out "OK|74327409378" (fun _ => HttpResult.body notReadyStatus) (by decide)
      (fun _ _ => rfl)⟩

/-- C17: when the task was accepted, `1 <= k <= 30`, the result requests before the `k`-th are
answered "CAPCHA_NOT_READY" and the `k`-th is answered "OK|" followed by `s`, `Solve` returns
the token `s` and no error after exactly `k` result requests. -/
theorem solve_returns_token (task : String) (poll : Nat → HttpResult) (k : Nat) (s : String)
    (hacc : strings.HasPrefix task okPrefix = true) (hk1 : 1 ≤ k) (hk30 : k ≤ 30)
    (hnr : ∀ i, i + 1 < k → poll i = HttpResult.body notReadyStatus)
    (hok : poll (k - 1) = HttpResult.body (okPrefix ++ s)) :
    Solve (HttpResult.body task) poll = ⟨s, none, k⟩ := by
  unfold Solve
  simp only [if_neg (ne_zeroBalance_of_hasPrefix task hacc), hacc, if_true]
  have e : solutionCheckAttemptCount = (k - 1) + ((30 - k) + 1) := by
    unfold solutionCheckAttemptCount; omega
  rw [e, solveLoop_notReady poll (k - 1) _ 0 (fun j _ h2 => hnr j (by omega)), solveLoop]
  simp only [Nat.zero_add, hok, if_neg (okPrefix_append_ne_notReady s),
    strings.HasPrefix_append, strings.TrimPrefix_append, if_true]
  congr 1
  omega

theorem solve_returns_token_witness :
    strings.HasPrefix "OK|74327409378" okPrefix = true ∧ 1 ≤ 3 ∧ 3 ≤ 30 ∧
    (∀ i, i + 1 < 3 →
      (fun i : Nat => if i = 2 then HttpResult.body (okPrefix ++ "03AGdBq25")
        else HttpResult.body notReadyStatus) i = HttpResult.body notReadyStatus) ∧
    (fun i : Nat => if i = 2 then HttpResult.body (okPrefix ++ "03AGdBq25")
        else HttpResult.body notReadyStatus) (3 - 1) = HttpResult.body (okPrefix ++ "03AGdBq25") ∧
    Solve (HttpResult.body "OK|74327409378")
        (fun i : Nat => if i = 2 then HttpResult.body (okPrefix ++ "03AGdBq25")
          else HttpResult.body notReadyStatus)
      = ⟨"03AGdBq25", none, 3⟩ :=
  have h1 : ∀ i, i + 1 < 3 →
      (fun i : Nat => if i = 2 then HttpResult.body (okPrefix ++ "03AGdBq25")
        else HttpResult.body notReadyStatus) i = HttpResult.body notReadyStatus :=
    fun i hi => if_neg (by omega)
  ⟨by decide, by decide, by decide, h1, rfl,
    solve_returns_token "OK|74327409378" _ 3 "03AGdBq25" (by decide) (by decide) (by decide)
      h1 rfl⟩

/-- C18: when the first answer of the service is neither "ERROR_ZERO_BALANCE" nor starts with
"OK|", `Solve` returns the empty token and no error and sends no result request. -/
theorem solve_unrecognised_answer (task : String) (poll : Nat → HttpResult)
    (hz : task ≠ zeroBalance) (hp : strings.HasPrefix task okPrefix = false) :
    Solve (HttpResult.body task) poll = ⟨"", none, 0⟩ := by
  unfold Solve
  simp only [if_neg hz, hp, Bool.false_eq_true, if_false]

theorem solve_unrecognised_answer_witness :
    "ERROR_WRONG_USER_KEY" ≠ zeroBalance ∧
    strings.HasPrefix "ERROR_WRONG_USER_KEY" okPrefix = false ∧
    Solve (HttpResult.body "ERROR_WRONG_USER_KEY") (fun _ => HttpResult.getFailed)
      = ⟨"", none, 0⟩ :=
  ⟨by decide, by decide,
    solve_unrecognised_answer "ERROR_WRONG_USER_KEY" (fun _ => HttpResult.getFailed) (by decide)
      (by decide)⟩

/-! ## Theorems: the supervisor -/

theorem base64Decode_auth :
    base64Decode "BgAAAAEAAAG7".data = some [6, 0, 0, 0, 1, 0, 0, 1, 187] := by
  decide

theorem utf8Bytes_length (s : String) : (utf8Bytes s).length = s.utf8ByteSize := by
  unfold utf8Bytes
  rw [List.length_map, Array.length_toList]
  exact String.size_toUTF8 s

theorem sendAuthMessage_log (c : Conn) (authToken : String) :
    ∃ later, (sendAuthMessage c authToken).1.log
      = c.log ++ ConnOp.write ([6, 0, 0, 0, 1, 0, 0, 1, 187] ++ utf8Bytes authToken) :: later := by
  unfold sendAuthMessage
  rw [base64Decode_auth]
  simp only [Option.getD_some, Conn.WriteMessage, Conn.ReadMessage]
  split_ifs
  · exact ⟨[], by simp⟩
  · exact ⟨[ConnOp.read], by simp⟩

/-- C20, as stated, fails: for the token "abc" (three bytes) the frame that `sendAuthMessage`
writes is the nine bytes decoded from "BgAAAAEAAAG7" followed by the three bytes of the token,
twelve bytes and not thirteen. -/
theorem auth_frame_length_counterexample :
    (sendAuthMessage sampleConn "abc").1.log
      = [ConnOp.write [6, 0, 0, 0, 1, 0, 0, 1, 187, 97, 98, 99], ConnOp.read] ∧
    "abc".utf8ByteSize = 3 ∧
    [6, 0, 0, 0, 1, 0, 0, 1, 187, 97, 98, 99].length ≠ 10 + "abc".utf8ByteSize := by
  decide

/-- C20, amended: for every bearer token the first operation of `sendAuthMessage` on the
connection is the write of one frame, the fixed nine bytes `06 00 00 00 01 00 00 01 BB`
followed by exactly the UTF-8 bytes of the token, of length 9 plus the byte length of the
token. -/
theorem auth_frame_is_prefix_then_token (c : Conn) (authToken : String) :
    ∃ frame later, (sendAuthMessage c authToken).1.log = c.log ++ ConnOp.write frame :: later ∧
      frame = [6, 0, 0, 0, 1, 0, 0, 1, 187] ++ utf8Bytes authToken ∧
      frame.length = 9 + authToken.utf8ByteSize := by
  obtain ⟨later, h⟩ := sendAuthMessage_log c authToken
  refine ⟨_, later, h, rfl, ?_⟩
  rw [List.length_append, utf8Bytes_length]
  rfl

/-! ## Theorems: the history-fetch request -/

theorem base64Decode_fetch :
    base64Decode "HAAAAAYAAACAAAAAAAAAAAEACVRpbWVzdGFtcP8=".data
      = some [28, 0, 0, 0, 6, 0, 0, 0, 128, 0, 0, 0, 0, 0, 0, 0, 1, 0, 9, 84, 105, 109, 101,
          115, 116, 97, 109, 112, 255] := by
  decide

theorem requestPage_eq (c : Conn) (pageSize sinceID : Nat) :
    requestPage c pageSize sinceID
      = some ⟨c.fails, c.log ++ [ConnOp.write
          ([28, 0, 0, 0, 6, 0, 0, 0, 128, 0, 0, 0, 0, 0, 0, 0, 1, 0, 9, 84, 105, 109, 101, 115,
              116, 97, 109, 112, 255]
            ++ [(sinceID >>> 56) % 256, (sinceID >>> 48) % 256, (sinceID >>> 40) % 256,
              (sinceID >>> 32) % 256, (sinceID >>> 24) % 256, (sinceID >>> 16) % 256,
              (sinceID >>> 8) % 256, sinceID % 256, 1, (pageSize >>> 8) % 256,
              pageSize % 256])]⟩ := by
  unfold requestPage
  rw [base64Decode_fetch]
  simp [WriteCursor.WriteFloat64, WriteCursor.WriteUint8, WriteCursor.WriteUint16, bytesFrom,
    BigEndian.PutUint64, BigEndian.PutUint16, Conn.WriteMessage, List.replicate]

/-- C21, as stated, fails: for the page size 10000 and the since-id -1.0 the request that
`requestPage` writes has 40 bytes, the 29 bytes decoded from the constant followed by the 11
bytes of the parameter block; it is not 27 bytes long and its parameter block does not start
after 16 bytes. -/
theorem requestPage_length_counterexample :
    (requestPage sampleConn 10000 0xBFF0000000000000).map (fun c => c.log)
      = some [ConnOp.write [28, 0, 0, 0, 6, 0, 0, 0, 128, 0, 0, 0, 0, 0, 0, 0, 1, 0, 9, 84, 105,
          109, 101, 115, 116, 97, 109, 112, 255, 0xBF, 0xF0, 0, 0, 0, 0, 0, 0, 1, 0x27, 0x10]] ∧
    [28, 0, 0, 0, 6, 0, 0, 0, 128, 0, 0, 0, 0, 0, 0, 0, 1, 0, 9, 84, 105,
          109, 101, 115, 116, 97, 109, 112, 255, 0xBF, 0xF0, 0, 0, 0, 0, 0, 0, 1, 0x27,
          0x10].length = 40 ∧
    (40 : Nat) ≠ 27 ∧
    be64At [28, 0, 0, 0, 6, 0, 0, 0, 128, 0, 0, 0, 0, 0, 0, 0, 1, 0, 9, 84, 105,
          109, 101, 115, 116, 97, 109, 112, 255, 0xBF, 0xF0, 0, 0, 0, 0, 0, 0, 1, 0x27, 0x10] 16
      ≠ 0xBFF0000000000000 := by
  decide

/-- C21, amended: for every page size (a 16-bit value) and every since-id (a float64, given by
its bits) the request that `requestPage` writes is the fixed 29 bytes decoded from the
constant followed by a parameter block of 11 bytes, 40 bytes in all; bytes 0 to 7 of the block
are the since-id bits big-endian, byte 8 is 1 and bytes 9 and 10 are the page size
big-endian. -/
theorem requestPage_frame (c : Conn) (pageSize sinceID : Nat) (hp : pageSize < 2 ^ 16)
    (hs : sinceID < 2 ^ 64) :
    ∃ c1 block, requestPage c pageSize sinceID = some c1 ∧
      c1.log = c.log ++ [ConnOp.write
        ([28, 0, 0, 0, 6, 0, 0, 0, 128, 0, 0, 0, 0, 0, 0, 0, 1, 0, 9, 84, 105, 109, 101, 115,
            116, 97, 109, 112, 255] ++ block)] ∧
      block.length = 11 ∧
      ([28, 0, 0, 0, 6, 0, 0, 0, 128, 0, 0, 0, 0, 0, 0, 0, 1, 0, 9, 84, 105, 109, 101, 115,
            116, 97, 109, 112, 255] ++ block).length = 40 ∧
      be64At block 0 = sinceID ∧ block.getD 8 0 = 1 ∧ be16At block 9 = pageSize ∧
      ∀ b ∈ block, b < 256 := by
  refine ⟨_, _, requestPage_eq c pageSize sinceID, rfl, rfl, rfl, ?_, rfl, ?_, ?_⟩
  · exact be64_round_trip sinceID hs
  · exact be16_round_trip pageSize hp
  · intro b hb
    simp only [List.mem_cons, List.mem_singleton, List.not_mem_nil, or_false] at hb
    omega

theorem requestPage_frame_witness :
    (10000 < 2 ^ 16 ∧ 0xBFF0000000000000 < 2 ^ 64) ∧
    ∃ c1 block, requestPage sampleConn 10000 0xBFF0000000000000 = some c1 ∧
      c1.log = sampleConn.log ++ [ConnOp.write
        ([28, 0, 0, 0, 6, 0, 0, 0, 128, 0, 0, 0, 0, 0, 0, 0, 1, 0, 9, 84, 105, 109, 101, 115,
            116, 97, 109, 112, 255] ++ block)] ∧
      block.length = 11 ∧
      ([28, 0, 0, 0, 6, 0, 0, 0, 128, 0, 0, 0, 0, 0, 0, 0, 1, 0, 9, 84, 105, 109, 101, 115,
            116, 97, 109, 112, 255] ++ block).length = 40 ∧
      be64At block 0 = 0xBFF0000000000000 ∧ block.getD 8 0 = 1 ∧ be16At block 9 = 10000 ∧
      ∀ b ∈ block, b < 256 :=
  ⟨by decide, requestPage_frame sampleConn 10000 0xBFF0000000000000 (by decide) (by decide)⟩

/-! ## Theorems: `Bootstrap` -/

theorem runScript_all_ok (ops : List ConnOp) :
    ∀ c : Conn, (∀ i, i < ops.length → c.fails (c.log.length + i) = false) →
      runScript c ops = (⟨c.fails, c.log ++ ops⟩, false) := by
  induction ops with
  | nil => intro c _; simp [runScript]
  | cons op rest ih =>
    intro c h
    have h0 := h 0 (by simp)
    simp only [Nat.add_zero] at h0
    rw [runScript, h0]
    simp only [Bool.false_eq_true, if_false]
    rw [ih]
    · simp
    · intro i hi
      have := h (i + 1) (by simp; omega)
      simp only [List.length_append, List.length_singleton]
      rw [← this]
      congr 1
      omega

theorem runScript_first_failure (ops : List ConnOp) :
    ∀ (c : Conn) (i : Nat), i < ops.length → c.fails (c.log.length + i) = true →
      (∀ j, j < i → c.fails (c.log.length + j) = false) →
      runScript c ops = (⟨c.fails, c.log ++ ops.take (i + 1)⟩, true) := by
  induction ops with
  | nil => intro c i hi; simp at hi
  | cons op rest ih =>
    intro c i hi hf hb
    rw [runScript]
    cases i with
    | zero =>
      simp only [Nat.add_zero] at hf
      rw [hf]
      simp
    | succ i =>
      have h0 := hb 0 (by omega)
      simp only [Nat.add_zero] at h0
      rw [h0]
      simp only [Bool.false_eq_true, if_false]
      rw [ih _ i (by simpa using hi)]
      · simp
      · simp only [List.length_append, List.length_singleton]
        rw [← hf]
        congr 1
        omega
      · intro j hj
        have := hb (j + 1) (by omega)
        simp only [List.length_append, List.length_singleton]
        rw [← this]
        congr 1
        omega

theorem replayMessages_eq_runScript (decode : String → List Nat) (ms : List String) :
    ∀ c : Conn, replayMessages decode c ms
      = runScript c (ms.map (fun m => ConnOp.write (decode m))) := by
  induction ms with
  | nil => intro c; rfl
  | cons m rest ih =>
    intro c
    rw [replayMessages, List.map_cons, runScript]
    simp only [Conn.WriteMessage]
    split_ifs
    · rfl
    · exact ih _

theorem readMessage_eq (c : Conn) :
    c.ReadMessage = (⟨c.fails, c.log ++ [ConnOp.read]⟩, c.fails c.log.length) := rfl

theorem writeMessage_eq (c : Conn) (frame : List Nat) :
    c.WriteMessage frame = (⟨c.fails, c.log ++ [ConnOp.write frame]⟩, c.fails c.log.length) := rfl

theorem sendAuthMessage_eq (c : Conn) (authToken : String) :
    sendAuthMessage c authToken
      = runScript c [ConnOp.write ([6, 0, 0, 0, 1, 0, 0, 1, 187] ++ utf8Bytes authToken),
          ConnOp.read] := by
  unfold sendAuthMessage
  rw [base64Decode_auth]
  simp only [Option.getD_some, writeMessage_eq, readMessage_eq, runScript]
  split_ifs with h1 h2
  · rfl
  · simp only [h2]
  · simp only [Bool.not_eq_true] at h2
    simp only [h2]

theorem runScript_append (ops1 : List ConnOp) :
    ∀ (c : Conn) (ops2 : List ConnOp), runScript c (ops1 ++ ops2)
      = if (runScript c ops1).2 then runScript c ops1 else runScript (runScript c ops1).1 ops2 := by
  induction ops1 with
  | nil => intro c ops2; simp [runScript]
  | cons op rest ih =>
    intro c ops2
    rw [List.cons_append, runScript, runScript]
    by_cases h : c.fails c.log.length = true
    · simp only [h, if_true]
    · simp only [h, if_false]
      exact ih _ _

theorem bootstrap_stage (r : Conn × Bool) (K : BootstrapEnd) (R : Conn × Bool)
    (h : r.2 = false → K = ⟨R.1, R.2, !R.2⟩) :
    (if r.2 = true then (⟨r.1, true, false⟩ : BootstrapEnd) else K)
      = ⟨(if r.2 = true then r else R).1, (if r.2 = true then r else R).2,
          !(if r.2 = true then r else R).2⟩ := by
  cases hr : r.2 with
  | true => simp only [if_true, hr]; rfl
  | false => simp only [Bool.false_eq_true, if_false]; exact h hr

theorem bootstrap_last (m : Conn × Bool) :
    (if m.2 = true then (⟨m.1, true, false⟩ : BootstrapEnd) else ⟨m.1, false, true⟩)
      = ⟨m.1, m.2, !m.2⟩ := by
  cases hm : m.2 with
  | true => simp only [if_true]; rfl
  | false => simp only [Bool.false_eq_true, if_false]; rfl

theorem Bootstrap_eq_runScript (decode : String → List Nat) (c : Conn) (authToken : String)
    (wsInitBook : InitBook) :
    Bootstrap decode c authToken wsInitBook
      = ⟨(runScript c (bootstrapScript decode authToken wsInitBook)).1,
          (runScript c (bootstrapScript decode authToken wsInitBook)).2,
          !(runScript c (bootstrapScript decode authToken wsInitBook)).2⟩ := by
  have e : bootstrapScript decode authToken wsInitBook
      = [ConnOp.read] ++ ([ConnOp.write ([6, 0, 0, 0, 1, 0, 0, 1, 187] ++ utf8Bytes authToken),
          ConnOp.read] ++ ([ConnOp.write (decode wsInitBook.MessageCallBackInfo)]
          ++ ([ConnOp.write (decode wsInitBook.M0)] ++ ([ConnOp.read] ++ ([ConnOp.read]
          ++ ([ConnOp.write (decode wsInitBook.M1)] ++ ([ConnOp.read] ++ ([ConnOp.read]
          ++ wsInitBook.Messages.map (fun m => ConnOp.write (decode m)))))))))) := rfl
  have r1 : ∀ c : Conn, runScript c [ConnOp.read] = c.ReadMessage := by
    intro c; rw [readMessage_eq, runScript, runScript]; split_ifs with h <;> simp [h]
  have w1 : ∀ (c : Conn) (f : List Nat), runScript c [ConnOp.write f] = c.WriteMessage f := by
    intro c f; rw [writeMessage_eq, runScript, runScript]; split_ifs with h <;> simp [h]
  rw [e]
  unfold Bootstrap
  rw [runScript_append, r1]
  refine bootstrap_stage _ _ _ (fun _ => ?_)
  rw [runScript_append, ← sendAuthMessage_eq]
  refine bootstrap_stage _ _ _ (fun _ => ?_)
  rw [runScript_append, w1]
  refine bootstrap_stage _ _ _ (fun _ => ?_)
  rw [runScript_append, w1]
  refine bootstrap_stage _ _ _ (fun _ => ?_)
  rw [runScript_append, r1]
  refine bootstrap_stage _ _ _ (fun _ => ?_)
  rw [runScript_append, r1]
  refine bootstrap_stage _ _ _ (fun _ => ?_)
  rw [runScript_append, w1]
  refine bootstrap_stage _ _ _ (fun _ => ?_)
  rw [runScript_append, r1]
  refine bootstrap_stage _ _ _ (fun _ => ?_)
  rw [runScript_append, r1]
  refine bootstrap_stage _ _ _ (fun _ => ?_)
  rw [← replayMessages_eq_runScript]
  exact bootstrap_last _

/-- C23: for every bearer token, bootstrap book and connection, `Bootstrap` asks the connection
for the operations of the script in order (read; write the authentication frame; read; write
the call-back-info frame; write M0; read twice; write M1; read twice; write every frame of the
replay list in list order). When none fails it performs all of them, returns no error and
starts the heartbeat; when the operation number `i` is the first to fail it performs the
operations up to and including that one and no later one, returns an error and does not
start the heartbeat. -/
theorem bootstrap_follows_script (decode : String → List Nat) (c : Conn) (authToken : String)
    (wsInitBook : InitBook) :
    ((∀ i, i < (bootstrapScript decode authToken wsInitBook).length →
        c.fails (c.log.length + i) = false) →
      (Bootstrap decode c authToken wsInitBook).conn.log
          = c.log ++ bootstrapScript decode authToken wsInitBook ∧
        (Bootstrap decode c authToken wsInitBook).err = false ∧
        (Bootstrap decode c authToken wsInitBook).heartbeat = true) ∧
    (∀ i, i < (bootstrapScript decode authToken wsInitBook).length →
      c.fails (c.log.length + i) = true → (∀ j, j < i → c.fails (c.log.length + j) = false) →
      (Bootstrap decode c authToken wsInitBook).conn.log
          = c.log ++ (bootstrapScript decode authToken wsInitBook).take (i + 1) ∧
        (Bootstrap decode c authToken wsInitBook).err = true ∧
        (Bootstrap decode c authToken wsInitBook).heartbeat = false) := by
  rw [Bootstrap_eq_runScript]
  constructor
  · intro h
    rw [runScript_all_ok _ c h]
    exact ⟨rfl, rfl, rfl⟩
  · intro i hi hf hb
    rw [runScript_first_failure _ c i hi hf hb]
    exact ⟨rfl, rfl, rfl⟩

theorem bootstrap_follows_script_witness :
    ((Bootstrap sampleDecode sampleConn "abc" sampleInitBook).conn.log
        = sampleConn.log ++ bootstrapScript sampleDecode "abc" sampleInitBook ∧
      (Bootstrap sampleDecode sampleConn "abc" sampleInitBook).err = false ∧
      (Bootstrap sampleDecode sampleConn "abc" sampleInitBook).heartbeat = true) ∧
    ((Bootstrap sampleDecode sampleFailingConn "abc" sampleInitBook).conn.log
        = sampleFailingConn.log ++ (bootstrapScript sampleDecode "abc" sampleInitBook).take (3 + 1) ∧
      (Bootstrap sampleDecode sampleFailingConn "abc" sampleInitBook).err = true ∧
      (Bootstrap sampleDecode sampleFailingConn "abc" sampleInitBook).heartbeat = false) ∧
    (bootstrapScript sampleDecode "abc" sampleInitBook).take (3 + 1)
      = [ConnOp.read, ConnOp.write [6, 0, 0, 0, 1, 0, 0, 1, 187, 97, 98, 99], ConnOp.read,
          ConnOp.write [0, 0, 0]] :=
  ⟨(bootstrap_follows_script sampleDecode sampleConn "abc" sampleInitBook).1 (fun _ _ => rfl),
    (bootstrap_follows_script sampleDecode sampleFailingConn "abc" sampleInitBook).2 3
      (by decide) (by decide) (by decide),
    by decide⟩

/-! ## Theorems: the layout of a trade record -/

theorem getD_set_ne (d : List Nat) (i j v : Nat) (h : i ≠ j) :
    (d.set i v).getD j 0 = d.getD j 0 := by
  simp only [List.getD_eq_getElem?_getD, List.getElem?_set_ne h]

theorem be64At_set_outside (d : List Nat) (i q v : Nat) (h : i < q ∨ q + 8 ≤ i) :
    be64At (d.set i v) q = be64At d q := by
  unfold be64At
  rw [getD_set_ne d i q v (by omega), getD_set_ne d i (q + 1) v (by omega),
    getD_set_ne d i (q + 2) v (by omega), getD_set_ne d i (q + 3) v (by omega),
    getD_set_ne d i (q + 4) v (by omega), getD_set_ne d i (q + 5) v (by omega),
    getD_set_ne d i (q + 6) v (by omega), getD_set_ne d i (q + 7) v (by omega)]

theorem tradeAt_set_flag (tr : Reader) (d : List Nat) (p v : Nat) :
    tradeAt tr (d.set (p + 28) v) p = tradeAt tr d p := by
  unfold tradeAt
  rw [be64At_set_outside d (p + 28) (p + 29) v (by omega),
    be64At_set_outside d (p + 28) (p + 37) v (by omega),
    be64At_set_outside d (p + 28) (p + 45) v (by omega),
    be64At_set_outside d (p + 28) (p + 16) v (by omega),
    getD_set_ne d (p + 28) (p + 78) v (by omega), getD_set_ne d (p + 28) (p + 79) v (by omega)]

theorem f64Val_one : f64Val 0x3FF0000000000000 = some ((1 : Int) : ℚ) := by
  norm_num [f64Val]

/-- C22, as stated, fails: in a trade record whose presence flag before the currency code is 0
`ReadTrade` still reads the eight bytes after the flag as the currency code (1.0, hence the
pair "BTC-PHP") and moves the cursor by 86 bytes, not by 78. -/
theorem readTrade_null_flag_counterexample :
    sampleNullFlagRecord.getD 28 0 = 0 ∧
    be64At sampleNullFlagRecord 29 = 0x3FF0000000000000 ∧
    ∃ t, sampleReader.ReadTrade ⟨0, sampleNullFlagRecord⟩ = some (t, ⟨86, sampleNullFlagRecord⟩) ∧
      t.CurrencyPair = "BTC-PHP" ∧ (86 : Nat) ≠ 86 - 8 := by
  have hb : be64At sampleNullFlagRecord (0 + 29) = 0x3FF0000000000000 := by decide
  refine ⟨by decide, hb, tradeAt sampleReader sampleNullFlagRecord 0,
    Reader.ReadTrade_ok sampleReader 0 sampleNullFlagRecord (by decide) (by decide), ?_,
    by decide⟩
  simp only [tradeAt, hb, f64ToInt64_of_whole _ 1 f64Val_one (by decide)]
  decide

/-- C22, amended: for every buffer with 86 bytes left from the cursor and every value `v` of the
presence flag (byte 28 of the record), `ReadTrade` reads the eight bytes after the flag as the
currency code and moves the cursor by 86 bytes; the trade it returns is the same whatever the
flag, and its currency pair comes from the code at bytes 29 to 36. -/
theorem readTrade_ignores_presence_flag (tr : Reader) (p : Nat) (d : List Nat) (v : Nat)
    (hd : d.length < 2 ^ 64) (h : p + 86 ≤ d.length) :
    ∃ t, tr.ReadTrade ⟨p, d.set (p + 28) v⟩ = some (t, ⟨p + 86, d.set (p + 28) v⟩) ∧
      tr.ReadTrade ⟨p, d⟩ = some (t, ⟨p + 86, d⟩) ∧
      (d.set (p + 28) v).getD (p + 28) 0 = v ∧
      t.CurrencyPair = tr.lookup (f64ToInt64 (be64At d (p + 29))) ++ "-PHP" := by
  refine ⟨tradeAt tr d p, ?_, Reader.ReadTrade_ok tr p d h hd, ?_, rfl⟩
  · rw [Reader.ReadTrade_ok tr p _ (by rw [List.length_set]; exact h)
      (by rw [List.length_set]; exact hd), tradeAt_set_flag]
  · rw [List.getD_eq_getElem?_getD, List.getElem?_set_self (by omega)]
    rfl

theorem readTrade_ignores_presence_flag_witness :
    (sampleTradeRecord.length < 2 ^ 64 ∧ 0 + 86 ≤ sampleTradeRecord.length) ∧
    ∃ t, sampleReader.ReadTrade ⟨0, sampleTradeRecord.set (0 + 28) 0⟩
        = some (t, ⟨0 + 86, sampleTradeRecord.set (0 + 28) 0⟩) ∧
      sampleReader.ReadTrade ⟨0, sampleTradeRecord⟩ = some (t, ⟨0 + 86, sampleTradeRecord⟩) ∧
      (sampleTradeRecord.set (0 + 28) 0).getD (0 + 28) 0 = 0 ∧
      t.CurrencyPair
        = sampleReader.lookup (f64ToInt64 (be64At sampleTradeRecord (0 + 29))) ++ "-PHP" :=
  ⟨by decide, readTrade_ignores_presence_flag sampleReader 0 sampleTradeRecord 0 (by decide)
    (by decide)⟩

/-- C27: on every buffer, whatever its bytes, `ReadTrade` with at least 86 bytes left from the
cursor returns with the cursor 86 bytes further, and `ReadNullableTrade` with at least 121
bytes left returns the trade of `ReadTrade` with the cursor 35 bytes further still, 121 in
all; with fewer bytes left they fault. -/
theorem readTrade_cursor_advance (tr : Reader) (rc : ReadCursor)
    (hd : rc.Data.length < 2 ^ 64) :
    (rc.CurPos + 86 ≤ rc.Data.length →
      ∃ t, tr.ReadTrade rc = some (t, ⟨rc.CurPos + 86, rc.Data⟩) ∧
        (rc.CurPos + 121 ≤ rc.Data.length →
          tr.ReadNullableTrade rc = some (t, ⟨rc.CurPos + 86 + 35, rc.Data⟩) ∧
          rc.CurPos + 86 + 35 = rc.CurPos + 121)) ∧
    (rc.Data.length < rc.CurPos + 86 → tr.ReadTrade rc = none) ∧
    (rc.Data.length < rc.CurPos + 121 → tr.ReadNullableTrade rc = none) := by
  obtain ⟨p, d⟩ := rc
  show (p + 86 ≤ d.length → ∃ t, tr.ReadTrade ⟨p, d⟩ = some (t, ⟨p + 86, d⟩) ∧
      (p + 121 ≤ d.length → tr.ReadNullableTrade ⟨p, d⟩ = some (t, ⟨p + 86 + 35, d⟩) ∧
        p + 86 + 35 = p + 121)) ∧
    (d.length < p + 86 → tr.ReadTrade ⟨p, d⟩ = none) ∧
    (d.length < p + 121 → tr.ReadNullableTrade ⟨p, d⟩ = none)
  have hd1 : d.length < 2 ^ 64 := hd
  rw [Reader.ReadTrade_eq tr p d hd1, Reader.ReadNullableTrade_eq tr p d hd1]
  refine ⟨?_, ?_, ?_⟩
  · intro h
    exact ⟨_, by rw [if_pos h], fun h1 => ⟨by rw [if_pos h1], rfl⟩⟩
  · intro h; rw [if_neg (by omega)]
  · intro h; rw [if_neg (by omega)]

set_option maxRecDepth 100000 in
theorem readTrade_cursor_advance_witness :
    sampleOffsetCursor.Data.length < 2 ^ 64 ∧
    sampleOffsetCursor.CurPos + 121 ≤ sampleOffsetCursor.Data.length ∧
    ∃ t, sampleReader.ReadTrade sampleOffsetCursor
        = some (t, ⟨sampleOffsetCursor.CurPos + 86, sampleOffsetCursor.Data⟩) ∧
      sampleReader.ReadNullableTrade sampleOffsetCursor
        = some (t, ⟨sampleOffsetCursor.CurPos + 86 + 35, sampleOffsetCursor.Data⟩) :=
  have hd : sampleOffsetCursor.Data.length < 2 ^ 64 := by decide
  have h121 : sampleOffsetCursor.CurPos + 121 ≤ sampleOffsetCursor.Data.length := by decide
  have h := (readTrade_cursor_advance sampleReader sampleOffsetCursor hd).1 (by decide)
  ⟨hd, h121, h.choose, h.choose_spec.1, (h.choose_spec.2 h121).1⟩

/-! ## Theorems: the maintenance sleep -/

/-- C26, at the failing input: 22:56:00 UTC is classified as maintenance, and so is the
instant 35 minutes later, 23:31:00 UTC, at which `MonitorWithRecovery` resumes. -/
theorem maintenance_sleep_ends_inside_window :
    isPDAXMaintenanceWindow ((22 * 3600 + 56 * 60) * 1000000000) = true ∧
    isPDAXMaintenanceWindow
      ((22 * 3600 + 56 * 60) * 1000000000 + (pdaxMaintenanceDurationMin : Int) * 60 * 1000000000)
      = true ∧
    (22 * 3600 + 56 * 60 : Int) * 1000000000 + (pdaxMaintenanceDurationMin : Int) * 60 * 1000000000
      = (23 * 3600 + 31 * 60) * 1000000000 := by
  decide

/-- After a failure classified as maintenance, the instant 35 minutes later is classified as
maintenance exactly when the failure came before 23:00:00 UTC. -/
theorem maintenance_sleep_characterised (now : Int) (h : isPDAXMaintenanceWindow now = true) :
    isPDAXMaintenanceWindow (now + (pdaxMaintenanceDurationMin : Int) * 60 * 1000000000) = true
      ↔ now / 1000000000 % 86400 < 23 * 3600 := by
  unfold isPDAXMaintenanceWindow clockParse clockFormat pdaxMaintenanceDurationMin at *
  simp only [Bool.and_eq_true, decide_eq_true_eq, Nat.cast_ofNat] at *
  omega

/-! ## Theorems: decoding order-book records -/

theorem f64ToInt64_zero : f64ToInt64 0 = 0 :=
  f64ToInt64_of_whole 0 0 (by norm_num [f64Val]) (by decide)

theorem f64ToInt64_one : f64ToInt64 0x3FF0000000000000 = 1 :=
  f64ToInt64_of_whole _ 1 (by norm_num [f64Val]) (by decide)

theorem f64ToInt64_two : f64ToInt64 0x4000000000000000 = 2 :=
  f64ToInt64_of_whole _ 2 (by norm_num [f64Val]) (by decide)

theorem orderUpdate_zero_eq : OrderUpdate.zero.eq OrderUpdate.zero = true := by decide

theorem readOrders_length : ∀ (left : Nat) (rc : ReadCursor) (orders : List Order)
    (rc1 : ReadCursor), readOrders left rc = some (orders, rc1) → orders.length = left
  | 0, rc, orders, rc1, h => by
    simp only [readOrders, Option.some.injEq, Prod.mk.injEq] at h
    rw [← h.1]; rfl
  | left + 1, rc, orders, rc1, h => by
    unfold readOrders at h
    cases h1 : readOrder rc with
    | none => rw [h1] at h; cases h
    | some r =>
      obtain ⟨o, rc2⟩ := r
      rw [h1] at h
      dsimp only at h
      cases h2 : readOrders left rc2 with
      | none => rw [h2] at h; cases h
      | some r2 =>
        obtain ⟨os, rc3⟩ := r2
        rw [h2] at h
        simp only [Option.some.injEq, Prod.mk.injEq] at h
        rw [← h.1, List.length_cons, readOrders_length left rc2 os rc3 h2]

theorem take_succ_set (l : List Order) (t : Nat) (o : Order) (h : t < l.length) :
    (l.set t o).take (t + 1) = l.take t ++ [o] := by
  induction l generalizing t with
  | nil => simp at h
  | cons a l ih =>
    cases t with
    | zero => simp
    | succ t =>
      simp only [List.length_cons, Nat.add_lt_add_iff_right] at h
      simp only [List.set_cons_succ, List.take_succ_cons, List.cons_append, ih t h]

/-- The loop of `readOrderBookInsert` leaves the slots below the counter as they are and fills
the others with the orders read, in the order of the wire. -/
theorem readOrderBookInsertLoop_eq : ∀ (left t : Nat) (rc : ReadCursor) (changes : List Order),
    changes.length = t + left →
    readOrderBookInsertLoop left t rc changes
      = (readOrders left rc).map (fun r => (changes.take t ++ r.1, r.2))
  | 0, t, rc, changes, h => by
    simp only [readOrderBookInsertLoop, readOrders, Option.map_some', List.append_nil]
    rw [List.take_of_length_le (by omega)]
  | left + 1, t, rc, changes, h => by
    unfold readOrderBookInsertLoop readOrders
    cases h1 : readOrder rc with
    | none => rfl
    | some r =>
      obtain ⟨o, rc2⟩ := r
      dsimp only
      rw [readOrderBookInsertLoop_eq left (t + 1) rc2 (changes.set t o)
        (by rw [List.length_set]; omega)]
      cases h2 : readOrders left rc2 with
      | none => rfl
      | some r2 =>
        obtain ⟨os, rc3⟩ := r2
        simp only [Option.map_some', take_succ_set changes t o (by omega), List.append_assoc,
          List.singleton_append]

/-- The function `readOrderBookInsert` in terms of `readOrders`. -/
theorem readOrderBookInsert_eq (rc : ReadCursor) :
    readOrderBookInsert rc
      = match rc.ReadUint16 with
        | none => none
        | some (number, rc) =>
          if number = 27 then
            match rc.ReadUint16 with
            | none => none
            | some (length, rc) => readOrders length rc
          else some ([], rc) := by
  unfold readOrderBookInsert
  cases h1 : rc.ReadUint16 with
  | none => rfl
  | some r =>
    obtain ⟨number, rc1⟩ := r
    dsimp only
    split_ifs with hn
    · cases h2 : rc1.ReadUint16 with
      | none => rfl
      | some r2 =>
        obtain ⟨length, rc2⟩ := r2
        dsimp only
        rw [readOrderBookInsertLoop_eq length 0 rc2 _ (by rw [List.length_replicate]; omega)]
        cases h3 : readOrders length rc2 with
        | none => rfl
        | some r3 => simp only [Option.map_some', List.take_zero, List.nil_append]
    · rfl

/-- The loop of `ReadOrderBook` on orders none of which equals the zero order: the book gains
the orders read, in the order of the wire. -/
theorem ReadOrderBookLoop_eq (grow : Nat → Nat → Nat) : ∀ (left t : Nat) (rc : ReadCursor)
    (ob : PDAXOrderBook) (orders : List Order) (rc1 : ReadCursor),
    ob.Orders.length = t → readOrders left rc = some (orders, rc1) →
    (∀ o ∈ orders, o.eq Order.zero = false) →
    ∃ ob1, ReadOrderBookLoop grow left t rc ob = some (ob1, rc1)
      ∧ ob1.Orders = ob.Orders ++ orders
  | 0, t, rc, ob, orders, rc1, ht, h, hz => by
    simp only [readOrders, Option.some.injEq, Prod.mk.injEq] at h
    refine ⟨ob, ?_, ?_⟩
    · rw [ReadOrderBookLoop, h.2]
    · rw [← h.1, List.append_nil]
  | left + 1, t, rc, ob, orders, rc1, ht, h, hz => by
    unfold readOrders at h
    unfold ReadOrderBookLoop
    cases h1 : readOrder rc with
    | none => rw [h1] at h; cases h
    | some r =>
      obtain ⟨o, rc2⟩ := r
      rw [h1] at h
      dsimp only at h ⊢
      cases h2 : readOrders left rc2 with
      | none => rw [h2] at h; cases h
      | some r2 =>
        obtain ⟨os, rc3⟩ := r2
        rw [h2] at h
        simp only [Option.some.injEq, Prod.mk.injEq] at h
        obtain ⟨ho, hrc⟩ := h
        subst ho
        subst hrc
        have hoz : o.eq Order.zero = false := hz o (List.mem_cons_self _ _)
        obtain ⟨ob1, hi, hob1⟩ := PDAXOrderBook.insert_eq_some grow ob t o (by omega)
        rw [PDAXOrderBook.Apply_mkInsert grow ob o t hoz, hi]
        dsimp only
        have hlen : ob1.Orders.length = t + 1 := by
          rw [hob1, List.take_of_length_le (by omega), List.drop_of_length_le (by omega)]
          simp only [List.length_append, List.length_cons, List.length_nil, ht]
        obtain ⟨ob2, hl, hob2⟩ := ReadOrderBookLoop_eq grow left (t + 1) rc2 ob1 os rc3 hlen h2
          (fun o1 h1 => hz o1 (List.mem_cons_of_mem _ h1))
        refine ⟨ob2, hl, ?_⟩
        rw [hob2, hob1, List.take_of_length_le (by omega), List.drop_of_length_le (by omega)]
        simp only [List.append_assoc, List.singleton_append, List.nil_append, List.cons_append]

theorem NewOrderBook_Orders : NewOrderBook.Orders = [] := rfl

set_option maxRecDepth 100000 in
/-- C29, as stated, fails: on a snapshot record with table number 27, length 1 and an order
record all of whose bytes are zero, `readOrderBookInsert` decodes one order from the
sub-record, and the book that `ReadOrderBook` returns holds none. -/
theorem readOrderBook_zero_order_counterexample :
    be16At sampleZeroSnapshot 17 = 27 ∧ be16At sampleZeroSnapshot 19 = 1 ∧
    readOrderBookInsert ⟨17, sampleZeroSnapshot⟩ = some ([Order.zero], ⟨118, sampleZeroSnapshot⟩) ∧
    (ReadOrderBook sampleGrow ⟨0, sampleZeroSnapshot⟩).map (fun r => (r.1.Orders, r.2))
      = some ([], ⟨118, sampleZeroSnapshot⟩) := by
  decide

/-- C29, amended: when the table number and the orders of the sub-record at offset 17 of a
snapshot record decode, which is what `readOrderBookInsert` does there, and none of the
decoded orders equals the zero order, `ReadOrderBook` returns a book whose `Orders()` are
these orders in the order of the wire, and leaves the cursor where `readOrderBookInsert`
leaves it; with table number 27 their number is the length field. -/
theorem readOrderBook_orders_eq_insert (grow : Nat → Nat → Nat) (p : Nat) (d : List Nat)
    (orders : List Order) (rc1 : ReadCursor) (hd : d.length < 2 ^ 64)
    (hdec : readOrderBookInsert ⟨p + 17, d⟩ = some (orders, rc1))
    (hnz : ∀ o ∈ orders, o.eq Order.zero = false) :
    ∃ ob, ReadOrderBook grow ⟨p, d⟩ = some (ob, rc1) ∧ ob.Orders = orders ∧
      (be16At d (p + 17) = 27 → orders.length = be16At d (p + 19)) := by
  rw [readOrderBookInsert_eq, ReadCursor.ReadUint16_if _ _ hd] at hdec
  split_ifs at hdec with h19
  dsimp only at hdec
  unfold ReadOrderBook
  rw [ReadCursor.ReadFloat64_ok p d (by omega) hd]
  dsimp only
  rw [ReadCursor.ReadFloat64_ok (p + 8) d (by omega) hd]
  dsimp only
  rw [ReadCursor.ReadUint8_ok (p + 8 + 8) d (by omega) hd]
  dsimp only
  rw [show p + 8 + 8 + 1 = p + 17 from rfl, ReadCursor.ReadUint16_ok (p + 17) d (by omega) hd]
  dsimp only
  split_ifs at hdec ⊢ with h27
  · rw [ReadCursor.ReadUint16_if _ _ hd] at hdec ⊢
    split_ifs at hdec ⊢ with h21
    dsimp only at hdec ⊢
    obtain ⟨ob, h1, h2⟩ := ReadOrderBookLoop_eq grow _ 0 _ NewOrderBook orders rc1 rfl hdec hnz
    refine ⟨ob, h1, ?_, fun _ => ?_⟩
    · rw [h2, NewOrderBook_Orders, List.nil_append]
    · exact readOrders_length _ _ _ _ hdec
  · simp only [Option.some.injEq, Prod.mk.injEq] at hdec
    refine ⟨NewOrderBook, ?_, ?_, fun h => absurd h h27⟩
    · rw [← hdec.2]
    · rw [← hdec.1]; rfl

set_option maxRecDepth 100000 in
theorem readOrderBook_orders_eq_insert_witness :
    (sampleSnapshot.length < 2 ^ 64 ∧
      readOrderBookInsert ⟨0 + 17, sampleSnapshot⟩
        = some ([sampleOrderA, sampleOrderB], ⟨215, sampleSnapshot⟩) ∧
      ∀ o ∈ [sampleOrderA, sampleOrderB], o.eq Order.zero = false) ∧
    ∃ ob, ReadOrderBook sampleGrow ⟨0, sampleSnapshot⟩ = some (ob, ⟨215, sampleSnapshot⟩) ∧
      ob.Orders = [sampleOrderA, sampleOrderB] ∧
      (be16At sampleSnapshot (0 + 17) = 27
        → [sampleOrderA, sampleOrderB].length = be16At sampleSnapshot (0 + 19)) :=
  ⟨by decide, readOrderBook_orders_eq_insert sampleGrow 0 sampleSnapshot
    [sampleOrderA, sampleOrderB] ⟨215, sampleSnapshot⟩ (by decide) (by decide) (by decide)⟩

/-- The loop of `ReadOrderBookUpdate` appends, entry by entry, the updates of the entries that
`readEntries` reads. -/
theorem ReadOrderBookUpdateLoop_eq : ∀ (left : Nat) (rc : ReadCursor)
    (acc : List OrderBookUpdate),
    ReadOrderBookUpdateLoop left rc acc
      = (readEntries left rc).map (fun r => (acc ++ r.1.flatMap entryUpdates, r.2))
  | 0, rc, acc => by
    simp only [ReadOrderBookUpdateLoop, readEntries, Option.map_some', List.flatMap_nil,
      List.append_nil]
  | left + 1, rc, acc => by
    unfold ReadOrderBookUpdateLoop readEntries
    cases h1 : readEntry rc with
    | none => rfl
    | some r =>
      obtain ⟨e, rc2⟩ := r
      dsimp only
      rw [ReadOrderBookUpdateLoop_eq left rc2 (acc ++ entryUpdates e)]
      cases h2 : readEntries left rc2 with
      | none => rfl
      | some r2 =>
        simp only [Option.map_some', List.flatMap_cons, List.append_assoc]

/-- The function `ReadOrderBookUpdate` returns the updates of the entries that
`readUpdateEntries` reads. -/
theorem ReadOrderBookUpdate_eq (rc : ReadCursor) :
    ReadOrderBookUpdate rc
      = (readUpdateEntries rc).map (fun r => (r.1.flatMap entryUpdates, r.2)) := by
  unfold ReadOrderBookUpdate readUpdateEntries
  cases h1 : rc.ReadFloat64 with
  | none => rfl
  | some r1 =>
    obtain ⟨v1, rc1⟩ := r1
    dsimp only
    cases h2 : rc1.ReadUint8 with
    | none => rfl
    | some r2 =>
      obtain ⟨v2, rc2⟩ := r2
      dsimp only
      cases h3 : rc2.ReadUint16 with
      | none => rfl
      | some r3 =>
        obtain ⟨count, rc3⟩ := r3
        dsimp only
        rw [ReadOrderBookUpdateLoop_eq count rc3 []]
        simp only [List.nil_append]

theorem readNullableFloat64_absent (rc rc1 : ReadCursor) (v : Nat × Nat)
    (h : readNullableFloat64 rc = some (v, rc1)) : v.1 = 0 → v.2 = 0 := by
  unfold readNullableFloat64 at h
  cases h1 : rc.ReadUint8 with
  | none => rw [h1] at h; cases h
  | some r =>
    obtain ⟨present, rc2⟩ := r
    rw [h1] at h
    dsimp only at h
    split_ifs at h with hp
    · cases h2 : rc2.ReadFloat64 with
      | none => rw [h2] at h; cases h
      | some r2 =>
        rw [h2] at h
        simp only [Option.some.injEq, Prod.mk.injEq] at h
        intro h0
        rw [← h.1] at h0
        exact absurd h0 hp
    · simp only [Option.some.injEq, Prod.mk.injEq] at h
      intro _
      rw [← h.1]

/-- An entry whose update-presence byte is 0 keeps the zero update, and one whose
remove-presence byte is 0 keeps the removal id 0. -/
theorem readEntry_absent (rc rc1 : ReadCursor) (e : EntryFields)
    (h : readEntry rc = some (e, rc1)) :
    (e.insertPresent = 0 → e.orders = []) ∧ (e.updatePresent = 0 → e.update = OrderUpdate.zero)
      ∧ (e.removePresent = 0 → e.removeID = 0) := by
  unfold readEntry at h
  cases h1 : rc.ReadUint8 with
  | none => rw [h1] at h; cases h
  | some r1 =>
  obtain ⟨insertPresent, rc2⟩ := r1
  rw [h1] at h
  dsimp only at h
  cases h2 : (if insertPresent ≠ 0 then readOrderBookInsert rc2 else some ([], rc2)) with
  | none => rw [h2] at h; cases h
  | some r2 =>
  obtain ⟨orders, rc3⟩ := r2
  rw [h2] at h
  dsimp only at h
  cases h3 : rc3.ReadUint8 with
  | none => rw [h3] at h; cases h
  | some r3 =>
  obtain ⟨updatePresent, rc4⟩ := r3
  rw [h3] at h
  dsimp only at h
  cases h4 : (if updatePresent ≠ 0 then readOrderUpdate rc4 else some (OrderUpdate.zero, rc4)) with
  | none => rw [h4] at h; cases h
  | some r4 =>
  obtain ⟨update, rc5⟩ := r4
  rw [h4] at h
  dsimp only at h
  cases h5 : readNullableFloat64 rc5 with
  | none => rw [h5] at h; cases h
  | some r5 =>
  obtain ⟨removeID, rc6⟩ := r5
  rw [h5] at h
  dsimp only at h
  cases h6 : readNullableFloat64 rc6 with
  | none => rw [h6] at h; cases h
  | some r6 =>
  obtain ⟨oldIndex, rc7⟩ := r6
  rw [h6] at h
  dsimp only at h
  cases h7 : readNullableFloat64 rc7 with
  | none => rw [h7] at h; cases h
  | some r7 =>
  obtain ⟨newIndex, rc8⟩ := r7
  rw [h7] at h
  dsimp only at h
  cases h8 : rc8.ReadUint8 with
  | none => rw [h8] at h; cases h
  | some r8 =>
  rw [h8] at h
  simp only [Option.some.injEq, Prod.mk.injEq] at h
  rw [← h.1]
  refine ⟨fun h0 => ?_, fun h0 => ?_, fun h0 => ?_⟩
  · dsimp only at h0 ⊢
    rw [if_neg (by simpa using h0)] at h2
    simp only [Option.some.injEq, Prod.mk.injEq] at h2
    exact h2.1.symm
  · dsimp only at h0 ⊢
    rw [if_neg (by simpa using h0)] at h4
    simp only [Option.some.injEq, Prod.mk.injEq] at h4
    exact h4.1.symm
  · exact readNullableFloat64_absent rc5 rc6 removeID h5 h0

theorem readEntries_mem : ∀ (left : Nat) (rc rc1 : ReadCursor) (es : List EntryFields),
    readEntries left rc = some (es, rc1) →
    ∀ e ∈ es, ∃ rc2 rc3, readEntry rc2 = some (e, rc3)
  | 0, rc, rc1, es, h, e, he => by
    simp only [readEntries, Option.some.injEq, Prod.mk.injEq] at h
    rw [← h.1] at he
    cases he
  | left + 1, rc, rc1, es, h, e, he => by
    unfold readEntries at h
    cases h1 : readEntry rc with
    | none => rw [h1] at h; cases h
    | some r =>
      obtain ⟨e1, rc2⟩ := r
      rw [h1] at h
      dsimp only at h
      cases h2 : readEntries left rc2 with
      | none => rw [h2] at h; cases h
      | some r2 =>
        obtain ⟨es1, rc3⟩ := r2
        rw [h2] at h
        simp only [Option.some.injEq, Prod.mk.injEq] at h
        rw [← h.1] at he
        rcases List.mem_cons.1 he with he1 | he1
        · exact ⟨rc, rc2, by rw [h1, he1]⟩
        · exact readEntries_mem left rc2 rc3 es1 h2 e he1

theorem readUpdateEntries_mem (rc rc1 : ReadCursor) (es : List EntryFields)
    (h : readUpdateEntries rc = some (es, rc1)) :
    ∀ e ∈ es, ∃ rc2 rc3, readEntry rc2 = some (e, rc3) := by
  unfold readUpdateEntries at h
  cases h1 : rc.ReadFloat64 with
  | none => rw [h1] at h; cases h
  | some r1 =>
    obtain ⟨v1, rc2⟩ := r1
    rw [h1] at h
    dsimp only at h
    cases h2 : rc2.ReadUint8 with
    | none => rw [h2] at h; cases h
    | some r2 =>
      obtain ⟨v2, rc3⟩ := r2
      rw [h2] at h
      dsimp only at h
      cases h3 : rc3.ReadUint16 with
      | none => rw [h3] at h; cases h
      | some r3 =>
        obtain ⟨count, rc4⟩ := r3
        rw [h3] at h
        exact readEntries_mem count rc4 rc1 es h

/-- What the updates of one entry look like. -/
theorem entryUpdates_shape (e : EntryFields) (u : OrderBookUpdate) (hu : u ∈ entryUpdates e) :
    (∃ o ∈ e.orders, u = OrderBookUpdate.mkInsert o (f64ToInt64 e.newIndex))
    ∨ (f64Eq e.removeID 0 = false ∧ u = OrderBookUpdate.mkRemove (f64ToInt64 e.oldIndex))
    ∨ (e.update.eq OrderUpdate.zero = false
        ∧ u = OrderBookUpdate.mkUpdate e.update (f64ToInt64 e.oldIndex)
            (f64ToInt64 e.newIndex)) := by
  unfold entryUpdates at hu
  rcases List.mem_append.1 hu with h1 | h3
  · rcases List.mem_append.1 h1 with h1 | h2
    · obtain ⟨o, ho, hou⟩ := List.mem_map.1 h1
      exact Or.inl ⟨o, ho, hou.symm⟩
    · cases hr : f64Eq e.removeID 0 with
      | true => rw [hr] at h2; simp at h2
      | false =>
        rw [hr] at h2
        simp only [Bool.not_false, if_true, List.mem_singleton] at h2
        exact Or.inr (Or.inl ⟨rfl, h2⟩)
  · cases hr : e.update.eq OrderUpdate.zero with
    | true => rw [hr] at h3; simp at h3
    | false =>
      rw [hr] at h3
      simp only [Bool.not_false, if_true, List.mem_singleton] at h3
      exact Or.inr (Or.inr ⟨rfl, h3⟩)

theorem entryUpdates_remove_iff (e : EntryFields) :
    (∃ u ∈ entryUpdates e, u.Remove = true) ↔ f64Eq e.removeID 0 = false := by
  constructor
  · rintro ⟨u, hu, hr⟩
    rcases entryUpdates_shape e u hu with ⟨o, _, h⟩ | ⟨h0, _⟩ | ⟨_, h⟩
    · rw [h] at hr; cases hr
    · exact h0
    · rw [h] at hr; cases hr
  · intro h
    refine ⟨OrderBookUpdate.mkRemove (f64ToInt64 e.oldIndex), ?_, rfl⟩
    unfold entryUpdates
    rw [h]
    simp

theorem entryUpdates_update_iff (e : EntryFields) :
    (∃ u ∈ entryUpdates e, u.Update.eq OrderUpdate.zero = false)
      ↔ e.update.eq OrderUpdate.zero = false := by
  constructor
  · rintro ⟨u, hu, hr⟩
    rcases entryUpdates_shape e u hu with ⟨o, _, h⟩ | ⟨_, h⟩ | ⟨h0, _⟩
    · rw [h] at hr
      have hr2 : OrderUpdate.zero.eq OrderUpdate.zero = false := hr
      rw [orderUpdate_zero_eq] at hr2
      cases hr2
    · rw [h] at hr
      have hr2 : OrderUpdate.zero.eq OrderUpdate.zero = false := hr
      rw [orderUpdate_zero_eq] at hr2
      cases hr2
    · exact h0
  · intro h
    refine ⟨OrderBookUpdate.mkUpdate e.update (f64ToInt64 e.oldIndex) (f64ToInt64 e.newIndex),
      ?_, h⟩
    unfold entryUpdates
    rw [h]
    simp

set_option maxRecDepth 100000 in
theorem readUpdateEntries_zeroInsert :
    readUpdateEntries ⟨0, sampleZeroInsertRecord⟩
      = some ([⟨1, [Order.zero], 0, OrderUpdate.zero, 0, 0, 0, 0⟩],
          ⟨118, sampleZeroInsertRecord⟩) := by
  decide

set_option maxRecDepth 100000 in
theorem readUpdateEntries_zeroPayload :
    readUpdateEntries ⟨0, sampleZeroPayloadRecord⟩
      = some ([⟨0, [], 1, OrderUpdate.zero, 1, 0, 0, 0⟩], ⟨67, sampleZeroPayloadRecord⟩) := by
  decide

set_option maxRecDepth 100000 in
theorem readUpdateEntries_sample :
    readUpdateEntries ⟨0, sampleUpdateRecord⟩
      = some ([⟨1, [sampleOrderA], 0, OrderUpdate.zero, 0, 0, 0, 0x4000000000000000⟩,
               ⟨0, [], 1, sampleDelta, 1, 0x4014000000000000, 0x3FF0000000000000,
                 0x3FF0000000000000⟩], ⟨198, sampleUpdateRecord⟩) := by
  decide

theorem ReadOrderBookUpdate_sample :
    ReadOrderBookUpdate ⟨0, sampleUpdateRecord⟩
      = some ([OrderBookUpdate.mkInsert sampleOrderA 2, OrderBookUpdate.mkRemove 1,
          OrderBookUpdate.mkUpdate sampleDelta 1 1], ⟨198, sampleUpdateRecord⟩) := by
  rw [ReadOrderBookUpdate_eq, readUpdateEntries_sample]
  simp only [Option.map_some', List.flatMap_cons, List.flatMap_nil, entryUpdates, List.map_cons,
    List.map_nil, f64ToInt64_zero, f64ToInt64_one, f64ToInt64_two, List.append_nil]
  rw [if_neg (by decide), if_neg (by decide), if_pos (by decide), if_pos (by decide)]
  rfl

/-- C24, as stated, fails: on an update record whose only entry holds an insert batch of one
order record with all bytes zero, `ReadOrderBookUpdate` returns one update, and that update
has no variant populated: its Insert order equals the zero order, its Update is zero and
Remove is not set. -/
theorem readOrderBookUpdate_no_variant_counterexample :
    ∃ u, ReadOrderBookUpdate ⟨0, sampleZeroInsertRecord⟩
        = some ([u], ⟨118, sampleZeroInsertRecord⟩) ∧
      u.Insert.eq Order.zero = true ∧ u.Update.eq OrderUpdate.zero = true ∧ u.Remove = false ∧
      u.isInsert = false ∧ u.isUpdate = false ∧ u.isRemove = false := by
  refine ⟨OrderBookUpdate.mkInsert Order.zero 0, ?_, by decide, by decide, by decide, by decide,
    by decide, by decide⟩
  rw [ReadOrderBookUpdate_eq, readUpdateEntries_zeroInsert]
  simp only [Option.map_some', List.flatMap_cons, List.flatMap_nil, entryUpdates, List.map_cons,
    List.map_nil, f64ToInt64_zero, List.append_nil]
  rw [if_neg (by decide), if_neg (by decide)]
  rfl

/-- C24, amended: every update that `ReadOrderBookUpdate` returns has at most one variant
populated. It is a removal with `NewIndex` 0, or an update with a non-zero `Update` only, or
it carries a decoded order in `Insert`, has a zero `Update`, `Remove` unset and `OldIndex` 0;
in the last case the Insert variant is populated unless the decoded order equals the zero
order. -/
theorem readOrderBookUpdate_variants (rc rc1 : ReadCursor) (us : List OrderBookUpdate)
    (h : ReadOrderBookUpdate rc = some (us, rc1)) :
    ∀ u ∈ us,
      (u.isRemove = true ∧ u.NewIndex = 0) ∨ u.isUpdate = true
      ∨ (u.Remove = false ∧ u.Update = OrderUpdate.zero ∧ u.OldIndex = 0
          ∧ (u.isInsert = true ∨ u.Insert.eq Order.zero = true)) := by
  intro u hu
  rw [ReadOrderBookUpdate_eq] at h
  cases h1 : readUpdateEntries rc with
  | none => rw [h1] at h; cases h
  | some r =>
    obtain ⟨es, rc2⟩ := r
    rw [h1] at h
    simp only [Option.map_some', Option.some.injEq, Prod.mk.injEq] at h
    rw [← h.1] at hu
    obtain ⟨e, _, hue⟩ := List.mem_flatMap.1 hu
    rcases entryUpdates_shape e u hue with ⟨o, _, h⟩ | ⟨_, h⟩ | ⟨h0, h⟩
    · refine Or.inr (Or.inr ?_)
      rw [h]
      refine ⟨rfl, rfl, rfl, ?_⟩
      cases ho : o.eq Order.zero with
      | true => exact Or.inr ho
      | false =>
        refine Or.inl ?_
        simp only [OrderBookUpdate.isInsert, OrderBookUpdate.mkInsert, ho,
          orderUpdate_zero_eq, Bool.not_false, Bool.and_self]
    · refine Or.inl ?_
      rw [h]
      refine ⟨?_, rfl⟩
      simp only [OrderBookUpdate.isRemove, OrderBookUpdate.mkRemove, Order.zero_eq_zero,
        orderUpdate_zero_eq, Bool.and_self]
    · refine Or.inr (Or.inl ?_)
      rw [h]
      simp only [OrderBookUpdate.isUpdate, OrderBookUpdate.mkUpdate, h0, Order.zero_eq_zero,
        Bool.not_false, Bool.and_self]

theorem readOrderBookUpdate_variants_witness :
    ReadOrderBookUpdate ⟨0, sampleUpdateRecord⟩
      = some ([OrderBookUpdate.mkInsert sampleOrderA 2, OrderBookUpdate.mkRemove 1,
          OrderBookUpdate.mkUpdate sampleDelta 1 1], ⟨198, sampleUpdateRecord⟩) ∧
    ∀ u ∈ [OrderBookUpdate.mkInsert sampleOrderA 2, OrderBookUpdate.mkRemove 1,
        OrderBookUpdate.mkUpdate sampleDelta 1 1],
      (u.isRemove = true ∧ u.NewIndex = 0) ∨ u.isUpdate = true
      ∨ (u.Remove = false ∧ u.Update = OrderUpdate.zero ∧ u.OldIndex = 0
          ∧ (u.isInsert = true ∨ u.Insert.eq Order.zero = true)) :=
  ⟨ReadOrderBookUpdate_sample,
    readOrderBookUpdate_variants ⟨0, sampleUpdateRecord⟩ ⟨198, sampleUpdateRecord⟩ _
      ReadOrderBookUpdate_sample⟩

/-- C25, as stated, fails: in the only entry of this update record the update-presence byte
and the remove-presence byte are 1, the payloads that follow them are zero, and
`ReadOrderBookUpdate` emits neither an Update nor a Remove. -/
theorem readOrderBookUpdate_presence_counterexample :
    ∃ e, readUpdateEntries ⟨0, sampleZeroPayloadRecord⟩
        = some ([e], ⟨67, sampleZeroPayloadRecord⟩) ∧
      e.updatePresent = 1 ∧ e.removePresent = 1 ∧
      sampleZeroPayloadRecord.getD 12 0 = 1 ∧ sampleZeroPayloadRecord.getD 55 0 = 1 ∧
      ReadOrderBookUpdate ⟨0, sampleZeroPayloadRecord⟩
        = some ([], ⟨67, sampleZeroPayloadRecord⟩) := by
  refine ⟨_, readUpdateEntries_zeroPayload, rfl, rfl, by decide, by decide, ?_⟩
  rw [ReadOrderBookUpdate_eq, readUpdateEntries_zeroPayload]
  simp only [Option.map_some', List.flatMap_cons, List.flatMap_nil, entryUpdates, List.map_nil,
    List.append_nil, List.nil_append]
  rw [if_neg (by decide), if_neg (by decide)]
  rfl

/-- C25, amended: `ReadOrderBookUpdate` returns the updates of the entries of the record, entry
by entry. For an entry it emits a Remove exactly when the remove-presence byte is non-zero and
the removal id read after it differs from 0, and an Update exactly when the update-presence
byte is non-zero and the update read after it differs from the zero update. -/
theorem readOrderBookUpdate_gating (rc rc1 : ReadCursor) (es : List EntryFields)
    (h : readUpdateEntries rc = some (es, rc1)) :
    ReadOrderBookUpdate rc = some (es.flatMap entryUpdates, rc1) ∧
    ∀ e ∈ es,
      ((∃ u ∈ entryUpdates e, u.Remove = true)
        ↔ (e.removePresent ≠ 0 ∧ f64Eq e.removeID 0 = false)) ∧
      ((∃ u ∈ entryUpdates e, u.Update.eq OrderUpdate.zero = false)
        ↔ (e.updatePresent ≠ 0 ∧ e.update.eq OrderUpdate.zero = false)) := by
  refine ⟨by rw [ReadOrderBookUpdate_eq, h]; rfl, fun e he => ?_⟩
  obtain ⟨rc2, rc3, hre⟩ := readUpdateEntries_mem rc rc1 es h e he
  obtain ⟨_, hupd, hrem⟩ := readEntry_absent rc2 rc3 e hre
  rw [entryUpdates_remove_iff, entryUpdates_update_iff]
  constructor
  · constructor
    · intro h0
      refine ⟨fun hp => ?_, h0⟩
      rw [hrem hp] at h0
      exact absurd h0 (by decide)
    · exact fun h0 => h0.2
  · constructor
    · intro h0
      refine ⟨fun hp => ?_, h0⟩
      rw [hupd hp] at h0
      exact absurd h0 (by decide)
    · exact fun h0 => h0.2

theorem readOrderBookUpdate_gating_witness :
    readUpdateEntries ⟨0, sampleUpdateRecord⟩
      = some ([⟨1, [sampleOrderA], 0, OrderUpdate.zero, 0, 0, 0, 0x4000000000000000⟩,
               ⟨0, [], 1, sampleDelta, 1, 0x4014000000000000, 0x3FF0000000000000,
                 0x3FF0000000000000⟩], ⟨198, sampleUpdateRecord⟩) ∧
    ReadOrderBookUpdate ⟨0, sampleUpdateRecord⟩
      = some (List.flatMap
          [⟨1, [sampleOrderA], 0, OrderUpdate.zero, 0, 0, 0, 0x4000000000000000⟩,
           ⟨0, [], 1, sampleDelta, 1, 0x4014000000000000, 0x3FF0000000000000,
             0x3FF0000000000000⟩] entryUpdates, ⟨198, sampleUpdateRecord⟩) :=
  ⟨readUpdateEntries_sample,
    (readOrderBookUpdate_gating ⟨0, sampleUpdateRecord⟩ ⟨198, sampleUpdateRecord⟩ _
      readUpdateEntries_sample).1⟩

/-! ## Theorems: the counter of the loop of `handleTrade` -/

/-- What `handleTradeLoop` returns, when it returns, is the repository with the trades of
`handleTradeLoopInserts` added. -/
theorem handleTradeLoop_inserts (tr : Reader) (tradeCount : Nat) :
    ∀ (fuel t : Nat) (rc : ReadCursor) (repo repo1 : List Trade) (rc1 : ReadCursor),
      handleTradeLoop tr tradeCount fuel t rc repo = some (repo1, rc1) →
      repo1 = repo ++ handleTradeLoopInserts tr tradeCount fuel t rc
  | 0, t, rc, repo, repo1, rc1, h => by
    rw [handleTradeLoop] at h
    cases h
  | fuel + 1, t, rc, repo, repo1, rc1, h => by
    rw [handleTradeLoop] at h
    rw [handleTradeLoopInserts]
    by_cases ht : t < tradeCount
    · rw [if_pos ht] at h ⊢
      simp only [Option.bind_eq_bind] at h
      cases h1 : rc.ReadUint8 with
      | none => rw [h1] at h; cases h
      | some r1 =>
        obtain ⟨v1, rc2⟩ := r1
        rw [h1, Option.some_bind] at h
        dsimp only at h ⊢
        cases h2 : rc2.ReadUint16 with
        | none => rw [h2] at h; cases h
        | some r2 =>
          obtain ⟨number, rc3⟩ := r2
          rw [h2, Option.some_bind] at h
          dsimp only at h ⊢
          by_cases hn : number = 128
          · rw [if_pos hn] at h ⊢
            cases h3 : rc3.ReadUint16 with
            | none => rw [h3] at h; cases h
            | some r3 =>
              obtain ⟨v3, rc4⟩ := r3
              rw [h3, Option.some_bind] at h
              dsimp only at h ⊢
              cases h4 : tr.ReadNullableTrade rc4 with
              | none => rw [h4] at h; cases h
              | some r4 =>
                obtain ⟨trade, rc5⟩ := r4
                rw [h4, Option.some_bind] at h
                dsimp only at h ⊢
                rw [handleTradeLoop_inserts tr tradeCount fuel _ rc5 _ repo1 rc1 h,
                  List.append_assoc, List.singleton_append]
          · rw [if_neg hn] at h ⊢
            exact handleTradeLoop_inserts tr tradeCount fuel _ rc3 _ repo1 rc1 h
    · rw [if_neg ht] at h ⊢
      simp only [Option.some.injEq, Prod.mk.injEq] at h
      rw [← h.1, List.append_nil]

/-- With the count 65535 the loop of `handleTrade` never returns: from an even counter value
every round either faults or goes on with an even counter value, which is below 65535. -/
theorem handleTradeLoop_never_returns (tr : Reader) :
    ∀ (fuel t : Nat) (rc : ReadCursor) (repo : List Trade), t % 2 = 0 → t < 2 ^ 16 →
      handleTradeLoop tr 65535 fuel t rc repo = none
  | 0, t, rc, repo, _, _ => by rw [handleTradeLoop]
  | fuel + 1, t, rc, repo, he, hlt => by
    have he2 : (t + 2) % 2 ^ 16 % 2 = 0 := by omega
    have hlt2 : (t + 2) % 2 ^ 16 < 2 ^ 16 := Nat.mod_lt _ (by decide)
    rw [handleTradeLoop, if_pos (by omega)]
    simp only [Option.bind_eq_bind]
    cases h1 : rc.ReadUint8 with
    | none => rfl
    | some r1 =>
      rw [Option.some_bind]
      cases h2 : r1.2.ReadUint16 with
      | none => rfl
      | some r2 =>
        rw [Option.some_bind]
        by_cases hn : r2.1 = 128
        · rw [if_pos hn]
          cases h3 : r2.2.ReadUint16 with
          | none => rfl
          | some r3 =>
            rw [Option.some_bind]
            cases h4 : tr.ReadNullableTrade r3.2 with
            | none => rfl
            | some r4 =>
              rw [Option.some_bind]
              exact handleTradeLoop_never_returns tr fuel _ _ _ he2 hlt2
        · rw [if_neg hn]
          exact handleTradeLoop_never_returns tr fuel _ _ _ he2 hlt2

/-- With a count of at most 65534 the counter of the loop of `handleTrade` does not wrap, and
the loop hands at most half the count, rounded up, to the repository. -/
theorem handleTradeLoopInserts_bound (tr : Reader) (tradeCount : Nat)
    (hn : tradeCount ≤ 65534) :
    ∀ (fuel t : Nat) (rc : ReadCursor), t % 2 = 0 →
      (handleTradeLoopInserts tr tradeCount fuel t rc).length ≤ (tradeCount + 1 - t) / 2
  | 0, t, rc, _ => by
    rw [handleTradeLoopInserts]
    exact Nat.zero_le _
  | fuel + 1, t, rc, he => by
    rw [handleTradeLoopInserts]
    by_cases ht : t < tradeCount
    · have hm : (t + 2) % 2 ^ 16 = t + 2 := Nat.mod_eq_of_lt (by omega)
      have ih := fun rc1 => handleTradeLoopInserts_bound tr tradeCount hn fuel (t + 2) rc1
        (by omega)
      rw [if_pos ht, hm]
      cases h1 : rc.ReadUint8 with
      | none => exact Nat.zero_le _
      | some r1 =>
        obtain ⟨v1, rc2⟩ := r1
        dsimp only
        cases h2 : rc2.ReadUint16 with
        | none => exact Nat.zero_le _
        | some r2 =>
          obtain ⟨number, rc3⟩ := r2
          dsimp only
          by_cases hnum : number = 128
          · rw [if_pos hnum]
            cases h3 : rc3.ReadUint16 with
            | none => exact Nat.zero_le _
            | some r3 =>
              obtain ⟨v3, rc4⟩ := r3
              dsimp only
              cases h4 : tr.ReadNullableTrade rc4 with
              | none => exact Nat.zero_le _
              | some r4 =>
                obtain ⟨trade, rc5⟩ := r4
                dsimp only
                have := ih rc5
                rw [List.length_cons]
                omega
          · rw [if_neg hnum]
            have := ih rc3
            omega
    · rw [if_neg ht]
      exact Nat.zero_le _

theorem repeatRecord_length (record : List Nat) :
    ∀ k, (repeatRecord record k).length = record.length * k
  | 0 => rfl
  | k + 1 => by
    rw [repeatRecord, List.length_append, repeatRecord_length record k, Nat.mul_succ,
      Nat.add_comm]

theorem repeatRecord_split (record : List Nat) :
    ∀ j m, repeatRecord record (j + (m + 1))
      = repeatRecord record j ++ record ++ repeatRecord record m
  | 0, m => by
    rw [Nat.zero_add, repeatRecord, repeatRecord, List.nil_append]
  | j + 1, m => by
    rw [show j + 1 + (m + 1) = (j + (m + 1)) + 1 from by omega, repeatRecord,
      repeatRecord_split record j m, repeatRecord, List.append_assoc, List.append_assoc,
      List.append_assoc]

set_option maxRecDepth 100000 in
theorem sampleSubRecord_length : sampleSubRecord.length = 126 := by decide

/-- One round of the loop on a sub-record with the number 128 hands its trade to the
repository and goes on 126 bytes further. -/
theorem handleTradeLoopInserts_trade (tr : Reader) (tradeCount fuel t p : Nat) (d : List Nat)
    (ht : t < tradeCount) (hd : d.length < 2 ^ 64)
    (hp : p + 126 ≤ d.length) (htag : be16At d (p + 1) = 128) :
    handleTradeLoopInserts tr tradeCount (fuel + 1) t ⟨p, d⟩
      = tradeAt tr d (p + 5)
          :: handleTradeLoopInserts tr tradeCount fuel ((t + 2) % 2 ^ 16) ⟨p + 126, d⟩ := by
  rw [handleTradeLoopInserts, if_pos ht]
  simp (disch := omega) only [ReadCursor.ReadUint8_ok, ReadCursor.ReadUint16_ok,
    Reader.ReadNullableTrade_ok, htag, if_true, Nat.add_assoc, Nat.reduceAdd]

/-- On a buffer that ends with `m` copies of `sampleSubRecord` from the cursor on, the loop
with the count 65535 hands `m` trades to the repository before it faults at the end of the
buffer, whatever the even value of its counter. -/
theorem handleTradeLoopInserts_repeat (tr : Reader) (pre : List Nat) :
    ∀ (m j n fuel t p : Nat) (d : List Nat), t % 2 = 0 → t < 2 ^ 16 → m + 1 ≤ fuel →
      n = j + m → p = pre.length + 126 * j → d = pre ++ repeatRecord sampleSubRecord n →
      d.length < 2 ^ 64 →
      (handleTradeLoopInserts tr 65535 fuel t ⟨p, d⟩).length = m
  | 0, j, n, fuel, t, p, d, he, hlt, hf, hn, hp, hd, hd64 => by
    obtain ⟨f, rfl⟩ : ∃ f, fuel = f + 1 := ⟨fuel - 1, by omega⟩
    have hlen : d.length = pre.length + 126 * n := by
      rw [hd, List.length_append, repeatRecord_length, sampleSubRecord_length]
    rw [handleTradeLoopInserts, if_pos (by omega), ReadCursor.ReadUint8_if _ _ hd64,
      if_neg (by omega)]
    rfl
  | m + 1, j, n, fuel, t, p, d, he, hlt, hf, hn, hp, hd, hd64 => by
    obtain ⟨f, rfl⟩ : ∃ f, fuel = f + 1 := ⟨fuel - 1, by omega⟩
    have hlen : d.length = pre.length + 126 * n := by
      rw [hd, List.length_append, repeatRecord_length, sampleSubRecord_length]
    have hlenj : (pre ++ repeatRecord sampleSubRecord j).length = pre.length + 126 * j := by
      rw [List.length_append, repeatRecord_length, sampleSubRecord_length]
    have h3 : 1 + 2 ≤ sampleSubRecord.length := by rw [sampleSubRecord_length]; decide
    have h128 : be16At sampleSubRecord 1 = 128 := by decide
    have htag : be16At d (p + 1) = 128 := by
      rw [hd, hn, repeatRecord_split, ← List.append_assoc, ← List.append_assoc,
        be16At_append_mid _ sampleSubRecord _ _ 1 (by rw [hlenj, hp]) h3]
      exact h128
    rw [handleTradeLoopInserts_trade tr 65535 f t p d (by omega) hd64 (by omega) htag,
      List.length_cons,
      handleTradeLoopInserts_repeat tr pre m (j + 1) n f ((t + 2) % 2 ^ 16) (p + 126) d
        (by omega) (Nat.mod_lt _ (by decide)) (by omega) (by omega) (by omega) hd hd64]

theorem sampleWrapPayload_length : sampleWrapPayload.length = 11 + 126 * 32769 := by
  unfold sampleWrapPayload
  rw [List.length_append, repeatRecord_length, sampleSubRecord_length]
  rfl

theorem sampleWrapPayload_count : be16At sampleWrapPayload 9 = 65535 := by
  unfold sampleWrapPayload
  rw [be16At_append_mid (List.replicate 9 0) [0xFF, 0xFF] _ 9 0 (by rfl) (by decide)]
  decide

theorem sampleWrapPayload_eq :
    sampleWrapPayload
      = (List.replicate 9 0 ++ [0xFF, 0xFF]) ++ repeatRecord sampleSubRecord 32769 := rfl

theorem sampleWrapPayload_inserts (tr : Reader) (fuel : Nat) (hf : 32770 ≤ fuel) :
    (handleTradeLoopInserts tr 65535 fuel 0 ⟨11, sampleWrapPayload⟩).length = 32769 :=
  handleTradeLoopInserts_repeat tr (List.replicate 9 0 ++ [0xFF, 0xFF]) 32769 0 32769
    fuel 0 11 sampleWrapPayload (by decide) (by decide) hf (by decide) (by decide)
    sampleWrapPayload_eq (by rw [sampleWrapPayload_length]; decide)

/-- The header of a trade-view payload: `handleTrade` reads the page id, the nullable byte and
the count, and runs its loop from offset 11. -/
theorem handleTradeInserts_header (tr : Reader) (d : List Nat) (h : 11 ≤ d.length)
    (hd : d.length < 2 ^ 64) :
    handleTradeInserts tr ⟨0, d⟩
      = handleTradeLoopInserts tr (be16At d 9) (d.length + 1) 0 ⟨11, d⟩ := by
  unfold handleTradeInserts
  rw [ReadCursor.ReadFloat64_ok 0 _ (by omega) (by omega)]
  dsimp only
  rw [ReadCursor.ReadUint8_ok (0 + 8) _ (by omega) (by omega)]
  dsimp only
  rw [ReadCursor.ReadUint16_ok (0 + 8 + 1) _ (by omega) (by omega)]

theorem handleTrade_header (tr : Reader) (d : List Nat) (repo : List Trade)
    (h : 11 ≤ d.length) (hd : d.length < 2 ^ 64) :
    handleTrade tr ⟨0, d⟩ repo
      = handleTradeLoop tr (be16At d 9) (d.length + 1) 0 ⟨11, d⟩ repo := by
  unfold handleTrade
  rw [ReadCursor.ReadFloat64_ok 0 _ (by omega) (by omega)]
  simp only [Option.bind_eq_bind, Option.some_bind]
  rw [ReadCursor.ReadUint8_ok (0 + 8) _ (by omega) (by omega)]
  simp only [Option.some_bind]
  rw [ReadCursor.ReadUint16_ok (0 + 8 + 1) _ (by omega) (by omega)]
  simp only [Option.some_bind]

/-- C28, at the failing input: on a payload whose count field is 65535, followed by 32769
trade sub-records, the counter of the loop of `handleTrade` comes back to 0 after round 32768
(`65534 + 2` wraps), the loop goes on, hands 32769 trades to the repository, more than half
the count rounded up, and then faults at the end of the buffer: `handleTrade` does not
return. With this count it returns on no buffer at all. -/
theorem handleTrade_counter_wraps (tr : Reader) :
    be16At sampleWrapPayload 9 = 65535 ∧
    (handleTradeInserts tr ⟨0, sampleWrapPayload⟩).length = 32769 ∧
    32769 > (65535 + 1) / 2 ∧
    handleTrade tr ⟨0, sampleWrapPayload⟩ [] = none ∧
    ∀ (fuel : Nat) (rc : ReadCursor) (repo : List Trade),
      handleTradeLoop tr 65535 fuel 0 rc repo = none := by
  have hlen := sampleWrapPayload_length
  have hnever := fun fuel rc repo =>
    handleTradeLoop_never_returns tr fuel 0 rc repo (by decide) (by decide)
  refine ⟨sampleWrapPayload_count, ?_, by decide, ?_, hnever⟩
  · rw [handleTradeInserts_header tr _ (by omega) (by omega), sampleWrapPayload_count]
    exact sampleWrapPayload_inserts tr _ (by omega)
  · rw [handleTrade_header tr _ _ (by omega) (by omega), sampleWrapPayload_count]
    exact hnever _ _ _

end PdaxMonitor
